import Mathlib

/-!
Shallow embedding of the hokkaido repository (talDoFlemis/hokkaido).

Two engines are modelled, faithfully translated from the Rust source:

* `Gojo` (src/src/gojo/mod.rs): a partially persistent red-black tree in the
  Driscoll-Sarnak-Sleator-Tarjan style, with fat nodes (bounded mod logs),
  node copying on overflow, and inverse pointers.
* `Konan` (src/src/konan/mod.rs): a packed-memory-array ordered set.

Keys and values are specialised to `Int` (the drivers use machine integers).
Raw pointers are modelled by an arena: a heap `Nat → Record` plus an
allocation counter; a `NodePtr` is an optional arena index together with the
source's `null` flag (the nil sentinel is a real allocated record whose flag
is set, exactly as in the source; `NodePtr::null()` carries no address).
Reading through an address-less pointer is undefined behaviour in the source;
here it yields the junk `Record.junk` (each such spot is commented).
All loops of the source are modelled with explicit fuel; exhausted fuel
returns the state unchanged / a default, and is never hit on the concrete
runs below.  Floating point does not occur in `Gojo`; the `Konan` density
arithmetic only ever manipulates dyadic rationals on which `f64` arithmetic
is exact, so it is modelled with `ℚ` (justified where used).
-/

namespace Hokkaido

/-- Mirrors `const MAX_MODS: usize = 6`. -/
def MAX_MODS : Nat := 6

/-- Mirrors `enum Color { Red, Black }` (Rust default is `Red`). -/
inductive Color where
  | Red
  | Black
deriving DecidableEq, Repr, Inhabited

/-- Mirrors `NodePtr`: a raw pointer (arena index, or none for
`ptr::null_mut()`) plus the explicit `null` flag.  The nil sentinel is
`⟨some 0, true⟩`; `NodePtr::null()` is `⟨none, true⟩`. -/
structure Ptr where
  addr : Option Nat
  null : Bool
deriving DecidableEq, Repr, Inhabited

/-- Mirrors `NodePtr::null()`. -/
def Ptr.nullPtr : Ptr := ⟨none, true⟩

/-- The nil sentinel pointer allocated by `Gojo::new` (always arena slot 0). -/
def Ptr.nilPtr : Ptr := ⟨some 0, true⟩

/-- Mirrors `enum ModData { Parent, Left, Right, Col }`. -/
inductive ModData where
  | parentD (p : Ptr)
  | leftD (p : Ptr)
  | rightD (p : Ptr)
  | colD (c : Color)
deriving DecidableEq, Repr, Inhabited

/-- Mirrors `struct Mod { data, version }`. -/
structure Mod where
  data : ModData
  version : Nat
deriving DecidableEq, Repr, Inhabited

/-- Mirrors `struct GojoNode` (keys and values specialised to `Int`). -/
structure Record where
  color : Color
  left : Ptr
  right : Ptr
  parent : Ptr
  bk_ptr_left : Ptr
  bk_ptr_right : Ptr
  bk_ptr_parent : Ptr
  key : Int
  value : Int
  mods : List Mod
  next_copy : Ptr
  version : Nat
deriving DecidableEq, Repr, Inhabited

/-- Mirrors `GojoNode::default()`: colour Red, all links `NodePtr::null()`,
key and value 0, empty mod log, version 0. -/
def Record.junk : Record :=
  { color := .Red, left := .nullPtr, right := .nullPtr, parent := .nullPtr
  , bk_ptr_left := .nullPtr, bk_ptr_right := .nullPtr, bk_ptr_parent := .nullPtr
  , key := 0, value := 0, mods := [], next_copy := .nullPtr, version := 0 }

/-- The arena of records. -/
def Heap : Type := Nat → Record

/-- Dereference a pointer.  An address-less pointer (`ptr::null_mut()`) is
undefined behaviour in the source; the model returns `Record.junk`. -/
def deref (h : Heap) (p : Ptr) : Record :=
  match p.addr with
  | some i => h i
  | none => Record.junk

/-- Point update of the arena. -/
def hset (h : Heap) (i : Nat) (r : Record) : Heap :=
  fun j => if j = i then r else h j

/-- The loop of `NodePtr::get_last_copy`: follow `next_copy` while the
successor exists and its birth version is at most `version`. -/
def glcLoop (h : Heap) (version : Nat) : Nat → Ptr → Ptr
  | 0, p => p
  | fuel + 1, p =>
    let nc := (deref h p).next_copy
    if nc.null = false ∧ (deref h nc).version ≤ version then glcLoop h version fuel nc
    else p

/-- Mirrors `NodePtr::get_last_copy`. -/
def get_last_copy (h : Heap) (fuel : Nat) (p : Ptr) (version : Nat) : Ptr :=
  if p.null then p else glcLoop h version fuel p

/-- The mod-log scan of `NodePtr::get_color`: walk entries in order, stop at
the first entry from a version strictly beyond `version`, keep the last
colour entry seen. -/
def modScanColor (version : Nat) : Color → List Mod → Color
  | c, [] => c
  | c, m :: ms =>
    if version < m.version then c
    else
      match m.data with
      | .colD d => modScanColor version d ms
      | _ => modScanColor version c ms

/-- Same scan for `parent` entries (from `NodePtr::parent`). -/
def modScanParent (version : Nat) : Ptr → List Mod → Ptr
  | v, [] => v
  | v, m :: ms =>
    if version < m.version then v
    else
      match m.data with
      | .parentD d => modScanParent version d ms
      | _ => modScanParent version v ms

/-- Same scan for `left` entries (from `NodePtr::left`). -/
def modScanLeft (version : Nat) : Ptr → List Mod → Ptr
  | v, [] => v
  | v, m :: ms =>
    if version < m.version then v
    else
      match m.data with
      | .leftD d => modScanLeft version d ms
      | _ => modScanLeft version v ms

/-- Same scan for `right` entries (from `NodePtr::right`). -/
def modScanRight (version : Nat) : Ptr → List Mod → Ptr
  | v, [] => v
  | v, m :: ms =>
    if version < m.version then v
    else
      match m.data with
      | .rightD d => modScanRight version d ms
      | _ => modScanRight version v ms

/-- Mirrors `NodePtr::get_color` (nil and null pointers read as Black). -/
def get_color (h : Heap) (fuel : Nat) (p : Ptr) (version : Nat) : Color :=
  if p.null then .Black
  else
    let r := deref h (get_last_copy h fuel p version)
    modScanColor version r.color r.mods

/-- Mirrors `NodePtr::parent`.  On a `null`-flagged pointer the source reads
the record's raw `parent` field (this is how the CLRS sentinel-parent trick
works during deletion); through an address-less pointer that read is UB and
yields junk here. -/
def parentP (h : Heap) (fuel : Nat) (p : Ptr) (version : Nat) : Ptr :=
  if p.null then (deref h p).parent
  else
    let r := deref h (get_last_copy h fuel p version)
    get_last_copy h fuel (modScanParent version r.parent r.mods) version

/-- Mirrors `NodePtr::left` (a null pointer returns itself). -/
def leftP (h : Heap) (fuel : Nat) (p : Ptr) (version : Nat) : Ptr :=
  if p.null then p
  else
    let r := deref h (get_last_copy h fuel p version)
    get_last_copy h fuel (modScanLeft version r.left r.mods) version

/-- Mirrors `NodePtr::right` (a null pointer returns itself). -/
def rightP (h : Heap) (fuel : Nat) (p : Ptr) (version : Nat) : Ptr :=
  if p.null then p
  else
    let r := deref h (get_last_copy h fuel p version)
    get_last_copy h fuel (modScanRight version r.right r.mods) version

/-- Mirrors `PartialEq for NodePtr`: two null-flagged pointers are equal,
a null and a non-null pointer differ, and otherwise KEYS are compared.
This key-based identity is load-bearing for several claims. -/
def ptr_eq (h : Heap) (p q : Ptr) : Bool :=
  if q.null ∧ p.null then true
  else if q.null ∨ p.null then false
  else decide ((deref h q).key = (deref h p).key)

/-- Mirrors `Ord for NodePtr` (`cmp` dereferences unconditionally). -/
def ptr_cmp (h : Heap) (p q : Ptr) : Ordering :=
  compare (deref h p).key (deref h q).key

/-- Mirrors `NodePtr::is_red_color`. -/
def is_red_color (h : Heap) (fuel : Nat) (p : Ptr) (version : Nat) : Bool :=
  if p.null then false else decide (get_color h fuel p version = .Red)

/-- Mirrors `NodePtr::is_black_color`. -/
def is_black_color (h : Heap) (fuel : Nat) (p : Ptr) (version : Nat) : Bool :=
  if p.null then true else decide (get_color h fuel p version = .Black)

/-- Mirrors `NodePtr::is_left_child`. -/
def is_left_child (h : Heap) (fuel : Nat) (p : Ptr) (version : Nat) : Bool :=
  let ptr := get_last_copy h fuel p version
  ptr_eq h (leftP h fuel (parentP h fuel ptr version) version) ptr

/-- Mirrors `NodePtr::is_right_child`. -/
def is_right_child (h : Heap) (fuel : Nat) (p : Ptr) (version : Nat) : Bool :=
  let ptr := get_last_copy h fuel p version
  ptr_eq h (rightP h fuel (parentP h fuel ptr version) version) ptr

/-- Mirrors `NodePtr::min_node`. -/
def min_node (h : Heap) (fuel : Nat) : Nat → Ptr → Nat → Ptr
  | 0, p, _ => p
  | loopFuel + 1, p, version =>
    if (leftP h fuel p version).null = false then
      min_node h fuel loopFuel (leftP h fuel p version) version
    else p

/-- Mirrors `NodePtr::max_node`. -/
def max_node (h : Heap) (fuel : Nat) : Nat → Ptr → Nat → Ptr
  | 0, p, _ => p
  | loopFuel + 1, p, version =>
    if (rightP h fuel p version).null = false then
      max_node h fuel loopFuel (rightP h fuel p version) version
    else p

/-- The upward loop of `NodePtr::next` (the in-order successor climb). -/
def nextClimb (h : Heap) (fuel : Nat) : Nat → Ptr → Nat → Ptr
  | 0, _, _ => Ptr.nullPtr
  | loopFuel + 1, temp, version =>
    if (parentP h fuel temp version).null then Ptr.nullPtr
    else if is_left_child h fuel temp version then parentP h fuel temp version
    else nextClimb h fuel loopFuel (parentP h fuel temp version) version

/-- Mirrors `NodePtr::next`. -/
def nextPtr (h : Heap) (fuel : Nat) (p : Ptr) (version : Nat) : Ptr :=
  if (rightP h fuel p version).null = false then
    min_node h fuel fuel (rightP h fuel p version) version
  else nextClimb h fuel fuel p version

/-- The heap together with its allocation counter (every `Box::into_raw` of
the source is an allocation at the next free index). -/
structure Arena where
  heap : Heap
  alloc : Nat

/-- One mod entry applied to a `(color, left, right, parent)` quadruple (the
loop body of `GojoNode::clone_with_latest_mods`). -/
def cloneStep (s : Color × Ptr × Ptr × Ptr) (m : Mod) : Color × Ptr × Ptr × Ptr :=
  match m.data with
  | .parentD p => (s.1, s.2.1, s.2.2.1, p)
  | .leftD l => (s.1, l, s.2.2.1, s.2.2.2)
  | .rightD rr => (s.1, s.2.1, rr, s.2.2.2)
  | .colD c => (c, s.2.1, s.2.2.1, s.2.2.2)

/-- Mirrors `GojoNode::clone_with_latest_mods`: baseline plus every mod entry
applied (no version cutoff), empty log, null `next_copy`, inverse pointers
aligned with the resolved links, version from the last mod entry. -/
def clone_with_latest_mods (r : Record) : Record :=
  let st := r.mods.foldl cloneStep (r.color, r.left, r.right, r.parent)
  let version := match r.mods.getLast? with
    | some m => m.version
    | none => r.version
  { color := st.1, left := st.2.1, right := st.2.2.1, parent := st.2.2.2
  , bk_ptr_left := st.2.1, bk_ptr_right := st.2.2.1, bk_ptr_parent := st.2.2.2
  , key := r.key, value := r.value, mods := [], next_copy := .nullPtr
  , version := version }

/-- Write one field of a baseline record (the `is_null` branch of
`set_modification`). -/
def writeBaseline (r : Record) : ModData → Record
  | .parentD p => { r with parent := p }
  | .leftD l => { r with left := l }
  | .rightD rr => { r with right := rr }
  | .colD c => { r with color := c }

/-- Write one field of a fresh copy, also updating the matching inverse
pointer (the overflow branch of `set_modification`). -/
def writeBaselineBk (r : Record) : ModData → Record
  | .parentD p => { r with parent := p, bk_ptr_parent := p }
  | .leftD l => { r with left := l, bk_ptr_left := l }
  | .rightD rr => { r with right := rr, bk_ptr_right := rr }
  | .colD c => { r with color := c }

/-- Update the inverse pointer matching a queued mod (the in-budget branch of
`set_modification`). -/
def writeBk (r : Record) : ModData → Record
  | .parentD p => { r with bk_ptr_parent := p }
  | .leftD l => { r with bk_ptr_left := l }
  | .rightD rr => { r with bk_ptr_right := rr }
  | .colD _ => r

/-- The record produced by the in-budget branch of `set_modification`: the
inverse pointer matching the mod is updated and the entry is appended. -/
def pushRec (r : Record) (d : ModData) (version : Nat) : Record :=
  { writeBk r d with mods := (writeBk r d).mods ++ [⟨d, version⟩] }

/-- The state change of the overflow branch of `set_modification`: clone the
full record with its latest mods, stamp the new birth `version`, apply the
overflowing write to the fresh baseline (with its inverse pointer), place
the copy at the next free slot and hook `old.next_copy` to it. -/
def overflowSetup (a : Arena) (i : Nat) (d : ModData) (version : Nat) : Arena :=
  let base := { clone_with_latest_mods (a.heap i) with version := version }
  let newRec := writeBaselineBk base d
  let j := a.alloc
  let newPtr : Ptr := ⟨some j, false⟩
  { heap := hset (hset a.heap i { a.heap i with next_copy := newPtr }) j newRec
  , alloc := j + 1 }

/-- Mirrors `NodePtr::set_modification`, the heart of the node store: append
to the mod log while the budget of `MAX_MODS` lasts, otherwise materialise a
copy record and notify the neighbours through the inverse pointers.  The
recursion through `set_parent` / `set_left` / `set_right` (each of which
first resolves its receiver with `get_last_copy`) is fuelled; fuel 0 is a
no-op and is never reached on the runs below.  The `get_last_copy` chain
walks inside the mutation path run on the arena's allocation counter as
fuel: `next_copy` always points to a strictly later allocation, so `alloc`
steps always reach the chain end, reproducing the source's unbounded loop
exactly. -/
def set_modification : Nat → Arena → Ptr → ModData → Nat → Arena
  | 0, a, _, _, _ => a
  | fuel + 1, a, p, d, version =>
    match p.addr with
    | none => a
      -- writing through `ptr::null_mut()` would be UB in the source;
      -- the engine never does it
    | some i =>
      if p.null then
        { a with heap := hset a.heap i (writeBaseline (a.heap i) d) }
      else if (a.heap i).mods.length < MAX_MODS then
        { a with heap := hset a.heap i (pushRec (a.heap i) d version) }
      else
        -- overflow: clone with latest mods, stamp the new birth version,
        -- apply the write to the fresh baseline, link old.next_copy = new
        let j := a.alloc
        let newPtr : Ptr := ⟨some j, false⟩
        let a1 : Arena := overflowSetup a i d version
        -- notify the left child recorded in the inverse pointer
        let bkl := (a1.heap j).bk_ptr_left
        let a2 :=
          if bkl.null = false ∧ is_left_child a1.heap a1.alloc bkl version = true then
            set_modification fuel a1
              (get_last_copy a1.heap a1.alloc bkl version) (.parentD newPtr) version
          else a1
        -- notify the right child recorded in the inverse pointer
        let bkr := (a2.heap j).bk_ptr_right
        let a3 :=
          if bkr.null = false ∧ is_right_child a2.heap a2.alloc bkr version = true then
            set_modification fuel a2
              (get_last_copy a2.heap a2.alloc bkr version) (.parentD newPtr) version
          else a2
        let bkp := (a3.heap j).bk_ptr_parent
        if bkp.null then a3
          -- the root was copied; the engine re-resolves it afterwards
        else if ptr_eq a3.heap p (leftP a3.heap a3.alloc bkp version) then
          set_modification fuel a3
            (get_last_copy a3.heap a3.alloc bkp version) (.leftD newPtr) version
        else if ptr_eq a3.heap p (rightP a3.heap a3.alloc bkp version) then
          set_modification fuel a3
            (get_last_copy a3.heap a3.alloc bkp version) (.rightD newPtr) version
        else a3

/-- Mirrors `NodePtr::set_parent`. -/
def set_parent (fuel : Nat) (a : Arena) (p target : Ptr) (version : Nat) : Arena :=
  set_modification fuel a (get_last_copy a.heap a.alloc p version) (.parentD target) version

/-- Mirrors `NodePtr::set_left`. -/
def set_left (fuel : Nat) (a : Arena) (p target : Ptr) (version : Nat) : Arena :=
  set_modification fuel a (get_last_copy a.heap a.alloc p version) (.leftD target) version

/-- Mirrors `NodePtr::set_right`. -/
def set_right (fuel : Nat) (a : Arena) (p target : Ptr) (version : Nat) : Arena :=
  set_modification fuel a (get_last_copy a.heap a.alloc p version) (.rightD target) version

/-- Mirrors `NodePtr::set_color` (no-op on null pointers and when the colour
already matches at this version). -/
def set_color (fuel : Nat) (a : Arena) (p : Ptr) (c : Color) (version : Nat) : Arena :=
  if p.null then a
  else
    let ptr := get_last_copy a.heap a.alloc p version
    if c = get_color a.heap a.alloc ptr version then a
    else set_modification fuel a ptr (.colD c) version

/-- Mirrors `NodePtr::set_red_color`. -/
def set_red_color (fuel : Nat) (a : Arena) (p : Ptr) (version : Nat) : Arena :=
  set_color fuel a p .Red version

/-- Mirrors `NodePtr::set_black_color`. -/
def set_black_color (fuel : Nat) (a : Arena) (p : Ptr) (version : Nat) : Arena :=
  set_color fuel a p .Black version

/-- Mirrors `struct Gojo` (keys and values specialised to `Int`). -/
structure Gojo where
  heap : Heap
  alloc : Nat
  root : Ptr
  len : Nat
  curr_version : Nat
  roots : List (Ptr × Nat)
  nil : Ptr

/-- The arena view of the engine state. -/
def Gojo.arena (g : Gojo) : Arena := ⟨g.heap, g.alloc⟩

/-- Write an arena back into the engine state. -/
def Gojo.withArena (g : Gojo) (a : Arena) : Gojo :=
  { g with heap := a.heap, alloc := a.alloc }

/-- Mirrors `Gojo::new`: allocate the nil sentinel (black, self-linked),
start the registry with `roots[0] = (nil, 0)` and — exactly as the source
does — leave the cached `root` field at `NodePtr::null()`. -/
def Gojo.new : Gojo :=
  let nilRec : Record :=
    { Record.junk with color := .Black, left := .nilPtr, right := .nilPtr, parent := .nilPtr }
  { heap := hset (fun _ => Record.junk) 0 nilRec
  , alloc := 1
  , root := .nullPtr
  , len := 0
  , curr_version := 0
  , roots := [(.nilPtr, 0)]
  , nil := .nilPtr }

/-- Mirrors `Gojo::latest_version`. -/
def Gojo.latest_version (g : Gojo) : Nat := g.curr_version

/-- Mirrors `Gojo::len`. -/
def Gojo.lenAt (g : Gojo) (version : Nat) : Option Nat :=
  if g.latest_version < version then none
  else some (g.roots.getD version (.nullPtr, 0)).2

/-- Mirrors `Gojo::get_root`. -/
def Gojo.get_root (g : Gojo) (version : Nat) : Ptr :=
  if g.latest_version < version then .nullPtr
  else (g.roots.getD version (.nullPtr, 0)).1

/-- Mirrors `Gojo::is_empty`. -/
def Gojo.is_empty (g : Gojo) (version : Nat) : Bool :=
  if g.latest_version < version then true
  else decide ((g.roots.getD version (.nullPtr, 0)).2 = 0)

/-- Mirrors `Gojo::left_rotate` (each link write is re-read from the current
heap, exactly in source order, because any write may copy a node). -/
def left_rotate (fuel : Nat) (g : Gojo) (node : Ptr) : Gojo :=
  let version := g.curr_version
  let caba := node
  let temp := rightP g.heap fuel caba version
  let g1 := g.withArena (set_right fuel g.arena caba (leftP g.heap fuel temp version) version)
  let g2 :=
    if (leftP g1.heap fuel temp version).null = false then
      g1.withArena (set_parent fuel g1.arena (leftP g1.heap fuel temp version) caba version)
    else g1
  let g3 := g2.withArena (set_parent fuel g2.arena temp (parentP g2.heap fuel caba version) version)
  let g4 :=
    if (parentP g3.heap fuel caba version).null then { g3 with root := temp }
    else if is_left_child g3.heap fuel caba version then
      g3.withArena (set_left fuel g3.arena (parentP g3.heap fuel caba version) temp version)
    else
      g3.withArena (set_right fuel g3.arena (parentP g3.heap fuel caba version) temp version)
  let g5 := g4.withArena (set_left fuel g4.arena temp caba version)
  g5.withArena (set_parent fuel g5.arena caba temp version)

/-- Mirrors `Gojo::right_rotate`. -/
def right_rotate (fuel : Nat) (g : Gojo) (node : Ptr) : Gojo :=
  let version := g.curr_version
  let caba := node
  let temp := leftP g.heap fuel caba version
  let g1 := g.withArena (set_left fuel g.arena caba (rightP g.heap fuel temp version) version)
  let g2 :=
    if (rightP g1.heap fuel temp version).null = false then
      g1.withArena (set_parent fuel g1.arena (rightP g1.heap fuel temp version) caba version)
    else g1
  let g3 := g2.withArena (set_parent fuel g2.arena temp (parentP g2.heap fuel caba version) version)
  let g4 :=
    if (parentP g3.heap fuel caba version).null then { g3 with root := temp }
    else if is_right_child g3.heap fuel caba version then
      g3.withArena (set_right fuel g3.arena (parentP g3.heap fuel caba version) temp version)
    else
      g3.withArena (set_left fuel g3.arena (parentP g3.heap fuel caba version) temp version)
  let g5 := g4.withArena (set_right fuel g4.arena temp caba version)
  g5.withArena (set_parent fuel g5.arena caba temp version)

/-- Mirrors the `while` loop and epilogue of `Gojo::insert_fixup`.  The loop
guard `dude != self.root` uses the source's key-based pointer equality, which
is what breaks red-black repair for duplicate keys. -/
def insert_fixup_loop (fuel : Nat) : Nat → Gojo → Ptr → Gojo
  | 0, g, _ => g
  | loopFuel + 1, g, dude =>
    let version := g.curr_version
    if ptr_eq g.heap dude g.root = false ∧
        is_red_color g.heap fuel (parentP g.heap fuel dude version) version = true then
      if is_left_child g.heap fuel (parentP g.heap fuel dude version) version then
        let uncle :=
          rightP g.heap fuel (parentP g.heap fuel (parentP g.heap fuel dude version) version) version
        if is_red_color g.heap fuel uncle version then
          -- Case 1
          let g1 := g.withArena (set_black_color fuel g.arena (parentP g.heap fuel dude version) version)
          let g2 := g1.withArena (set_black_color fuel g1.arena uncle version)
          let g3 := g2.withArena
            (set_red_color fuel g2.arena
              (parentP g2.heap fuel (parentP g2.heap fuel dude version) version) version)
          insert_fixup_loop fuel loopFuel g3
            (parentP g3.heap fuel (parentP g3.heap fuel dude version) version)
        else
          -- Case 2
          let step := if is_right_child g.heap fuel dude version then
              let d := parentP g.heap fuel dude version
              (left_rotate fuel g d, d)
            else (g, dude)
          let g1 := step.1
          let dude1 := step.2
          -- Case 3
          let g2 := g1.withArena
            (set_black_color fuel g1.arena (parentP g1.heap fuel dude1 version) version)
          let g3 := g2.withArena
            (set_red_color fuel g2.arena
              (parentP g2.heap fuel (parentP g2.heap fuel dude1 version) version) version)
          let g4 := right_rotate fuel g3
            (parentP g3.heap fuel (parentP g3.heap fuel dude1 version) version)
          insert_fixup_loop fuel loopFuel g4 dude1
      else
        let uncle :=
          leftP g.heap fuel (parentP g.heap fuel (parentP g.heap fuel dude version) version) version
        if is_red_color g.heap fuel uncle version then
          -- Case 4 (note: the source blackens the uncle first on this arm)
          let g1 := g.withArena (set_black_color fuel g.arena uncle version)
          let g2 := g1.withArena (set_black_color fuel g1.arena (parentP g1.heap fuel dude version) version)
          let g3 := g2.withArena
            (set_red_color fuel g2.arena
              (parentP g2.heap fuel (parentP g2.heap fuel dude version) version) version)
          insert_fixup_loop fuel loopFuel g3
            (parentP g3.heap fuel (parentP g3.heap fuel dude version) version)
        else
          -- Case 5
          let step := if is_left_child g.heap fuel dude version then
              let d := parentP g.heap fuel dude version
              (right_rotate fuel g d, d)
            else (g, dude)
          let g1 := step.1
          let dude1 := step.2
          -- Case 6
          let g2 := g1.withArena
            (set_black_color fuel g1.arena (parentP g1.heap fuel dude1 version) version)
          let g3 := g2.withArena
            (set_red_color fuel g2.arena
              (parentP g2.heap fuel (parentP g2.heap fuel dude1 version) version) version)
          let g4 := left_rotate fuel g3
            (parentP g3.heap fuel (parentP g3.heap fuel dude1 version) version)
          insert_fixup_loop fuel loopFuel g4 dude1
    else
      -- loop exit: blacken the root and chase its last copy
      let pnr := g.root
      let g1 := g.withArena (set_black_color fuel g.arena pnr version)
      { g1 with root := get_last_copy g1.heap fuel pnr version }

/-- Mirrors `Gojo::insert_fixup`. -/
def insert_fixup (fuel : Nat) (g : Gojo) (node : Ptr) : Gojo :=
  insert_fixup_loop fuel fuel g node

/-- The descent loop of `Gojo::insert`: find the attachment leaf, equal keys
going right. -/
def insertDescent (h : Heap) (fuel : Nat) (nodeKey : Int) (version : Nat) :
    Nat → Ptr → Ptr → Ptr
  | 0, _, y => y
  | loopFuel + 1, x, y =>
    if x.null then y
    else
      let x1 := match compare nodeKey (deref h x).key with
        | .lt => leftP h fuel x version
        | _ => rightP h fuel x version
      insertDescent h fuel nodeKey version loopFuel x1 x

/-- Mirrors `Gojo::insert`. -/
def Gojo.insert (fuel : Nat) (g : Gojo) (k v : Int) : Gojo :=
  let len1 := g.len + 1
  -- NodePtr::new(k, v)
  let idx := g.alloc
  let node : Ptr := ⟨some idx, false⟩
  let g0 := { g with heap := hset g.heap idx { Record.junk with key := k, value := v }
                   , alloc := idx + 1, len := len1 }
  let x0 := (g0.roots.getD g0.curr_version (.nullPtr, 0)).1
  let g1 := { g0 with curr_version := g0.curr_version + 1 }
  let cv := g1.curr_version
  let g2 := { g1 with heap := hset g1.heap idx { g1.heap idx with version := cv } }
  let y := insertDescent g2.heap fuel k cv fuel x0 .nullPtr
  let nilRef := { g2.heap idx with parent := g2.nil, left := g2.nil, right := g2.nil }
  let g3 := { g2 with heap := hset g2.heap idx nilRef }
  let g4 :=
    if y.null then { g3 with root := node }
    else
      let yRef := { g3.heap idx with parent := y, bk_ptr_parent := y }
      let g3a := { g3 with heap := hset g3.heap idx yRef }
      match compare k (deref g3a.heap y).key with
      | .lt => g3a.withArena (set_left fuel g3a.arena y node cv)
      | _ => g3a.withArena (set_right fuel g3a.arena y node cv)
  let g5 := insert_fixup fuel g4 node
  { g5 with roots := g5.roots ++ [(g5.root, len1)] }

/-- The search loop of `Gojo::find_node`. -/
def findLoop (h : Heap) (fuel : Nat) (k : Int) (version : Nat) : Nat → Ptr → Ptr
  | 0, _ => .nullPtr
  | loopFuel + 1, temp =>
    match compare k (deref h temp).key with
    | .eq => temp
    | .lt =>
      if (leftP h fuel temp version).null then .nullPtr
      else findLoop h fuel k version loopFuel (leftP h fuel temp version)
    | .gt =>
      if (rightP h fuel temp version).null then .nullPtr
      else findLoop h fuel k version loopFuel (rightP h fuel temp version)

/-- Mirrors `Gojo::find_node`. -/
def Gojo.find_node (g : Gojo) (fuel : Nat) (k : Int) (version : Nat) : Ptr :=
  if g.curr_version < version then .nullPtr
  else findLoop g.heap fuel k version fuel (g.roots.getD version (.nullPtr, 0)).1

/-- Mirrors `Gojo::get`. -/
def Gojo.get (g : Gojo) (fuel : Nat) (k : Int) (version : Nat) : Option Int :=
  let node := g.find_node fuel k version
  if node.null then none else some (deref g.heap node).value

/-- Mirrors `Gojo::contains_key`. -/
def Gojo.contains_key (g : Gojo) (fuel : Nat) (k : Int) (version : Nat) : Bool :=
  (g.find_node fuel k version).null = false

/-- The climb of `Gojo::successor_by_node`: up while the current node is a
right child, answering the parent where the climb stops. -/
def succClimb (h : Heap) (fuel : Nat) (version : Nat) : Nat → Ptr → Ptr → Ptr
  | 0, _, y => y
  | loopFuel + 1, x, y =>
    if y.null = false ∧ is_right_child h fuel x version = true then
      succClimb h fuel version loopFuel y (parentP h fuel y version)
    else y

/-- Mirrors `Gojo::successor_by_node`. -/
def Gojo.successor_by_node (g : Gojo) (fuel : Nat) (node : Ptr) (version : Nat) : Ptr :=
  if (rightP g.heap fuel node version).null = false then
    min_node g.heap fuel fuel (rightP g.heap fuel node version) version
  else succClimb g.heap fuel version fuel node (parentP g.heap fuel node version)

/-- The descent loop of `Gojo::successor_by_key` (equal keys go right). -/
def succDescent (h : Heap) (fuel : Nat) (k : Int) (version : Nat) : Nat → Ptr → Ptr
  | 0, x => x
  | loopFuel + 1, x =>
    let next := match compare k (deref h x).key with
      | .lt => leftP h fuel x version
      | _ => rightP h fuel x version
    if next.null then x else succDescent h fuel k version loopFuel next

/-- Mirrors `Gojo::successor_by_key`. -/
def Gojo.successor_by_key (g : Gojo) (fuel : Nat) (k : Int) (version : Nat) : Option Int :=
  if g.latest_version < version then none
  else
    let root := (g.roots.getD version (.nullPtr, 0)).1
    let x := succDescent g.heap fuel k version fuel root
    if x.null then none
    else if compare k (deref g.heap x).key = .lt then some (deref g.heap x).value
    else
      let succ := g.successor_by_node fuel x version
      if succ.null then none else some (deref g.heap succ).value

/-- The climb of `Gojo::predecessor_helper`. -/
def predClimb (h : Heap) (fuel : Nat) (version : Nat) : Nat → Ptr → Ptr → Ptr
  | 0, _, y => y
  | loopFuel + 1, x, y =>
    if y.null = false ∧ is_left_child h fuel x version = true then
      predClimb h fuel version loopFuel y (parentP h fuel y version)
    else y

/-- Mirrors `Gojo::predecessor_helper`. -/
def Gojo.predecessor_helper (g : Gojo) (fuel : Nat) (node : Ptr) (version : Nat) : Ptr :=
  if (leftP g.heap fuel node version).null = false then
    max_node g.heap fuel fuel (leftP g.heap fuel node version) version
  else predClimb g.heap fuel version fuel node (parentP g.heap fuel node version)

/-- Mirrors `Gojo::predecessor`. -/
def Gojo.predecessor (g : Gojo) (fuel : Nat) (k : Int) (version : Nat) : Option Int :=
  let node := g.find_node fuel k version
  if node.null then none
  else
    let succ := g.predecessor_helper fuel node version
    if succ.null then none else some (deref g.heap succ).value

/-- Mirrors `Gojo::transplant`. -/
def transplant (fuel : Nat) (g : Gojo) (u other : Ptr) : Gojo :=
  let version := g.curr_version
  let v := other
  let g1 :=
    if (parentP g.heap fuel u version).null then { g with root := v }
    else if is_left_child g.heap fuel u version then
      g.withArena (set_left fuel g.arena (parentP g.heap fuel u version) v version)
    else
      g.withArena (set_right fuel g.arena (parentP g.heap fuel u version) v version)
  g1.withArena (set_parent fuel g1.arena v (parentP g1.heap fuel u version) version)

/-- Mirrors the `while` loop and epilogue of `Gojo::delete_fixup` (the guard
`x != self.root` again uses key-based pointer equality). -/
def delete_fixup_loop (fuel : Nat) : Nat → Gojo → Ptr → Gojo
  | 0, g, _ => g
  | loopFuel + 1, g, x =>
    let version := g.curr_version
    if ptr_eq g.heap x g.root = false ∧ is_black_color g.heap fuel x version = true then
      if is_left_child g.heap fuel x version then
        let brother := rightP g.heap fuel (parentP g.heap fuel x version) version
        -- Case 1
        let step1 := if is_red_color g.heap fuel brother version then
            let ga := g.withArena (set_black_color fuel g.arena brother version)
            let gb := ga.withArena (set_red_color fuel ga.arena (parentP ga.heap fuel x version) version)
            let gc := left_rotate fuel gb (parentP gb.heap fuel x version)
            (gc, rightP gc.heap fuel (parentP gc.heap fuel x version) version)
          else (g, brother)
        let g1 := step1.1
        let brother1 := step1.2
        -- Case 2
        if is_black_color g1.heap fuel (leftP g1.heap fuel brother1 version) version = true ∧
            is_black_color g1.heap fuel (rightP g1.heap fuel brother1 version) version = true then
          let g2 := g1.withArena (set_red_color fuel g1.arena brother1 version)
          delete_fixup_loop fuel loopFuel g2 (parentP g2.heap fuel x version)
        else
          -- Case 3
          let step2 := if is_black_color g1.heap fuel (rightP g1.heap fuel brother1 version) version then
              let ga := g1.withArena
                (set_black_color fuel g1.arena (leftP g1.heap fuel brother1 version) version)
              let gb := ga.withArena (set_red_color fuel ga.arena brother1 version)
              let gc := right_rotate fuel gb brother1
              (gc, rightP gc.heap fuel (parentP gc.heap fuel x version) version)
            else (g1, brother1)
          let g2 := step2.1
          let brother2 := step2.2
          -- Case 4
          let g3 := g2.withArena
            (set_color fuel g2.arena brother2
              (get_color g2.heap fuel (parentP g2.heap fuel x version) version) version)
          let g4 := g3.withArena (set_black_color fuel g3.arena (parentP g3.heap fuel x version) version)
          let g5 := g4.withArena (set_black_color fuel g4.arena (rightP g4.heap fuel brother2 version) version)
          let g6 := left_rotate fuel g5 (parentP g5.heap fuel x version)
          delete_fixup_loop fuel loopFuel g6 g6.root
      else
        let brother := leftP g.heap fuel (parentP g.heap fuel x version) version
        -- Case 1
        let step1 := if is_red_color g.heap fuel brother version then
            let ga := g.withArena (set_black_color fuel g.arena brother version)
            let gb := ga.withArena (set_red_color fuel ga.arena (parentP ga.heap fuel x version) version)
            let gc := right_rotate fuel gb (parentP gb.heap fuel x version)
            (gc, leftP gc.heap fuel (parentP gc.heap fuel x version) version)
          else (g, brother)
        let g1 := step1.1
        let brother1 := step1.2
        -- Case 2
        if is_black_color g1.heap fuel (rightP g1.heap fuel brother1 version) version = true ∧
            is_black_color g1.heap fuel (leftP g1.heap fuel brother1 version) version = true then
          let g2 := g1.withArena (set_red_color fuel g1.arena brother1 version)
          delete_fixup_loop fuel loopFuel g2 (parentP g2.heap fuel x version)
        else
          -- Case 3
          let step2 := if is_black_color g1.heap fuel (leftP g1.heap fuel brother1 version) version then
              let ga := g1.withArena
                (set_black_color fuel g1.arena (rightP g1.heap fuel brother1 version) version)
              let gb := ga.withArena (set_red_color fuel ga.arena brother1 version)
              let gc := left_rotate fuel gb brother1
              (gc, leftP gc.heap fuel (parentP gc.heap fuel x version) version)
            else (g1, brother1)
          let g2 := step2.1
          let brother2 := step2.2
          -- Case 4
          let g3 := g2.withArena
            (set_color fuel g2.arena brother2
              (get_color g2.heap fuel (parentP g2.heap fuel x version) version) version)
          let g4 := g3.withArena (set_black_color fuel g3.arena (parentP g3.heap fuel x version) version)
          let g5 := g4.withArena (set_black_color fuel g4.arena (leftP g4.heap fuel brother2 version) version)
          let g6 := right_rotate fuel g5 (parentP g5.heap fuel x version)
          delete_fixup_loop fuel loopFuel g6 g6.root
    else
      g.withArena (set_black_color fuel g.arena x version)

/-- Mirrors `Gojo::delete_fixup`. -/
def delete_fixup (fuel : Nat) (g : Gojo) (x : Ptr) : Gojo :=
  delete_fixup_loop fuel fuel g x

/-- Mirrors `Gojo::delete`; answers the new state and the key/value pair of
the node `y` that was physically removed (for a two-child target this is the
in-order successor, whose key/value the source returns). -/
def Gojo.delete (fuel : Nat) (g : Gojo) (z : Ptr) : Gojo × Int × Int :=
  let version := g.curr_version
  let step :=
    if (leftP g.heap fuel z version).null then
      let x := rightP g.heap fuel z version
      (transplant fuel g z x, x, z, get_color g.heap fuel z version)
    else if (rightP g.heap fuel z version).null then
      let x := leftP g.heap fuel z version
      (transplant fuel g z x, x, z, get_color g.heap fuel z version)
    else
      let y := g.successor_by_node fuel z version
      let x := rightP g.heap fuel y version
      let orig := get_color g.heap fuel y version
      let g1 :=
        if ptr_eq g.heap (parentP g.heap fuel y version) x then
          g.withArena (set_parent fuel g.arena x y version)
        else
          let ga := transplant fuel g y x
          let gb := ga.withArena (set_right fuel ga.arena y (rightP ga.heap fuel z version) version)
          gb.withArena (set_parent fuel gb.arena (rightP gb.heap fuel y version) y version)
      let g2 := transplant fuel g1 z y
      let g3 := g2.withArena (set_left fuel g2.arena y (leftP g2.heap fuel z version) version)
      let g4 := g3.withArena (set_parent fuel g3.arena (leftP g3.heap fuel z version) y version)
      let g5 := g4.withArena
        (set_color fuel g4.arena y (get_color g4.heap fuel z version) version)
      (g5, x, y, orig)
  let g6 := if step.2.2.2 = Color.Black then delete_fixup fuel step.1 step.2.1 else step.1
  let y := step.2.2.1
  (g6, (deref g6.heap y).key, (deref g6.heap y).value)

/-- Mirrors `Gojo::remove` (absent keys do not advance the version). -/
def Gojo.remove (fuel : Nat) (g : Gojo) (k : Int) : Gojo × Option Int :=
  let node := g.find_node fuel k g.curr_version
  if node.null then (g, none)
  else
    let len1 := g.len - 1
    let g1 := { g with len := len1, curr_version := g.curr_version + 1 }
    let g2 := { g1 with roots := g1.roots ++ [(g1.root, len1)] }
    let d := Gojo.delete fuel g2 node
    let g3 := d.1
    let g4 := { g3 with root := get_last_copy g3.heap fuel g3.root g3.curr_version }
    let newEntry := (get_last_copy g4.heap fuel g4.root g4.curr_version,
      (g4.roots.getD g4.curr_version (.nullPtr, 0)).2)
    ({ g4 with roots := g4.roots.set g4.curr_version newEntry }, some d.2.2)

/-- Mirrors `Gojo::college_remove` (absent keys still advance the version and
push the cached `root` field into the registry). -/
def Gojo.college_remove (fuel : Nat) (g : Gojo) (k : Int) : Gojo × Option Int :=
  let node := g.find_node fuel k g.curr_version
  if node.null then
    ({ g with curr_version := g.curr_version + 1
            , roots := g.roots ++ [(g.root, g.len)] }, none)
  else
    let len1 := g.len - 1
    let g1 := { g with len := len1, curr_version := g.curr_version + 1 }
    let g2 := { g1 with roots := g1.roots ++ [(g1.root, len1)] }
    let d := Gojo.delete fuel g2 node
    let g3 := d.1
    let g4 := { g3 with root := get_last_copy g3.heap fuel g3.root g3.curr_version }
    let newEntry := (get_last_copy g4.heap fuel g4.root g4.curr_version,
      (g4.roots.getD g4.curr_version (.nullPtr, 0)).2)
    ({ g4 with roots := g4.roots.set g4.curr_version newEntry }, some d.2.2)

/-- Mirrors `GojoError`. -/
inductive GojoError where
  | unknownVersion (v : Nat)
  | forbiddenConvertionToNodeInfo
  | unknown
deriving DecidableEq, Repr

/-- Mirrors `Gojo::first_child`. -/
def Gojo.first_child (g : Gojo) (fuel : Nat) (root : Ptr) (version : Nat) : Ptr :=
  if root.null then .nullPtr
  else min_node g.heap fuel fuel root version

/-- Mirrors `Gojo::last_child`. -/
def Gojo.last_child (g : Gojo) (fuel : Nat) (root : Ptr) (version : Nat) : Ptr :=
  if root.null then .nullPtr
  else max_node g.heap fuel fuel root version

/-- The successive yields of `GojoIter::next`: stop when the countdown or the
cursor runs out, read key/value straight from the record, step with
`NodePtr::next`. -/
def iterCollect (h : Heap) (fuel : Nat) (version : Nat) : Nat → Ptr → List (Int × Int)
  | 0, _ => []
  | n + 1, head =>
    if head.null then []
    else ((deref h head).key, (deref h head).value) ::
      iterCollect h fuel version n (nextPtr h fuel head version)

/-- Mirrors `Gojo::iter` (the full drain of the returned iterator). -/
def Gojo.iterE (g : Gojo) (fuel : Nat) (version : Nat) :
    Except GojoError (List (Int × Int)) :=
  if g.latest_version < version then .error (.unknownVersion version)
  else
    let root := (g.roots.getD version (.nullPtr, 0)).1
    let len := (g.roots.getD version (.nullPtr, 0)).2
    .ok (iterCollect g.heap fuel version len (g.first_child fuel root version))

/-- Mirrors `NodeInfo` (keys and values specialised to `Int`). -/
structure NodeInfoM where
  depth : Nat
  node_ptr : Ptr
  color : Color
  key : Int
  value : Int
deriving DecidableEq, Repr

/-- Mirrors `NodeInfo::from_node_ptr` (raw key/value read, colour resolved at
the version; on a null pointer the source would read through null). -/
def NodeInfoM.from_node_ptr (h : Heap) (fuel : Nat) (p : Ptr) (depth version : Nat) :
    NodeInfoM :=
  { depth := depth, node_ptr := p, color := get_color h fuel p version
  , key := (deref h p).key, value := (deref h p).value }

/-- The left-descending loop of `NodeInfo::successor` and
`NodeInfo::first_child`, tracking depth. -/
def infoDescendLeft (h : Heap) (fuel : Nat) (version : Nat) :
    Nat → Ptr → Nat → Ptr × Nat
  | 0, x, depth => (x, depth)
  | loopFuel + 1, x, depth =>
    if (leftP h fuel x version).null = false then
      infoDescendLeft h fuel version loopFuel (leftP h fuel x version) (depth + 1)
    else (x, depth)

/-- The climbing loop of `NodeInfo::successor` (depth decrements saturate at
zero like release-mode `usize` never underflows here). -/
def infoClimb (h : Heap) (fuel : Nat) (version : Nat) :
    Nat → Ptr → Ptr → Nat → Ptr × Ptr × Nat
  | 0, x, y, depth => (x, y, depth)
  | loopFuel + 1, x, y, depth =>
    if y.null = false ∧ ptr_eq h x (rightP h fuel y version) = true then
      infoClimb h fuel version loopFuel y (parentP h fuel y version) (depth - 1)
    else (x, y, depth)

/-- Mirrors `NodeInfo::successor`. -/
def NodeInfoM.successor (h : Heap) (fuel : Nat) (info : NodeInfoM) (version : Nat) :
    Option NodeInfoM :=
  let x := info.node_ptr
  if (rightP h fuel x version).null = false then
    let start := (rightP h fuel x version, info.depth + 1)
    let fin := infoDescendLeft h fuel version fuel start.1 start.2
    some (NodeInfoM.from_node_ptr h fuel fin.1 fin.2 version)
  else
    let fin := infoClimb h fuel version fuel x (parentP h fuel x version) info.depth
    if fin.2.1.null then none
    else some (NodeInfoM.from_node_ptr h fuel fin.2.1 (fin.2.2 - 1) version)

/-- Mirrors `NodeInfo::first_child`. -/
def NodeInfoM.first_child (h : Heap) (fuel : Nat) (root : Ptr) (version : Nat) :
    NodeInfoM :=
  if root.null then NodeInfoM.from_node_ptr h fuel .nullPtr 0 version
  else
    let fin := infoDescendLeft h fuel version fuel root 0
    NodeInfoM.from_node_ptr h fuel fin.1 fin.2 version

/-- The successive yields of `NodeInfoIter::next`. -/
def nodeInfoCollect (h : Heap) (fuel : Nat) (version : Nat) :
    Nat → Option NodeInfoM → List NodeInfoM
  | 0, _ => []
  | _, none => []
  | n + 1, some info =>
    info :: nodeInfoCollect h fuel version n (NodeInfoM.successor h fuel info version)

/-- Mirrors `Gojo::node_info_iter` (the full drain of the returned iterator). -/
def Gojo.node_info_iterE (g : Gojo) (fuel : Nat) (version : Nat) :
    Except GojoError (List NodeInfoM) :=
  if g.latest_version < version then .error (.unknownVersion version)
  else
    let root := (g.roots.getD version (.nullPtr, 0)).1
    let len := (g.roots.getD version (.nullPtr, 0)).2
    .ok (nodeInfoCollect g.heap fuel version len
      (some (NodeInfoM.first_child g.heap fuel root version)))

/-- One driver-level mutation, carrying its fuel. -/
inductive GOp where
  | ins (k v : Int) (fuel : Nat)
  | rem (k : Int) (fuel : Nat)
  | crem (k : Int) (fuel : Nat)

/-- Run one mutation. -/
def applyGOp (g : Gojo) : GOp → Gojo
  | .ins k v fuel => Gojo.insert fuel g k v
  | .rem k fuel => (Gojo.remove fuel g k).1
  | .crem k fuel => (Gojo.college_remove fuel g k).1

/-- Run a sequence of mutations from the fresh engine. -/
def applyGOps (ops : List GOp) : Gojo :=
  ops.foldl applyGOp Gojo.new

/-- The states the engine can actually be in. -/
def GojoReachable (g : Gojo) : Prop :=
  ∃ ops : List GOp, g = applyGOps ops

/-!
The Konan packed-memory array (src/src/konan/mod.rs), keys specialised to
`Int`.  The source computes densities in `f64`; every number that ever
reaches an `f64` comparison here is a dyadic rational with tiny numerator
(counts divided by a power-of-two interval width, the constants 0.25, 0.5,
0.75, and `log2` of a power of two), on which `f64` arithmetic is exact, so
the comparisons are modelled by exact integer cross-multiplication and
`Nat.log2` with no loss.  Rust panics (`update_new_leaf_heads` on an empty
segment head) are modelled by `Option`.
-/

/-- Mirrors `struct Konan` (`Rc<T>` is by-value here). -/
structure Konan where
  data : List (Option Int)
  leaf_heads : List Int
  segment_size : Nat
  height : Nat
deriving DecidableEq, Repr

/-- Mirrors `struct Leaf` (`end` is a Lean keyword, hence `stop`). -/
structure Leaf where
  start : Nat
  stop : Nat
deriving DecidableEq, Repr

/-- Mirrors `Konan::default` / `Konan::new`. -/
def Konan.new : Konan :=
  { data := [none, none], leaf_heads := [], segment_size := 2, height := 0 }

/-- Read a data slot (all source reads are in bounds on the runs below). -/
def dGet (d : List (Option Int)) (i : Nat) : Option Int := d.getD i none

/-- Mirrors `usize::div_ceil`. -/
def divCeil (a b : Nat) : Nat := (a + b - 1) / b

/-- Structural-fuel binary logarithm (the core `Nat.log2` is well-founded and
does not reduce in the kernel); `natLog2 n` halves at most `n` times, which
always suffices. -/
def log2fuel : Nat → Nat → Nat
  | 0, _ => 0
  | fuel + 1, n => if 2 ≤ n then log2fuel fuel (n / 2) + 1 else 0

/-- The base-2 logarithm used by `expand` and `halving`. -/
def natLog2 (n : Nat) : Nat := log2fuel n n

/-- The binary-search loop of `Konan::search_leaf_to_insert`
(`Less | Equal` moves `high`, `Greater` moves `low`); answers the final
`(low, high)` pair of `i32` values. -/
def bsearchIns (heads : List Int) (v : Int) : Nat → Int → Int → Int × Int
  | 0, low, high => (low, high)
  | fuel + 1, low, high =>
    if low ≤ high then
      let mid := (low.toNat + high.toNat) / 2
      match compare v (heads.getD mid 0) with
      | .lt | .eq => bsearchIns heads v fuel low ((mid : Int) - 1)
      | .gt => bsearchIns heads v fuel ((mid : Int) + 1) high
    else (low, high)

/-- The binary-search loop of `Konan::search_leaf_to_remove` (`Equal` sets
`high := mid` and breaks). -/
def bsearchRem (heads : List Int) (v : Int) : Nat → Int → Int → Int × Int
  | 0, low, high => (low, high)
  | fuel + 1, low, high =>
    if low ≤ high then
      let mid := (low.toNat + high.toNat) / 2
      match compare v (heads.getD mid 0) with
      | .lt => bsearchRem heads v fuel low ((mid : Int) - 1)
      | .gt => bsearchRem heads v fuel ((mid : Int) + 1) high
      | .eq => (low, (mid : Int))
    else (low, high)

/-- The binary-search loop of `Konan::successor` (`Greater | Equal` moves
`low`). -/
def bsearchSucc (heads : List Int) (v : Int) : Nat → Int → Int → Int × Int
  | 0, low, high => (low, high)
  | fuel + 1, low, high =>
    if low ≤ high then
      let mid := (low.toNat + high.toNat) / 2
      match compare v (heads.getD mid 0) with
      | .lt => bsearchSucc heads v fuel low ((mid : Int) - 1)
      | _ => bsearchSucc heads v fuel ((mid : Int) + 1) high
    else (low, high)

/-- Mirrors `Konan::leaf_head_to_data`. -/
def Konan.leaf_head_to_data (k : Konan) (idx : Nat) : Nat := idx * k.segment_size

/-- Mirrors `Konan::data_to_leaf_head`. -/
def Konan.data_to_leaf_head (k : Konan) (leaf : Leaf) : Nat := leaf.start / k.segment_size

/-- Mirrors `Konan::search_leaf_to_insert`. -/
def Konan.search_leaf_to_insert (k : Konan) (v : Int) : Leaf :=
  if k.leaf_heads.isEmpty then ⟨0, 1⟩
  else
    let r := bsearchIns k.leaf_heads v (k.leaf_heads.length + 2) 0 (k.leaf_heads.length - 1 : Int)
    if r.2 < 0 then ⟨0, k.segment_size - 1⟩
    else
      let start := k.leaf_head_to_data r.2.toNat
      ⟨start, start + k.segment_size - 1⟩

/-- Mirrors `Konan::search_leaf_to_remove`. -/
def Konan.search_leaf_to_remove (k : Konan) (v : Int) : Leaf :=
  if k.leaf_heads.isEmpty then ⟨0, 1⟩
  else
    let r := bsearchRem k.leaf_heads v (k.leaf_heads.length + 2) 0 (k.leaf_heads.length - 1 : Int)
    if r.2 < 0 then ⟨0, k.segment_size - 1⟩
    else
      let start := k.leaf_head_to_data r.2.toNat
      ⟨start, start + k.segment_size - 1⟩

/-- Mirrors `Konan::scan`: `(valid_elements, positions_in_vec)` over the
inclusive interval. -/
def Konan.scan (k : Konan) (start stop : Nat) : Nat × Nat :=
  ((List.range (stop + 1 - start)).countP (fun j => (dGet k.data (start + j)).isSome),
    stop - start + 1)

/-- The forward skip of `Konan::get_leaf_head`: first index from `start`
that is occupied or hits `stop`. -/
def skipNones (d : List (Option Int)) : Nat → Nat → Nat → Nat
  | 0, idx, _ => idx
  | fuel + 1, idx, stop =>
    if idx < stop ∧ (dGet d idx).isNone then skipNones d fuel (idx + 1) stop
    else idx

/-- Mirrors `Konan::get_leaf_head`. -/
def Konan.get_leaf_head (k : Konan) (leaf : Leaf) : Option Int :=
  dGet k.data (skipNones k.data (k.data.length + 2) leaf.start leaf.stop)

/-- Rotate an inclusive slice `[a, b]` of the data right by one (the
`rotate_right(1)` of the source). -/
def sliceRotR (d : List (Option Int)) (a b : Nat) : List (Option Int) :=
  let seg := (d.drop a).take (b + 1 - a)
  match seg.getLast? with
  | none => d
  | some x => d.take a ++ (x :: seg.dropLast) ++ d.drop (b + 1)

/-- Rotate a half-open slice `[a, b)` of the data left by one (the
`rotate_left(1)` of the source). -/
def sliceRotL (d : List (Option Int)) (a b : Nat) : List (Option Int) :=
  let seg := (d.drop a).take (b - a)
  match seg with
  | [] => d
  | x :: xs => d.take a ++ (xs ++ [x]) ++ d.drop b

/-- Swap two data slots. -/
def dSwap (d : List (Option Int)) (i j : Nat) : List (Option Int) :=
  (d.set i (dGet d j)).set j (dGet d i)

/-- Walk right from `idx` while slots are occupied, stopping at `stop`
(the `right_none_idx` loop). -/
def skipSomesR (d : List (Option Int)) : Nat → Nat → Nat → Nat
  | 0, idx, _ => idx
  | fuel + 1, idx, stop =>
    if idx < stop ∧ (dGet d idx).isSome then skipSomesR d fuel (idx + 1) stop
    else idx

/-- Walk left from `idx` while slots are occupied, stopping at `start`
(the `left_none_idx` loop). -/
def skipSomesL (d : List (Option Int)) : Nat → Nat → Nat → Nat
  | 0, idx, _ => idx
  | fuel + 1, idx, start =>
    if start < idx ∧ (dGet d idx).isSome then skipSomesL d fuel (idx - 1) start
    else idx

/-- Mirrors `Konan::insert_element_at`. -/
def Konan.insert_element_at (k : Konan) (v : Int) (idx : Nat) (leaf : Leaf) :
    List (Option Int) :=
  let d := k.data
  if (dGet d idx).isNone then d.set idx (some v)
  else if idx = leaf.start then
    let noneIdx := skipSomesR d (d.length + 2) leaf.start leaf.stop
    (sliceRotR d leaf.start noneIdx).set idx (some v)
  else
    let rightNone := skipSomesR d (d.length + 2) idx leaf.stop
    if (dGet d rightNone).isNone then (sliceRotR d idx rightNone).set idx (some v)
    else
      let leftNone := skipSomesL d (d.length + 2) idx leaf.start
      let d1 := (sliceRotL d leftNone idx).set (idx - 1) (some v)
      match dGet d1 idx with
      | some w => if w < v then dSwap d1 idx (idx - 1) else d1
      | none => d1

/-- Mirrors `Konan::insert_on_leaf`. -/
def Konan.insert_on_leaf (k : Konan) (v : Int) (leaf : Leaf) (position : Nat) : Konan :=
  let head := k.get_leaf_head leaf
  let k1 := { k with data := k.insert_element_at v position leaf }
  match head with
  | none => { k1 with leaf_heads := k1.leaf_heads ++ [v] }
  | some hv =>
    if v < hv then
      { k1 with leaf_heads := k1.leaf_heads.set (k1.data_to_leaf_head leaf) v }
    else k1

/-- The scan loop of `Konan::find_element_position_in_leaf`. -/
def fepLoop (d : List (Option Int)) (v : Int) (stop : Nat) : Nat → Nat → Nat → Nat
  | 0, _, pos => pos
  | fuel + 1, i, pos =>
    if stop < i then pos
    else
      match dGet d i with
      | none => fepLoop d v stop fuel (i + 1) pos
      | some x =>
        if v < x then pos
        else if x < v then
          fepLoop d v stop fuel (i + 1) (if i = stop then i else i + 1)
        else fepLoop d v stop fuel (i + 1) pos

/-- Mirrors `Konan::find_element_position_in_leaf`. -/
def Konan.find_element_position_in_leaf (k : Konan) (v : Int) (leaf : Leaf) : Nat :=
  fepLoop k.data v leaf.stop (k.data.length + 2) leaf.start leaf.start

/-- The scan loop of `Konan::find_position_to_remove` — note the source
iterates over the half-open range `leaf.start..leaf.end` and so never
examines the last slot of the segment. -/
def fprLoop (d : List (Option Int)) (v : Int) (stop : Nat) : Nat → Nat → Option Nat
  | 0, _ => none
  | fuel + 1, i =>
    if stop ≤ i then none
    else
      match dGet d i with
      | none => fprLoop d v stop fuel (i + 1)
      | some x => if x = v then some i else fprLoop d v stop fuel (i + 1)

/-- Mirrors `Konan::find_position_to_remove`. -/
def Konan.find_position_to_remove (k : Konan) (v : Int) (leaf : Leaf) : Option Nat :=
  fprLoop k.data v leaf.stop (k.data.length + 2) leaf.start

/-- Mirrors `Konan::remove_element_at`. -/
def Konan.remove_element_at (k : Konan) (position : Nat) (leaf : Leaf) :
    List (Option Int) :=
  let d := k.data.set position none
  if position ≠ leaf.start then d
  else
    let idx := skipNones d (d.length + 2) leaf.start leaf.stop
    dSwap d position idx

/-- Mirrors `Konan::is_right_density`.  The source computes
`(depth / self.height) as f64` — an integer division FIRST, so the ratio `x`
is an integer — and tests `0.5 - 0.25·x ≤ valid/positions ≤ 0.75 + 0.25·x`
in `f64`.  Every value involved is a dyadic rational demanding few mantissa
bits (counts over a power-of-two interval width and quarters), so the `f64`
comparisons are exact and equal these integer cross-multiplied comparisons
(`positions` is never 0: it is an inclusive interval width). -/
def Konan.is_right_density (k : Konan) (depth : Nat) (valid positions : Nat) : Bool :=
  let x : Int := match k.height with
    | 0 => 0
    | _ => ((depth / k.height : Nat) : Int)
  decide ((2 - x) * positions ≤ 4 * valid ∧ 4 * (valid : Int) ≤ (3 + x) * positions)

/-- Mirrors `Konan::expand`.  `self.data.len()` is always a power of two, so
`(len as f64).log2()` is the exact `Nat.log2` and the `f64` comparison with
`2.0 * leaf_heads.len()` is an integer comparison. -/
def Konan.expand (k : Konan) : Konan :=
  let newLen := k.data.length * 2
  let k1 := { k with data := k.data ++ List.replicate k.data.length (none : Option Int) }
  if natLog2 newLen < 2 * k.leaf_heads.length then
    { k1 with segment_size := k1.segment_size * 2 }
  else { k1 with height := k1.height + 1 }

/-- Mirrors `Konan::halving`. -/
def Konan.halving (k : Konan) : Konan :=
  if k.data.length = 2 then k
  else
    let newLen := k.data.length / 2
    let kept := k.data.filter (fun x => x.isSome)
    let d := kept.take newLen ++ List.replicate (newLen - kept.length) (none : Option Int)
    let k1 := { k with data := d }
    if natLog2 newLen < 2 * k.leaf_heads.length ∧ 0 < k.height then
      { k1 with height := k1.height - 1 }
    else { k1 with segment_size := k1.segment_size / 2 }

/-- Mirrors `Konan::update_new_leaf_heads`; the source panics when a segment
start is unoccupied, modelled as `none`. -/
def Konan.update_new_leaf_heads (k : Konan) : Option Konan :=
  let idxs := List.range (divCeil k.data.length k.segment_size)
  let heads := idxs.mapM (fun i => dGet k.data (i * k.segment_size))
  match heads with
  | some hs => some { k with leaf_heads := hs }
  | none => none

/-- Mirrors `Konan::is_node_right_child` (independent of the state). -/
def Konan.is_node_right_child (_k : Konan) (leaf : Leaf) : Bool :=
  decide ((leaf.start / (leaf.stop - leaf.start + 1)) % 2 ≠ 0)

/-- Mirrors `Konan::rebalance` (evenly redistribute the interval, then
rebuild all leaf heads). -/
def Konan.rebalance (k : Konan) (start stop : Nat) : Option Konan :=
  let stats := k.scan start stop
  let valid := stats.1
  let segs := divCeil (stop - start + 1) k.segment_size
  let maxPer := divCeil valid segs
  let minPer := valid / segs
  let copyVec := (((k.data.drop start).take (stop + 1 - start)).filter (fun x => x.isSome)).filterMap id
  let cleared := (List.range (stop + 1 - start)).foldl
    (fun d j => d.set (start + j) (none : Option Int)) k.data
  let willEmpty := valid ≤ maxPer * (segs - 1)
  let per := if willEmpty then minPer else maxPer
  let filled := (List.range segs).foldl
    (fun d j =>
      (List.range per).foldl
        (fun d2 idx => d2.set (start + j * k.segment_size + idx)
          ((copyVec.drop (j * per + idx)).head?.map id)) d)
    cleared
  let filled2 :=
    if willEmpty then
      let lastStart := stop - k.segment_size + per + 1
      let rest := copyVec.drop (segs * per)
      (List.range rest.length).foldl
        (fun d idx => d.set (lastStart + idx) (rest.getD idx 0 |> some)) filled
    else filled
  Konan.update_new_leaf_heads { k with data := filled2 }

/-- The climb loop shared by `Konan::insert` and `Konan::remove`: while the
depth is positive and the density is wrong, widen the interval toward the
sibling and rescan.  The density `valid/positions` is carried as an exact
pair; `plusOne` is true on the insert side (which counts the incoming
element). -/
def Konan.climb (k : Konan) (plusOne : Bool) : Nat → Leaf → Nat × Nat → Leaf × Nat × (Nat × Nat)
  | 0, leaf, density => (leaf, 0, density)
  | depth + 1, leaf, density =>
    if k.is_right_density (depth + 1) density.1 density.2 then (leaf, depth + 1, density)
    else
      let width := leaf.stop - leaf.start + 1
      let leaf1 : Leaf :=
        if k.is_node_right_child leaf then ⟨leaf.start - width, leaf.stop⟩
        else ⟨leaf.start, leaf.stop + width⟩
      let stats := k.scan leaf1.start leaf1.stop
      let density1 : Nat × Nat := (stats.1 + (if plusOne then 1 else 0), stats.2)
      Konan.climb k plusOne depth leaf1 density1

/-- Mirrors `Konan::insert`. -/
def Konan.insert (k : Konan) (v : Int) : Option Konan :=
  let leaf := k.search_leaf_to_insert v
  let pos := k.find_element_position_in_leaf v leaf
  if (dGet k.data pos).isNone then some (k.insert_on_leaf v leaf pos)
  else
    let stats := k.scan leaf.start leaf.stop
    let density : Nat × Nat := (stats.1 + 1, stats.2)
    let c := k.climb true k.height leaf density
    let leaf1 := c.1
    let depth1 := c.2.1
    let density1 := c.2.2
    let step :=
      if depth1 = 0 ∧ k.is_right_density 0 density1.1 density1.2 = false then
        let k1 := k.expand
        (k1, (⟨leaf1.start, k1.data.length - 1⟩ : Leaf))
      else (k, leaf1)
    let k2 := step.1
    let leaf2 := step.2
    let pos2 := k2.find_element_position_in_leaf v leaf2
    let k3 := k2.insert_on_leaf v leaf2 pos2
    k3.rebalance leaf2.start leaf2.stop

/-- Mirrors `Konan::remove`. -/
def Konan.remove (k : Konan) (v : Int) : Option Konan :=
  let leaf := k.search_leaf_to_remove v
  match k.find_position_to_remove v leaf with
  | none => some k
  | some pos =>
    let k1 := { k with data := k.remove_element_at pos leaf }
    let stats := k1.scan leaf.start leaf.stop
    if k1.is_right_density k1.height stats.1 stats.2 then k1.update_new_leaf_heads
    else
      let c := k1.climb false k1.height leaf (stats.1, stats.2)
      let leaf1 := c.1
      let depth1 := c.2.1
      let density1 := c.2.2
      let step :=
        if depth1 = 0 ∧ k1.is_right_density 0 density1.1 density1.2 = false then
          let k2 := k1.halving
          (k2, (⟨leaf1.start, k2.data.length - 1⟩ : Leaf))
        else (k1, leaf1)
      let k2 := step.1
      let leaf2 := step.2
      if k2.data.length = 2 then some { k2 with leaf_heads := [] }
      else k2.rebalance leaf2.start leaf2.stop

/-- Mirrors `Konan::successor`: binary-search `leaf_heads`, clamp `low`, and
scan the tail of the array for the first occupied slot strictly above `v`. -/
def Konan.successor (k : Konan) (v : Int) : Option Int :=
  if k.leaf_heads.isEmpty then none
  else
    let r := bsearchSucc k.leaf_heads v (k.leaf_heads.length + 2) 0 (k.leaf_heads.length - 1 : Int)
    let low := if r.1 = (k.leaf_heads.length : Int) then (k.leaf_heads.length : Int) - 1 else r.1
    let realLow := k.leaf_head_to_data low.toNat
    ((k.data.drop realLow).filterMap id).find? (fun x => v < x)

/-- Mirrors draining `Konan::iter`: every occupied slot left to right. -/
def Konan.iterList (k : Konan) : List Int := k.data.filterMap id

/-- A driver-level Konan mutation. -/
inductive KOp where
  | ins (v : Int)
  | rem (v : Int)

/-- Run one mutation (`none` once any panic has happened). -/
def applyKOp : Option Konan → KOp → Option Konan
  | some st, .ins v => st.insert v
  | some st, .rem v => st.remove v
  | none, _ => none

/-- Run a sequence of mutations from the fresh PMA. -/
def applyKOps (ops : List KOp) : Option Konan :=
  ops.foldl applyKOp (some Konan.new)

/-!  Concrete engine states used by the claim theorems. -/

/-- Three inserts of the same key 1 (values 10, 20, 30): the state behind the
red-red violation. -/
def dupState : Gojo :=
  applyGOps [.ins 1 10 8, .ins 1 20 8, .ins 1 30 8]

/-- INC 1, INC 2, INC 3 with distinct keys. -/
def threeState : Gojo :=
  applyGOps [.ins 1 1 8, .ins 2 2 8, .ins 3 3 8]

/-- Two inserts of key 1, four of key 2, one of key 3 (values encode the
insertion position and the key). -/
def c3State : Gojo :=
  applyGOps [.ins 1 101 8, .ins 1 201 8, .ins 2 302 8, .ins 2 402 8,
    .ins 2 502 8, .ins 2 602 8, .ins 3 703 8]

/-- The PMA after inserting 1, 3, 5 (data `[1,3 | 5,_]`, heads `[1,5]`). -/
def k135State : Konan :=
  { data := [some 1, some 3, some 5, none], leaf_heads := [1, 5]
  , segment_size := 2, height := 1 }

/-- The PMA after inserting 1, 3, 5 and removing 5 then 3: the halving path
cleared `leaf_heads` while key 1 is still stored. -/
def k9State : Konan :=
  { data := [some 1, none], leaf_heads := [], segment_size := 2, height := 0 }

/-!  Spec-side definitions (each follows the spec text, for comparison with
the source-derived functions above). -/

/-- Colour selector on mod entries. -/
def colSel : ModData → Option Color
  | .colD c => some c
  | _ => none

/-- Parent selector on mod entries. -/
def parentSel : ModData → Option Ptr
  | .parentD p => some p
  | _ => none

/-- Left selector on mod entries. -/
def leftSel : ModData → Option Ptr
  | .leftD p => some p
  | _ => none

/-- Right selector on mod entries. -/
def rightSel : ModData → Option Ptr
  | .rightD p => some p
  | _ => none

/-- Modelled from the spec: reading field `f` at version `v` returns the
`new_value` of the LAST entry in the log whose version is at most `v` and
whose field is `f`, or the baseline when no such entry exists. -/
def specFieldRead (sel : ModData → Option α) (r : List Mod) (baseline : α) (v : Nat) : α :=
  ((r.filterMap (fun m => if m.version ≤ v then sel m.data else none)).getLast?).getD baseline

/-- A generic version of the four mod-log scans of the source, parametrised
by the selector. -/
def selScan (sel : ModData → Option α) (v : Nat) : α → List Mod → α
  | c, [] => c
  | c, m :: ms =>
    if v < m.version then c
    else
      match sel m.data with
      | some d => selScan sel v d ms
      | none => selScan sel v c ms

/-- Mod logs ordered by version (the engine in fact maintains the
non-strict form of this). -/
def ModsSorted (ms : List Mod) : Prop :=
  ms.Pairwise (fun a b => a.version ≤ b.version)

instance (ms : List Mod) : Decidable (ModsSorted ms) :=
  inferInstanceAs (Decidable (ms.Pairwise _))

/-- The heap behind the C4 counterexample: record 1 is an origin (birth 0)
with a copy, record 2, of birth version 1; record 3 has baseline `left`
pointing at record 1 and an empty mod log; record 4 carries an unsorted mod
log `[Col Black @5, Col Black @3]` over a Red baseline (the repository's own
unit tests build nodes with hand-made logs the same way). -/
def c4Rec4 : Record :=
  { Record.junk with color := .Red, mods := [⟨.colD .Black, 5⟩, ⟨.colD .Black, 3⟩] }

def c4Heap : Heap :=
  hset (hset (hset (hset (fun _ => Record.junk)
    1 { Record.junk with key := 100, next_copy := ⟨some 2, false⟩ })
    2 { Record.junk with key := 100, value := 7, version := 1 })
    3 { Record.junk with key := 50, left := ⟨some 1, false⟩ })
    4 c4Rec4

/-!
Machinery for the persistence and mod-log claims: a well-formedness
invariant on engine states and a relation `Evolves V` describing every heap
change an operation at version `V` can make — appended log entries tagged
`V`, fresh records, a `next_copy` hook from a chain end to a fresh record,
inverse-pointer updates, and baseline-link writes on the nil sentinel.
Reads at versions below `V` cannot see any of these.
-/

/-- The pointer payload of a mod entry (colour entries carry none). -/
def modPayload : ModData → Ptr
  | .parentD p => p
  | .leftD p => p
  | .rightD p => p
  | .colD _ => Ptr.nullPtr

/-- The pointer values the engine ever stores: the null pointer, the nil
sentinel (arena slot 0, null flag set), or a real record in the arena. -/
def LegalPtr (alloc : Nat) (p : Ptr) : Prop :=
  (p.null = true ∧ (p.addr = none ∨ p.addr = some 0)) ∨
  (p.null = false ∧ ∃ i, p.addr = some i ∧ 0 < i ∧ i < alloc)

/-- Well-formedness of the record in arena slot `i`: links and inverse
pointers are legal, the `next_copy` chain strictly increases in slot index,
and the mod log obeys the budget, is ordered, stays at or below version `V`
and stores only legal pointers; the record's own birth version is ≤ `V`. -/
def RecordWF (V alloc i : Nat) (r : Record) : Prop :=
  LegalPtr alloc r.left ∧ LegalPtr alloc r.right ∧ LegalPtr alloc r.parent ∧
  LegalPtr alloc r.bk_ptr_left ∧ LegalPtr alloc r.bk_ptr_right ∧
  LegalPtr alloc r.bk_ptr_parent ∧
  (r.next_copy = Ptr.nullPtr ∨
    ∃ j, i < j ∧ j < alloc ∧ r.next_copy = ⟨some j, false⟩) ∧
  r.mods.length ≤ MAX_MODS ∧
  ModsSorted r.mods ∧
  (∀ m ∈ r.mods, m.version ≤ V ∧ LegalPtr alloc (modPayload m.data)) ∧
  r.version ≤ V

/-- Arena well-formedness at version `V`. -/
structure ArenaWF (V : Nat) (a : Arena) : Prop where
  pos : 0 < a.alloc
  records : ∀ i, i < a.alloc → RecordWF V a.alloc i (a.heap i)

/-- Everything an operation at version `V` may do to the existing heap.
Slot 0 (the nil sentinel) keeps its key, value, log, version and chain but
may have its baseline links and colour rewritten; every other pre-existing
record keeps its baselines and may only gain log entries tagged `V` and a
`next_copy` hook to a fresh record born at `V` (inverse pointers are
unconstrained — no read at an older version consults them). -/
structure Evolves (V : Nat) (a a' : Arena) : Prop where
  posAlloc : 0 < a.alloc
  allocLe : a.alloc ≤ a'.alloc
  nilKey : (a'.heap 0).key = (a.heap 0).key
  nilValue : (a'.heap 0).value = (a.heap 0).value
  nilMods : (a'.heap 0).mods = (a.heap 0).mods
  nilVersion : (a'.heap 0).version = (a.heap 0).version
  nilNext : (a'.heap 0).next_copy = (a.heap 0).next_copy
  old : ∀ i, 0 < i → i < a.alloc →
    (a'.heap i).key = (a.heap i).key ∧
    (a'.heap i).value = (a.heap i).value ∧
    (a'.heap i).color = (a.heap i).color ∧
    (a'.heap i).left = (a.heap i).left ∧
    (a'.heap i).right = (a.heap i).right ∧
    (a'.heap i).parent = (a.heap i).parent ∧
    (a'.heap i).version = (a.heap i).version ∧
    (∃ t, (a'.heap i).mods = (a.heap i).mods ++ t ∧ ∀ m ∈ t, m.version = V) ∧
    ((a'.heap i).next_copy = (a.heap i).next_copy ∨
      ((a.heap i).next_copy.null = true ∧
        ∃ j, a.alloc ≤ j ∧ j < a'.alloc ∧
          (a'.heap i).next_copy = ⟨some j, false⟩ ∧ (a'.heap j).version = V))

/-- A pointer whose `next_copy` chain is fully resolved at version `v`: it
is null-flagged, or its record has no copy, or only a copy from a later
version.  `set_modification` receivers always satisfy this, which is what
keeps overflow from ever severing an existing chain. -/
def Resolved (h : Heap) (p : Ptr) (v : Nat) : Prop :=
  p.null = true ∨ (deref h p).next_copy = Ptr.nullPtr ∨
    v < (deref h (deref h p).next_copy).version

/-- The engine-state invariant every reachable state satisfies. -/
structure GojoInv (g : Gojo) : Prop where
  wf : ArenaWF g.curr_version g.arena
  rootLegal : LegalPtr g.alloc g.root
  rootsLegal : ∀ e ∈ g.roots, LegalPtr g.alloc e.1
  rootsLen : g.roots.length = g.curr_version + 1
  nilEq : g.nil = Ptr.nilPtr

/-!  Claim theorems. -/

/-- Claim C2 (code bug evidence): after inserting the key 1 three times, the
version-3 tree rooted at `roots[3]` reaches node 3 as right child of right
child of the root, node 3 is Red and its parent node 2 is Red — a red-red
violation.  `insert_fixup` never ran: its guard `dude != self.root` compares
nodes by KEY, and every node here has key 1. -/
theorem C2_red_red_violation :
    (dupState.roots.getD 3 (.nullPtr, 0)).1 = ⟨some 1, false⟩ ∧
    rightP dupState.heap 8 ⟨some 1, false⟩ 3 = ⟨some 2, false⟩ ∧
    rightP dupState.heap 8 ⟨some 2, false⟩ 3 = ⟨some 3, false⟩ ∧
    parentP dupState.heap 8 ⟨some 3, false⟩ 3 = ⟨some 2, false⟩ ∧
    get_color dupState.heap 8 ⟨some 2, false⟩ 3 = Color.Red ∧
    get_color dupState.heap 8 ⟨some 3, false⟩ 3 = Color.Red ∧
    dupState.latest_version = 3 := by
  decide

/-- Claim C3 (code bug evidence): after INC 1, INC 1, INC 2, INC 2, INC 2,
INC 2, INC 3 the engine's own in-order iterator at version 7 still lists key
3 (value 703, the only key above 2), yet `successor_by_key(2, 7)` answers
602 — the value of one of the key-2 nodes, not of any key strictly greater
than 2.  `NodePtr`'s `PartialEq` compares keys, so with duplicate keys
`is_left_child` / `is_right_child` misjudge which child a node is: the
insert-fixup rotations rewire the wrong branches (the iterator output shows
the corrupted order — one node repeated, another unreachable) and the
successor climb stops at a wrong ancestor. -/
theorem C3_wrong_successor :
    c3State.latest_version = 7 ∧
    c3State.iterE 8 7 =
      .ok [(1, 101), (1, 201), (2, 502), (2, 602), (3, 703), (2, 402),
        (2, 502)] ∧
    ([(1, 101), (1, 201), (2, 502), (2, 602), (3, 703), (2, 402),
        (2, 502)] : List (Int × Int)).filter (fun kv => 2 < kv.1) =
      [(3, 703)] ∧
    c3State.successor_by_key 8 2 7 = some 602 ∧
    (602 : Int) ≠ 703 := by
  refine ⟨rfl, rfl, by decide, rfl, by decide⟩

/-- Claim C5 (code bug evidence): `college_remove` of an absent key on the
fresh engine returns None and advances the version, but pushes the engine's
cached `root` — the raw null pointer (`addr = none`) — into the registry
instead of the nil sentinel that `roots[0]` holds.  Version-1 queries in the
source then dereference a null pointer (`find_node` reads
`(*temp.pointer).key` without a null check), which is undefined behaviour. -/
theorem C5_null_root_pushed :
    (Gojo.college_remove 8 Gojo.new 42).2 = none ∧
    (Gojo.college_remove 8 Gojo.new 42).1.curr_version = 1 ∧
    (Gojo.college_remove 8 Gojo.new 42).1.roots =
      [(Ptr.nilPtr, 0), (Ptr.nullPtr, 0)] ∧
    Ptr.nullPtr.addr = none ∧
    Ptr.nilPtr ≠ Ptr.nullPtr := by
  decide

/-- Claim C6 (counterexample): on the fresh engine at the unknown version 1,
`len` evaluates to the ordinary value `none` of `Option Nat` and `get` to
`none` of `Option Int` — these queries have no error channel at all and
cannot "fail with a VersionOutOfRange error" — while `iter` does fail with
the `UnknownVersion` error.  This refutes the claim that EVERY query fails
with the error. -/
theorem C6_counterexample :
    Gojo.new.lenAt 1 = none ∧
    Gojo.new.get 8 0 1 = none ∧
    Gojo.new.successor_by_key 8 0 1 = none ∧
    Gojo.new.predecessor 8 0 1 = none ∧
    Gojo.new.iterE 8 1 = .error (.unknownVersion 1) :=
  ⟨rfl, rfl, rfl, rfl, rfl⟩

/-- Claim C6 (amended): for every version strictly beyond the latest, `iter`
and `node_info_iter` fail with the `UnknownVersion` (VersionOutOfRange)
error, while `get`, `len`, `successor_by_key` and `predecessor` signal the
unknown version by returning `none`. -/
theorem C6_amended (g : Gojo) (fuel : Nat) (v : Nat) (k : Int)
    (hv : g.latest_version < v) :
    g.iterE fuel v = .error (.unknownVersion v) ∧
    g.node_info_iterE fuel v = .error (.unknownVersion v) ∧
    g.lenAt v = none ∧
    g.get fuel k v = none ∧
    g.successor_by_key fuel k v = none ∧
    g.predecessor fuel k v = none := by
  have hv' : g.curr_version < v := hv
  refine ⟨?_, ?_, ?_, ?_, ?_, ?_⟩ <;>
    simp [Gojo.iterE, Gojo.node_info_iterE, Gojo.lenAt, Gojo.get,
      Gojo.predecessor, Gojo.find_node, Gojo.successor_by_key,
      Gojo.latest_version, hv', Ptr.nullPtr]

/-- Claim C6 (amended) witness at the fresh engine, version 1, key 0. -/
theorem C6_amended_witness :
    Gojo.new.latest_version < 1 ∧
    (Gojo.new.iterE 8 1 = .error (.unknownVersion 1) ∧
     Gojo.new.node_info_iterE 8 1 = .error (.unknownVersion 1) ∧
     Gojo.new.lenAt 1 = none ∧
     Gojo.new.get 8 0 1 = none ∧
     Gojo.new.successor_by_key 8 0 1 = none ∧
     Gojo.new.predecessor 8 0 1 = none) :=
  ⟨by decide, C6_amended Gojo.new 8 1 0 (by decide)⟩

/-- Claim C7 (counterexample): after INC 1, INC 2, INC 3 (distinct keys!) the
record of the first node carries the mod log versions `[1, 2, 3, 3, 3]` —
one insertion appends several entries tagged with the same new version, so
the log is NOT strictly increasing in version (it is only non-decreasing). -/
theorem C7_counterexample :
    (threeState.heap 1).mods.map Mod.version = [1, 2, 3, 3, 3] ∧
    ¬ ∀ i : Fin 4,
        ((threeState.heap 1).mods.map Mod.version).getD i 0 <
          ((threeState.heap 1).mods.map Mod.version).getD (i + 1) 0 := by
  constructor
  · decide
  · intro hmono
    have h3 := hmono 2
    revert h3
    decide

/-- Claim C8 (code bug evidence): with stored keys {1, 3, 5} the smallest
stored key strictly greater than 2 is 3, but `Konan::successor(2)` answers 5.
The binary search moves `low` past every head ≤ 2 and the scan starts at the
FIRST segment whose head exceeds 2, skipping the tail of the previous
segment where 3 lives (the spec prescribes scanning from the largest head
≤ k). -/
theorem C8_wrong_successor :
    applyKOps [.ins 1, .ins 3, .ins 5] = some k135State ∧
    k135State.iterList = [1, 3, 5] ∧
    k135State.iterList.filter (fun x => 2 < x) = [3, 5] ∧
    k135State.successor 2 = some 5 ∧
    some (5 : Int) ≠ some (3 : Int) := by
  decide

/-- Claim C9 (code bug evidence): after inserting 1, 3, 5 and removing 5 and
then 3, the halving path of `Konan::remove` hits `data.len() == 2`, clears
`leaf_heads` and stops — yet key 1 is still stored in (now the only)
segment 0, so no `leaf_heads[0]` equal to its minimum exists; `successor(0)`
consequently answers `none` although 1 is stored. -/
theorem C9_heads_cleared :
    applyKOps [.ins 1, .ins 3, .ins 5, .rem 5, .rem 3] = some k9State ∧
    k9State.data = [some 1, none] ∧
    k9State.leaf_heads = [] ∧
    k9State.iterList = [1] ∧
    k9State.successor 0 = none := by
  decide

/-- Claim C10: every query at a version strictly beyond the latest returns
the benign empty answer — `len` is `none`, `is_empty` is `true`, `get` is
`none`, `contains_key` is `false`, `successor_by_key` is `none` — and, the
queries being pure functions of the state in this model, the engine is not
mutated. -/
theorem C10_future_version_benign (g : Gojo) (fuel : Nat) (v : Nat) (k : Int)
    (hv : g.latest_version < v) :
    g.lenAt v = none ∧
    g.is_empty v = true ∧
    g.get fuel k v = none ∧
    g.contains_key fuel k v = false ∧
    g.successor_by_key fuel k v = none := by
  have hv' : g.curr_version < v := hv
  refine ⟨?_, ?_, ?_, ?_, ?_⟩ <;>
    simp [Gojo.lenAt, Gojo.is_empty, Gojo.get, Gojo.contains_key,
      Gojo.find_node, Gojo.successor_by_key, Gojo.latest_version, hv',
      Ptr.nullPtr]

/-- Claim C10 witness at the state after INC 1, INC 2, INC 3, version 7. -/
theorem C10_witness :
    threeState.latest_version < 7 ∧
    (threeState.lenAt 7 = none ∧
     threeState.is_empty 7 = true ∧
     threeState.get 8 2 7 = none ∧
     threeState.contains_key 8 2 7 = false ∧
     threeState.successor_by_key 8 2 7 = none) :=
  ⟨by decide, C10_future_version_benign threeState 8 7 2 (by decide)⟩

/-- Prepending to a list shifts the default of its last element. -/
theorem getLast?_cons_getD {α : Type} (a c : α) (l : List α) :
    ((a :: l).getLast?).getD c = (l.getLast?).getD a := by
  induction l generalizing a with
  | nil => rfl
  | cons b t ih =>
    rw [List.getLast?_cons_cons]
    cases hbt : (b :: t).getLast? with
    | none => exact absurd hbt (by simp [List.getLast?_isSome])
    | some x => simp

/-- The colour scan of `get_color` is the generic selector scan. -/
theorem modScanColor_eq_selScan (v : Nat) (ms : List Mod) (c : Color) :
    modScanColor v c ms = selScan colSel v c ms := by
  induction ms generalizing c with
  | nil => rfl
  | cons m tail ih =>
    simp only [modScanColor, selScan]
    by_cases h : v < m.version
    · simp [h]
    · cases m.data <;> simp [h, colSel, ih]

/-- The parent scan of `NodePtr::parent` is the generic selector scan. -/
theorem modScanParent_eq_selScan (v : Nat) (ms : List Mod) (c : Ptr) :
    modScanParent v c ms = selScan parentSel v c ms := by
  induction ms generalizing c with
  | nil => rfl
  | cons m tail ih =>
    simp only [modScanParent, selScan]
    by_cases h : v < m.version
    · simp [h]
    · cases m.data <;> simp [h, parentSel, ih]

/-- The left scan of `NodePtr::left` is the generic selector scan. -/
theorem modScanLeft_eq_selScan (v : Nat) (ms : List Mod) (c : Ptr) :
    modScanLeft v c ms = selScan leftSel v c ms := by
  induction ms generalizing c with
  | nil => rfl
  | cons m tail ih =>
    simp only [modScanLeft, selScan]
    by_cases h : v < m.version
    · simp [h]
    · cases m.data <;> simp [h, leftSel, ih]

/-- The right scan of `NodePtr::right` is the generic selector scan. -/
theorem modScanRight_eq_selScan (v : Nat) (ms : List Mod) (c : Ptr) :
    modScanRight v c ms = selScan rightSel v c ms := by
  induction ms generalizing c with
  | nil => rfl
  | cons m tail ih =>
    simp only [modScanRight, selScan]
    by_cases h : v < m.version
    · simp [h]
    · cases m.data <;> simp [h, rightSel, ih]

/-- On a version-sorted mod log, the source's early-exit scan computes the
spec's "last entry whose version is at most v, else the baseline". -/
theorem selScan_eq_specFieldRead {α : Type} (sel : ModData → Option α) (v : Nat)
    (ms : List Mod) (c : α) (hs : ModsSorted ms) :
    selScan sel v c ms = specFieldRead sel ms c v := by
  induction ms generalizing c with
  | nil => rfl
  | cons m tail ih =>
    have hPair := List.pairwise_cons.mp hs
    have htail : ModsSorted tail := hPair.2
    simp only [selScan, specFieldRead, List.filterMap_cons]
    by_cases h : v < m.version
    · have hm : ¬ m.version ≤ v := by omega
      have hnil : tail.filterMap (fun x => if x.version ≤ v then sel x.data else none) = [] := by
        refine List.filterMap_eq_nil_iff.mpr (fun x hx => ?_)
        have h1 : m.version ≤ x.version := hPair.1 x hx
        have h2 : ¬ x.version ≤ v := by omega
        simp [h2]
      rw [if_pos h, if_neg hm, hnil]
      rfl
    · have hm : m.version ≤ v := by omega
      rw [if_neg h, if_pos hm]
      cases hsel : sel m.data with
      | none => exact ih c htail
      | some d => rw [getLast?_cons_getD]; exact ih d htail

/-- Claim C4 (counterexample): two divergences from the stated read rule,
evaluated on hand-made records exactly like those the repository's own unit
tests construct.  (i) `left` at version 1 of record 3 — empty mod log,
baseline `left` = record 1 — does not return the baseline value: the source
resolves the stored pointer through ITS `next_copy` chain and answers the
copy, record 2.  (ii) on the unsorted log of record 4, `get_color` at
version 3 stops at the first entry from a later version and answers the Red
baseline, not the last matching entry with version ≤ 3 (Black) that the
claim prescribes. -/
theorem C4_counterexample :
    (c4Heap 3).mods = [] ∧
    (c4Heap 3).left = ⟨some 1, false⟩ ∧
    leftP c4Heap 8 ⟨some 3, false⟩ 1 = ⟨some 2, false⟩ ∧
    (⟨some 2, false⟩ : Ptr) ≠ ⟨some 1, false⟩ ∧
    get_color c4Heap 8 ⟨some 4, false⟩ 3 = Color.Red ∧
    specFieldRead colSel (c4Heap 4).mods (c4Heap 4).color 3 = Color.Black ∧
    Color.Red ≠ Color.Black := by
  decide

/-- Claim C4 (amended): for every non-null handle and version, each accessor
first follows the `next_copy` chain while the successor record's birth
version is ≤ v; then, PROVIDED the record's mod log is ordered by version
(which the engine maintains), it returns the value of the last matching
entry with version ≤ v, or the baseline when none exists — except that the
pointer accessors (`left`, `right`, `parent`) additionally resolve the
resulting pointer through its own `next_copy` chain before returning it. -/
theorem C4_amended (h : Heap) (fuel : Nat) (p : Ptr) (v : Nat)
    (hp : p.null = false)
    (hs : ModsSorted (deref h (get_last_copy h fuel p v)).mods) :
    get_color h fuel p v =
      specFieldRead colSel (deref h (get_last_copy h fuel p v)).mods
        (deref h (get_last_copy h fuel p v)).color v ∧
    leftP h fuel p v =
      get_last_copy h fuel
        (specFieldRead leftSel (deref h (get_last_copy h fuel p v)).mods
          (deref h (get_last_copy h fuel p v)).left v) v ∧
    rightP h fuel p v =
      get_last_copy h fuel
        (specFieldRead rightSel (deref h (get_last_copy h fuel p v)).mods
          (deref h (get_last_copy h fuel p v)).right v) v ∧
    parentP h fuel p v =
      get_last_copy h fuel
        (specFieldRead parentSel (deref h (get_last_copy h fuel p v)).mods
          (deref h (get_last_copy h fuel p v)).parent v) v := by
  refine ⟨?_, ?_, ?_, ?_⟩
  · simp [get_color, hp, modScanColor_eq_selScan, selScan_eq_specFieldRead _ _ _ _ hs]
  · simp [leftP, hp, modScanLeft_eq_selScan, selScan_eq_specFieldRead _ _ _ _ hs]
  · simp [rightP, hp, modScanRight_eq_selScan, selScan_eq_specFieldRead _ _ _ _ hs]
  · simp [parentP, hp, modScanParent_eq_selScan, selScan_eq_specFieldRead _ _ _ _ hs]

/-- Claim C4 (amended) witness: the first node of the INC 1, INC 2, INC 3 run
at version 2, whose mod log `[1, 2, 3, 3, 3]` is version-sorted. -/
theorem C4_amended_witness :
    (⟨some 1, false⟩ : Ptr).null = false ∧
    ModsSorted (deref threeState.heap
      (get_last_copy threeState.heap 8 ⟨some 1, false⟩ 2)).mods ∧
    (get_color threeState.heap 8 ⟨some 1, false⟩ 2 =
      specFieldRead colSel (deref threeState.heap
          (get_last_copy threeState.heap 8 ⟨some 1, false⟩ 2)).mods
        (deref threeState.heap
          (get_last_copy threeState.heap 8 ⟨some 1, false⟩ 2)).color 2 ∧
     leftP threeState.heap 8 ⟨some 1, false⟩ 2 =
      get_last_copy threeState.heap 8
        (specFieldRead leftSel (deref threeState.heap
            (get_last_copy threeState.heap 8 ⟨some 1, false⟩ 2)).mods
          (deref threeState.heap
            (get_last_copy threeState.heap 8 ⟨some 1, false⟩ 2)).left 2) 2 ∧
     rightP threeState.heap 8 ⟨some 1, false⟩ 2 =
      get_last_copy threeState.heap 8
        (specFieldRead rightSel (deref threeState.heap
            (get_last_copy threeState.heap 8 ⟨some 1, false⟩ 2)).mods
          (deref threeState.heap
            (get_last_copy threeState.heap 8 ⟨some 1, false⟩ 2)).right 2) 2 ∧
     parentP threeState.heap 8 ⟨some 1, false⟩ 2 =
      get_last_copy threeState.heap 8
        (specFieldRead parentSel (deref threeState.heap
            (get_last_copy threeState.heap 8 ⟨some 1, false⟩ 2)).mods
          (deref threeState.heap
            (get_last_copy threeState.heap 8 ⟨some 1, false⟩ 2)).parent 2) 2) :=
  ⟨by decide, by decide,
    C4_amended threeState.heap 8 ⟨some 1, false⟩ 2 (by decide) (by decide)⟩

/-!  Basic facts about legality, `Evolves`, and the scans. -/

theorem LegalPtr.mono {alloc alloc' : Nat} {p : Ptr} (h : alloc ≤ alloc')
    (hp : LegalPtr alloc p) : LegalPtr alloc' p := by
  rcases hp with h1 | ⟨h1, i, h2, h3, h4⟩
  · exact Or.inl h1
  · exact Or.inr ⟨h1, i, h2, h3, by omega⟩

theorem legal_nullPtr (alloc : Nat) : LegalPtr alloc Ptr.nullPtr :=
  Or.inl ⟨rfl, Or.inl rfl⟩

theorem legal_nilPtr (alloc : Nat) : LegalPtr alloc Ptr.nilPtr :=
  Or.inl ⟨rfl, Or.inr rfl⟩

theorem legal_real {alloc i : Nat} (h1 : 0 < i) (h2 : i < alloc) :
    LegalPtr alloc (⟨some i, false⟩ : Ptr) :=
  Or.inr ⟨rfl, i, rfl, h1, h2⟩

theorem legal_of_null {alloc : Nat} {p : Ptr} (hp : LegalPtr alloc p)
    (h : p.null = true) : p = Ptr.nullPtr ∨ p = Ptr.nilPtr := by
  rcases hp with ⟨h1, h2 | h2⟩ | ⟨h1, _, _, _, _⟩
  · exact Or.inl (by cases p; simp_all [Ptr.nullPtr])
  · exact Or.inr (by cases p; simp_all [Ptr.nilPtr])
  · rw [h] at h1; cases h1

theorem legal_of_real {alloc : Nat} {p : Ptr} (hp : LegalPtr alloc p)
    (h : p.null = false) : ∃ i, p = ⟨some i, false⟩ ∧ 0 < i ∧ i < alloc := by
  rcases hp with ⟨h1, _⟩ | ⟨h1, i, h2, h3, h4⟩
  · rw [h] at h1; cases h1
  · exact ⟨i, by cases p; simp_all, h3, h4⟩

theorem RecordWF.monoRec {V V' alloc alloc' i : Nat} {r : Record}
    (hV : V ≤ V') (hA : alloc ≤ alloc') (h : RecordWF V alloc i r) :
    RecordWF V' alloc' i r := by
  obtain ⟨l1, l2, l3, l4, l5, l6, nc, len, srt, ms, ver⟩ := h
  refine ⟨l1.mono hA, l2.mono hA, l3.mono hA, l4.mono hA, l5.mono hA, l6.mono hA,
    ?_, len, srt, ?_, by omega⟩
  · rcases nc with h | ⟨j, hj1, hj2, hj3⟩
    · exact Or.inl h
    · exact Or.inr ⟨j, hj1, by omega, hj3⟩
  · intro m hm
    exact ⟨by have := (ms m hm).1; omega, (ms m hm).2.mono hA⟩

theorem ArenaWF.monoArena {V V' : Nat} {a : Arena} (hV : V ≤ V') (h : ArenaWF V a) :
    ArenaWF V' a :=
  ⟨h.pos, fun i hi => (h.records i hi).monoRec hV (le_refl _)⟩

theorem Evolves.reflOf {V : Nat} {a : Arena} (h : 0 < a.alloc) : Evolves V a a :=
  ⟨h, le_refl _, rfl, rfl, rfl, rfl, rfl,
    fun _i _h1 _h2 => ⟨rfl, rfl, rfl, rfl, rfl, rfl, rfl,
      ⟨[], by simp, by simp⟩, Or.inl rfl⟩⟩

theorem Evolves.trans {V : Nat} {a b c : Arena}
    (h1 : Evolves V a b) (h2 : Evolves V b c) : Evolves V a c := by
  refine ⟨h1.posAlloc, le_trans h1.allocLe h2.allocLe,
    h2.nilKey.trans h1.nilKey, h2.nilValue.trans h1.nilValue,
    h2.nilMods.trans h1.nilMods, h2.nilVersion.trans h1.nilVersion,
    h2.nilNext.trans h1.nilNext, ?_⟩
  intro i hi0 hia
  have hib : i < b.alloc := lt_of_lt_of_le hia h1.allocLe
  obtain ⟨k1, v1, c1, l1, r1, p1, ver1, ⟨t1, m1, mt1⟩, nc1⟩ := h1.old i hi0 hia
  obtain ⟨k2, v2, c2, l2, r2, p2, ver2, ⟨t2, m2, mt2⟩, nc2⟩ := h2.old i hi0 hib
  refine ⟨k2.trans k1, v2.trans v1, c2.trans c1, l2.trans l1, r2.trans r1,
    p2.trans p1, ver2.trans ver1, ⟨t1 ++ t2, ?_, ?_⟩, ?_⟩
  · rw [m2, m1, List.append_assoc]
  · intro m hm
    rcases List.mem_append.mp hm with h | h
    · exact mt1 m h
    · exact mt2 m h
  · rcases nc2 with h2eq | ⟨h2null, j, hj1, hj2, hj3, hj4⟩
    · rcases nc1 with h1eq | ⟨h1null, j, hj1, hj2, hj3, hj4⟩
      · exact Or.inl (h2eq.trans h1eq)
      · -- j was fresh for a; its version survives from b to c
        have hj0 : 0 < j := lt_of_lt_of_le h1.posAlloc hj1
        have hjb : j < b.alloc := hj2
        have := (h2.old j hj0 hjb).2.2.2.2.2.2.1
        exact Or.inr ⟨h1null, j, hj1, lt_of_lt_of_le hj2 h2.allocLe,
          h2eq.trans hj3, this.trans hj4⟩
    · rcases nc1 with h1eq | ⟨h1null, j', hj1', hj2', hj3', hj4'⟩
      · exact Or.inr ⟨h1eq ▸ h2null, j, le_trans h1.allocLe hj1, hj2, hj3, hj4⟩
      · -- impossible: b's next_copy is a real pointer but h2 needs it null
        rw [hj3'] at h2null
        cases h2null

theorem selScan_shape {α : Type} (sel : ModData → Option α) (v : Nat)
    (P : α → Prop) :
    ∀ (ms : List Mod) (c : α), P c →
      (∀ m ∈ ms, ∀ x, sel m.data = some x → P x) →
      P (selScan sel v c ms)
  | [], c, hc, _ => hc
  | m :: ms, c, hc, hms => by
    simp only [selScan]
    by_cases h : v < m.version
    · simpa [h] using hc
    · rw [if_neg h]
      cases hsel : sel m.data with
      | none =>
        exact selScan_shape sel v P ms c hc (fun m' hm' => hms m' (List.mem_cons_of_mem _ hm'))
      | some d =>
        exact selScan_shape sel v P ms d (hms m (List.mem_cons_self _ _) d hsel)
          (fun m' hm' => hms m' (List.mem_cons_of_mem _ hm'))

theorem selScan_append_future {α : Type} (sel : ModData → Option α) (v : Nat)
    (t : List Mod) (ht : ∀ m ∈ t, v < m.version) :
    ∀ (ms : List Mod) (c : α), selScan sel v c (ms ++ t) = selScan sel v c ms
  | [], c => by
    cases t with
    | nil => rfl
    | cons m t' =>
      have := ht m (List.mem_cons_self _ _)
      simp [selScan, this]
  | m :: ms, c => by
    simp only [List.cons_append, selScan]
    by_cases h : v < m.version
    · simp [h]
    · rw [if_neg h, if_neg h]
      cases sel m.data with
      | none => exact selScan_append_future sel v t ht ms c
      | some d => exact selScan_append_future sel v t ht ms d

theorem ModsSorted_append_last {ms : List Mod} {d : ModData} {V : Nat}
    (hs : ModsSorted ms) (hv : ∀ m ∈ ms, m.version ≤ V) :
    ModsSorted (ms ++ [⟨d, V⟩]) := by
  rw [ModsSorted, List.pairwise_append]
  exact ⟨hs, List.pairwise_singleton _ _,
    fun a ha b hb => by
      have := hv a ha
      have : b = ⟨d, V⟩ := List.mem_singleton.mp hb
      subst this
      exact hv a ha⟩

/-- The pointer components of a `cloneStep` fold stay legal when the fold
starts legal and every mod payload is legal. -/
theorem cloneFold_legal {alloc : Nat} :
    ∀ (l : List Mod) (st : Color × Ptr × Ptr × Ptr),
      LegalPtr alloc st.2.1 → LegalPtr alloc st.2.2.1 → LegalPtr alloc st.2.2.2 →
      (∀ m ∈ l, LegalPtr alloc (modPayload m.data)) →
      LegalPtr alloc (l.foldl cloneStep st).2.1 ∧
      LegalPtr alloc (l.foldl cloneStep st).2.2.1 ∧
      LegalPtr alloc (l.foldl cloneStep st).2.2.2
  | [], _st, h1, h2, h3, _ => ⟨h1, h2, h3⟩
  | m :: tl, st, h1, h2, h3, hl => by
    have hm := hl m (List.mem_cons_self _ _)
    have htl := fun m' hm' => hl m' (List.mem_cons_of_mem _ hm')
    rw [List.foldl_cons]
    cases hd : m.data with
    | parentD p =>
      refine cloneFold_legal tl (cloneStep st m) ?_ ?_ ?_ htl <;>
        simp_all [cloneStep, modPayload, hd]
    | leftD p =>
      refine cloneFold_legal tl (cloneStep st m) ?_ ?_ ?_ htl <;>
        simp_all [cloneStep, modPayload, hd]
    | rightD p =>
      refine cloneFold_legal tl (cloneStep st m) ?_ ?_ ?_ htl <;>
        simp_all [cloneStep, modPayload, hd]
    | colD c =>
      refine cloneFold_legal tl (cloneStep st m) ?_ ?_ ?_ htl <;>
        simp_all [cloneStep]

/-- Every structural field of `clone_with_latest_mods` comes from the
record's baseline or one of its mod payloads, so legality transfers. -/
theorem clone_legal {V alloc i : Nat} {r : Record} (h : RecordWF V alloc i r) :
    LegalPtr alloc (clone_with_latest_mods r).left ∧
    LegalPtr alloc (clone_with_latest_mods r).right ∧
    LegalPtr alloc (clone_with_latest_mods r).parent ∧
    LegalPtr alloc (clone_with_latest_mods r).bk_ptr_left ∧
    LegalPtr alloc (clone_with_latest_mods r).bk_ptr_right ∧
    LegalPtr alloc (clone_with_latest_mods r).bk_ptr_parent ∧
    (clone_with_latest_mods r).mods = [] ∧
    (clone_with_latest_mods r).next_copy = Ptr.nullPtr := by
  obtain ⟨l1, l2, l3, _, _, _, _, _, _, ms, _⟩ := h
  have key := @cloneFold_legal alloc r.mods (r.color, r.left, r.right, r.parent)
    l1 l2 l3 (fun m hm => (ms m hm).2)
  exact ⟨key.1, key.2.1, key.2.2, key.1, key.2.1, key.2.2, rfl, rfl⟩

/-!  Read results are legal pointers, and sufficiently fuelled chain walks
end resolved. -/

theorem glcLoop_spec {V v : Nat} {a : Arena} (hwf : ArenaWF V a) :
    ∀ (f i : Nat), 0 < i → i < a.alloc →
      ∃ i', 0 < i' ∧ i' < a.alloc ∧ i ≤ i' ∧
        glcLoop a.heap v f ⟨some i, false⟩ = ⟨some i', false⟩ ∧
        (a.alloc - i ≤ f →
          ((a.heap i').next_copy = Ptr.nullPtr ∨
            v < (deref a.heap (a.heap i').next_copy).version))
  | 0, i, hi0, hia => ⟨i, hi0, hia, le_refl _, rfl, by omega⟩
  | f + 1, i, hi0, hia => by
    have hnc := ((hwf.records i hia).2.2.2.2.2.2).1
    simp only [glcLoop, deref]
    rcases hnc with hnull | ⟨j, hij, hja, hreal⟩
    · rw [hnull]
      refine ⟨i, hi0, hia, le_refl _, by simp [Ptr.nullPtr], fun _ => Or.inl hnull⟩
    · rw [hreal]
      by_cases hver : (a.heap j).version ≤ v
      · simp only [deref, hver]
        obtain ⟨i', h1, h2, h3, h4, h5⟩ :=
          glcLoop_spec hwf f j (by omega) hja
        refine ⟨i', h1, h2, by omega, by simpa using h4, fun hf => h5 (by omega)⟩
      · refine ⟨i, hi0, hia, le_refl _, by simp [deref, hver], fun _ => ?_⟩
        exact Or.inr (by rw [hreal]; simpa [deref] using by omega)

theorem get_last_copy_spec {V v : Nat} {a : Arena} (hwf : ArenaWF V a) (f : Nat)
    {p : Ptr} (hp : LegalPtr a.alloc p) :
    LegalPtr a.alloc (get_last_copy a.heap f p v) ∧
    (p.null = true → get_last_copy a.heap f p v = p) ∧
    (p.null = false → (get_last_copy a.heap f p v).null = false) ∧
    (a.alloc ≤ f → Resolved a.heap (get_last_copy a.heap f p v) v) := by
  by_cases hn : p.null = true
  · rw [get_last_copy, if_pos hn]
    exact ⟨hp, fun _ => rfl, fun h => absurd hn (by simp [h]), fun _ => Or.inl hn⟩
  · have hn' : p.null = false := by revert hn; cases p.null <;> simp
    obtain ⟨i, rfl, hi0, hia⟩ := legal_of_real hp hn'
    rw [get_last_copy, if_neg hn]
    obtain ⟨i', h1, h2, _h3, h4, h5⟩ := glcLoop_spec (v := v) hwf f i hi0 hia
    rw [h4]
    refine ⟨legal_real h1 h2, ?_, fun _ => rfl, fun hf => ?_⟩
    · intro h; simp at h
    · exact Or.inr (by simpa [Resolved, deref] using h5 (by omega))

theorem leftP_legal {V v : Nat} {a : Arena} (hwf : ArenaWF V a) (f : Nat)
    {p : Ptr} (hp : LegalPtr a.alloc p) : LegalPtr a.alloc (leftP a.heap f p v) := by
  by_cases hn : p.null = true
  · rw [leftP, if_pos hn]; exact hp
  · rw [leftP, if_neg hn]
    have hn' : p.null = false := by revert hn; cases p.null <;> simp
    obtain ⟨hq, _, hreal, _⟩ := get_last_copy_spec (v := v) hwf f hp
    obtain ⟨i, hqe, hi0, hia⟩ := legal_of_real hq (hreal hn')
    have hrec := hwf.records i hia
    have hval : LegalPtr a.alloc
        (modScanLeft v (deref a.heap (get_last_copy a.heap f p v)).left
          (deref a.heap (get_last_copy a.heap f p v)).mods) := by
      rw [modScanLeft_eq_selScan]
      refine selScan_shape leftSel v _ _ _ ?_ ?_
      · rw [hqe]; exact hrec.1
      · intro m hm x hx
        have := (hrec.2.2.2.2.2.2.2.2.2.1 m (by rw [hqe] at hm; exact hm)).2
        cases hd : m.data <;> simp [leftSel, hd] at hx <;>
          simp_all [modPayload, hd]
    exact (get_last_copy_spec (v := v) hwf f hval).1

theorem rightP_legal {V v : Nat} {a : Arena} (hwf : ArenaWF V a) (f : Nat)
    {p : Ptr} (hp : LegalPtr a.alloc p) : LegalPtr a.alloc (rightP a.heap f p v) := by
  by_cases hn : p.null = true
  · rw [rightP, if_pos hn]; exact hp
  · rw [rightP, if_neg hn]
    have hn' : p.null = false := by revert hn; cases p.null <;> simp
    obtain ⟨hq, _, hreal, _⟩ := get_last_copy_spec (v := v) hwf f hp
    obtain ⟨i, hqe, hi0, hia⟩ := legal_of_real hq (hreal hn')
    have hrec := hwf.records i hia
    have hval : LegalPtr a.alloc
        (modScanRight v (deref a.heap (get_last_copy a.heap f p v)).right
          (deref a.heap (get_last_copy a.heap f p v)).mods) := by
      rw [modScanRight_eq_selScan]
      refine selScan_shape rightSel v _ _ _ ?_ ?_
      · rw [hqe]; exact hrec.2.1
      · intro m hm x hx
        have := (hrec.2.2.2.2.2.2.2.2.2.1 m (by rw [hqe] at hm; exact hm)).2
        cases hd : m.data <;> simp [rightSel, hd] at hx <;>
          simp_all [modPayload, hd]
    exact (get_last_copy_spec (v := v) hwf f hval).1

theorem parentP_legal {V v : Nat} {a : Arena} (hwf : ArenaWF V a) (f : Nat)
    {p : Ptr} (hp : LegalPtr a.alloc p) : LegalPtr a.alloc (parentP a.heap f p v) := by
  by_cases hn : p.null = true
  · rw [parentP, if_pos hn]
    rcases legal_of_null hp hn with rfl | rfl
    · exact legal_nullPtr _
    · exact (hwf.records 0 hwf.pos).2.2.1
  · rw [parentP, if_neg hn]
    have hn' : p.null = false := by revert hn; cases p.null <;> simp
    obtain ⟨hq, _, hreal, _⟩ := get_last_copy_spec (v := v) hwf f hp
    obtain ⟨i, hqe, hi0, hia⟩ := legal_of_real hq (hreal hn')
    have hrec := hwf.records i hia
    have hval : LegalPtr a.alloc
        (modScanParent v (deref a.heap (get_last_copy a.heap f p v)).parent
          (deref a.heap (get_last_copy a.heap f p v)).mods) := by
      rw [modScanParent_eq_selScan]
      refine selScan_shape parentSel v _ _ _ ?_ ?_
      · rw [hqe]; exact hrec.2.2.1
      · intro m hm x hx
        have := (hrec.2.2.2.2.2.2.2.2.2.1 m (by rw [hqe] at hm; exact hm)).2
        cases hd : m.data <;> simp [parentSel, hd] at hx <;>
          simp_all [modPayload, hd]
    exact (get_last_copy_spec (v := v) hwf f hval).1

theorem min_node_legal {V v : Nat} {a : Arena} (hwf : ArenaWF V a) (f : Nat) :
    ∀ (lf : Nat) {p : Ptr}, LegalPtr a.alloc p →
      LegalPtr a.alloc (min_node a.heap f lf p v)
  | 0, _, hp => hp
  | lf + 1, p, hp => by
    rw [min_node]
    by_cases h : (leftP a.heap f p v).null = false
    · rw [if_pos h]
      exact min_node_legal hwf f lf (leftP_legal hwf f hp)
    · rw [if_neg h]; exact hp

theorem max_node_legal {V v : Nat} {a : Arena} (hwf : ArenaWF V a) (f : Nat) :
    ∀ (lf : Nat) {p : Ptr}, LegalPtr a.alloc p →
      LegalPtr a.alloc (max_node a.heap f lf p v)
  | 0, _, hp => hp
  | lf + 1, p, hp => by
    rw [max_node]
    by_cases h : (rightP a.heap f p v).null = false
    · rw [if_pos h]
      exact max_node_legal hwf f lf (rightP_legal hwf f hp)
    · rw [if_neg h]; exact hp

theorem succClimb_legal {V v : Nat} {a : Arena} (hwf : ArenaWF V a) (f : Nat) :
    ∀ (lf : Nat) {x y : Ptr}, LegalPtr a.alloc x → LegalPtr a.alloc y →
      LegalPtr a.alloc (succClimb a.heap f v lf x y)
  | 0, _, _, _, hy => hy
  | lf + 1, x, y, hx, hy => by
    rw [succClimb]
    by_cases h : y.null = false ∧ is_right_child a.heap f x v = true
    · rw [if_pos h]
      exact succClimb_legal hwf f lf hy (parentP_legal hwf f hy)
    · rw [if_neg h]; exact hy

theorem predClimb_legal {V v : Nat} {a : Arena} (hwf : ArenaWF V a) (f : Nat) :
    ∀ (lf : Nat) {x y : Ptr}, LegalPtr a.alloc x → LegalPtr a.alloc y →
      LegalPtr a.alloc (predClimb a.heap f v lf x y)
  | 0, _, _, _, hy => hy
  | lf + 1, x, y, hx, hy => by
    rw [predClimb]
    by_cases h : y.null = false ∧ is_left_child a.heap f x v = true
    · rw [if_pos h]
      exact predClimb_legal hwf f lf hy (parentP_legal hwf f hy)
    · rw [if_neg h]; exact hy

theorem findLoop_legal {V v : Nat} {a : Arena} (hwf : ArenaWF V a) (f : Nat) (k : Int) :
    ∀ (lf : Nat) {p : Ptr}, LegalPtr a.alloc p →
      LegalPtr a.alloc (findLoop a.heap f k v lf p)
  | 0, _, _ => legal_nullPtr _
  | lf + 1, p, hp => by
    rw [findLoop]
    cases compare k (deref a.heap p).key with
    | eq => exact hp
    | lt =>
      by_cases h : (leftP a.heap f p v).null = true
      · simp only [h, if_true]; exact legal_nullPtr _
      · simp only [h, if_false]
        exact findLoop_legal hwf f k lf (leftP_legal hwf f hp)
    | gt =>
      by_cases h : (rightP a.heap f p v).null = true
      · simp only [h, if_true]; exact legal_nullPtr _
      · simp only [h, if_false]
        exact findLoop_legal hwf f k lf (rightP_legal hwf f hp)

theorem succDescent_legal {V v : Nat} {a : Arena} (hwf : ArenaWF V a) (f : Nat) (k : Int) :
    ∀ (lf : Nat) {p : Ptr}, LegalPtr a.alloc p →
      LegalPtr a.alloc (succDescent a.heap f k v lf p)
  | 0, _, hp => hp
  | lf + 1, p, hp => by
    rw [succDescent]
    cases compare k (deref a.heap p).key with
    | lt =>
      by_cases h : (leftP a.heap f p v).null = true
      · simp only [h, if_true]; exact hp
      · simp only [h, if_false]
        exact succDescent_legal hwf f k lf (leftP_legal hwf f hp)
    | eq =>
      by_cases h : (rightP a.heap f p v).null = true
      · simp only [h, if_true]; exact hp
      · simp only [h, if_false]
        exact succDescent_legal hwf f k lf (rightP_legal hwf f hp)
    | gt =>
      by_cases h : (rightP a.heap f p v).null = true
      · simp only [h, if_true]; exact hp
      · simp only [h, if_false]
        exact succDescent_legal hwf f k lf (rightP_legal hwf f hp)

/-!  The mutation path preserves well-formedness and only evolves the heap. -/

theorem hset_same (h : Heap) (i : Nat) (r : Record) : hset h i r i = r := by
  simp [hset]

theorem hset_other (h : Heap) (i : Nat) (r : Record) {j : Nat} (hne : j ≠ i) :
    hset h i r j = h j := by
  simp [hset, hne]

theorem writeBaselineBk_frame (r : Record) (d : ModData) :
    (writeBaselineBk r d).key = r.key ∧ (writeBaselineBk r d).value = r.value ∧
    (writeBaselineBk r d).mods = r.mods ∧
    (writeBaselineBk r d).next_copy = r.next_copy ∧
    (writeBaselineBk r d).version = r.version := by
  cases d <;> simp [writeBaselineBk]

theorem writeBaseline_frame (r : Record) (d : ModData) :
    (writeBaseline r d).key = r.key ∧ (writeBaseline r d).value = r.value ∧
    (writeBaseline r d).mods = r.mods ∧
    (writeBaseline r d).next_copy = r.next_copy ∧
    (writeBaseline r d).version = r.version ∧
    (writeBaseline r d).bk_ptr_left = r.bk_ptr_left ∧
    (writeBaseline r d).bk_ptr_right = r.bk_ptr_right ∧
    (writeBaseline r d).bk_ptr_parent = r.bk_ptr_parent := by
  cases d <;> simp [writeBaseline]

theorem writeBaseline_legal {alloc : Nat} {r : Record} {d : ModData}
    (h1 : LegalPtr alloc r.left) (h2 : LegalPtr alloc r.right)
    (h3 : LegalPtr alloc r.parent) (hd : LegalPtr alloc (modPayload d)) :
    LegalPtr alloc (writeBaseline r d).left ∧
    LegalPtr alloc (writeBaseline r d).right ∧
    LegalPtr alloc (writeBaseline r d).parent := by
  cases d <;> simp_all [writeBaseline, modPayload]

theorem writeBk_frame (r : Record) (d : ModData) :
    (writeBk r d).key = r.key ∧ (writeBk r d).value = r.value ∧
    (writeBk r d).color = r.color ∧ (writeBk r d).left = r.left ∧
    (writeBk r d).right = r.right ∧ (writeBk r d).parent = r.parent ∧
    (writeBk r d).mods = r.mods ∧ (writeBk r d).next_copy = r.next_copy ∧
    (writeBk r d).version = r.version := by
  cases d <;> simp [writeBk]

theorem writeBk_legal {alloc : Nat} {r : Record} {d : ModData}
    (h4 : LegalPtr alloc r.bk_ptr_left) (h5 : LegalPtr alloc r.bk_ptr_right)
    (h6 : LegalPtr alloc r.bk_ptr_parent) (hd : LegalPtr alloc (modPayload d)) :
    LegalPtr alloc (writeBk r d).bk_ptr_left ∧
    LegalPtr alloc (writeBk r d).bk_ptr_right ∧
    LegalPtr alloc (writeBk r d).bk_ptr_parent := by
  cases d <;> simp_all [writeBk, modPayload]

theorem writeBaselineBk_legal {alloc : Nat} {r : Record} {d : ModData}
    (h1 : LegalPtr alloc r.left) (h2 : LegalPtr alloc r.right)
    (h3 : LegalPtr alloc r.parent) (h4 : LegalPtr alloc r.bk_ptr_left)
    (h5 : LegalPtr alloc r.bk_ptr_right) (h6 : LegalPtr alloc r.bk_ptr_parent)
    (hd : LegalPtr alloc (modPayload d)) :
    LegalPtr alloc (writeBaselineBk r d).left ∧
    LegalPtr alloc (writeBaselineBk r d).right ∧
    LegalPtr alloc (writeBaselineBk r d).parent ∧
    LegalPtr alloc (writeBaselineBk r d).bk_ptr_left ∧
    LegalPtr alloc (writeBaselineBk r d).bk_ptr_right ∧
    LegalPtr alloc (writeBaselineBk r d).bk_ptr_parent := by
  cases d <;> simp_all [writeBaselineBk, modPayload]

theorem overflowSetup_spec {V : Nat} {a : Arena} (hwf : ArenaWF V a)
    {i : Nat} (hi0 : 0 < i) (hia : i < a.alloc) {d : ModData}
    (hd : LegalPtr a.alloc (modPayload d))
    (hnc : (a.heap i).next_copy = Ptr.nullPtr) :
    ArenaWF V (overflowSetup a i d V) ∧ Evolves V a (overflowSetup a i d V) ∧
    (overflowSetup a i d V).alloc = a.alloc + 1 := by
  have hrec := hwf.records i hia
  have hij : i ≠ a.alloc := by omega
  have hclone := clone_legal hrec
  have hBase :
      LegalPtr a.alloc ({ clone_with_latest_mods (a.heap i) with version := V } : Record).left ∧
      LegalPtr a.alloc ({ clone_with_latest_mods (a.heap i) with version := V } : Record).right ∧
      LegalPtr a.alloc ({ clone_with_latest_mods (a.heap i) with version := V } : Record).parent ∧
      LegalPtr a.alloc ({ clone_with_latest_mods (a.heap i) with version := V } : Record).bk_ptr_left ∧
      LegalPtr a.alloc ({ clone_with_latest_mods (a.heap i) with version := V } : Record).bk_ptr_right ∧
      LegalPtr a.alloc ({ clone_with_latest_mods (a.heap i) with version := V } : Record).bk_ptr_parent :=
    ⟨hclone.1, hclone.2.1, hclone.2.2.1, hclone.2.2.2.1, hclone.2.2.2.2.1,
      hclone.2.2.2.2.2.1⟩
  have hNewLegal := writeBaselineBk_legal hBase.1 hBase.2.1 hBase.2.2.1
    hBase.2.2.2.1 hBase.2.2.2.2.1 hBase.2.2.2.2.2 hd
  have hNewFrame := writeBaselineBk_frame
    ({ clone_with_latest_mods (a.heap i) with version := V }) d
  have heapJ : (overflowSetup a i d V).heap a.alloc =
      writeBaselineBk { clone_with_latest_mods (a.heap i) with version := V } d := by
    simp [overflowSetup, hset_same]
  have heapI : (overflowSetup a i d V).heap i =
      { a.heap i with next_copy := (⟨some a.alloc, false⟩ : Ptr) } := by
    simp only [overflowSetup]
    rw [hset_other _ _ _ hij, hset_same]
  have heapO : ∀ m, m ≠ i → m ≠ a.alloc → (overflowSetup a i d V).heap m = a.heap m := by
    intro m h1 h2
    simp only [overflowSetup]
    rw [hset_other _ _ _ h2, hset_other _ _ _ h1]
  have hallocEq : (overflowSetup a i d V).alloc = a.alloc + 1 := rfl
  refine ⟨⟨by omega, ?_⟩, ⟨hwf.pos, by omega, ?_, ?_, ?_, ?_, ?_, ?_⟩, rfl⟩
  · -- well-formedness of every slot
    intro m hm
    rw [hallocEq] at hm
    by_cases hmj : m = a.alloc
    · subst hmj
      rw [heapJ]
      refine ⟨(hNewLegal.1).mono (by omega), (hNewLegal.2.1).mono (by omega),
        (hNewLegal.2.2.1).mono (by omega), (hNewLegal.2.2.2.1).mono (by omega),
        (hNewLegal.2.2.2.2.1).mono (by omega), (hNewLegal.2.2.2.2.2).mono (by omega),
        ?_, ?_, ?_, ?_, ?_⟩
      · rw [hNewFrame.2.2.2.1]
        exact Or.inl hclone.2.2.2.2.2.2.2
      · rw [hNewFrame.2.2.1, hclone.2.2.2.2.2.2.1]
        simp [MAX_MODS]
      · rw [hNewFrame.2.2.1, hclone.2.2.2.2.2.2.1]
        exact List.Pairwise.nil
      · rw [hNewFrame.2.2.1, hclone.2.2.2.2.2.2.1]
        intro m hm
        cases hm
      · rw [hNewFrame.2.2.2.2]
    · by_cases hmi : m = i
      · subst hmi
        rw [heapI]
        obtain ⟨l1, l2, l3, l4, l5, l6, _, len, srt, ms, ver⟩ := hrec
        refine ⟨l1.mono (by omega), l2.mono (by omega), l3.mono (by omega),
          l4.mono (by omega), l5.mono (by omega), l6.mono (by omega),
          Or.inr ⟨a.alloc, by omega, by omega, rfl⟩, len, srt, ?_, ver⟩
        intro m hm
        exact ⟨(ms m hm).1, ((ms m hm).2).mono (by omega)⟩
      · rw [heapO m hmi hmj]
        exact (hwf.records m (by omega)).monoRec (le_refl _) (by omega)
  · rw [heapO 0 (by omega) (by omega)]
  · rw [heapO 0 (by omega) (by omega)]
  · rw [heapO 0 (by omega) (by omega)]
  · rw [heapO 0 (by omega) (by omega)]
  · rw [heapO 0 (by omega) (by omega)]
  · -- the old-slot clause
    intro m hm0 hma
    by_cases hmi : m = i
    · subst hmi
      rw [heapI]
      refine ⟨rfl, rfl, rfl, rfl, rfl, rfl, rfl, ⟨[], by simp, by simp⟩, ?_⟩
      refine Or.inr ⟨by rw [hnc]; rfl, a.alloc, le_refl _, by omega, rfl, ?_⟩
      rw [heapJ, hNewFrame.2.2.2.2]
    · rw [heapO m hmi (by omega)]
      exact ⟨rfl, rfl, rfl, rfl, rfl, rfl, rfl, ⟨[], by simp, by simp⟩, Or.inl rfl⟩

/-- The `is_null` branch of `set_modification` (a baseline write through the
nil sentinel, arena slot 0) preserves well-formedness and is an evolution. -/
theorem baselineWrite_spec {V : Nat} {a : Arena} (hwf : ArenaWF V a) {d : ModData}
    (hd : LegalPtr a.alloc (modPayload d)) :
    ArenaWF V { a with heap := hset a.heap 0 (writeBaseline (a.heap 0) d) } ∧
    Evolves V a { a with heap := hset a.heap 0 (writeBaseline (a.heap 0) d) } := by
  obtain ⟨l1, l2, l3, l4, l5, l6, nc, len, srt, ms, ver⟩ := hwf.records 0 hwf.pos
  have hWL := writeBaseline_legal l1 l2 l3 hd
  obtain ⟨fk, fv, fm, fn, fver, fbl, fbr, fbp⟩ := writeBaseline_frame (a.heap 0) d
  constructor
  · refine ⟨hwf.pos, fun m hm => ?_⟩
    by_cases hm0 : m = 0
    · subst hm0
      show RecordWF V a.alloc 0 (hset a.heap 0 (writeBaseline (a.heap 0) d) 0)
      rw [hset_same]
      exact ⟨hWL.1, hWL.2.1, hWL.2.2, by rw [fbl]; exact l4, by rw [fbr]; exact l5,
        by rw [fbp]; exact l6, by rw [fn]; exact nc, by rw [fm]; exact len,
        by rw [fm]; exact srt, by rw [fm]; exact ms, by rw [fver]; exact ver⟩
    · show RecordWF V a.alloc m (hset a.heap 0 (writeBaseline (a.heap 0) d) m)
      rw [hset_other _ _ _ hm0]
      exact hwf.records m hm
  · refine ⟨hwf.pos, le_refl _, ?_, ?_, ?_, ?_, ?_, fun m hm0 hma => ?_⟩
    · show (hset a.heap 0 (writeBaseline (a.heap 0) d) 0).key = (a.heap 0).key
      rw [hset_same]; exact fk
    · show (hset a.heap 0 (writeBaseline (a.heap 0) d) 0).value = (a.heap 0).value
      rw [hset_same]; exact fv
    · show (hset a.heap 0 (writeBaseline (a.heap 0) d) 0).mods = (a.heap 0).mods
      rw [hset_same]; exact fm
    · show (hset a.heap 0 (writeBaseline (a.heap 0) d) 0).version = (a.heap 0).version
      rw [hset_same]; exact fver
    · show (hset a.heap 0 (writeBaseline (a.heap 0) d) 0).next_copy = (a.heap 0).next_copy
      rw [hset_same]; exact fn
    · have hne : m ≠ 0 := by omega
      have heq : hset a.heap 0 (writeBaseline (a.heap 0) d) m = a.heap m :=
        hset_other _ _ _ hne
      exact ⟨by simp [heq], by simp [heq], by simp [heq], by simp [heq], by simp [heq],
        by simp [heq], by simp [heq], ⟨[], by simp [heq], by simp⟩,
        Or.inl (by simp [heq])⟩

/-- Every baseline field of the in-budget write survives; only the mod log
grows by the one appended entry. -/
theorem pushRec_frame (r : Record) (d : ModData) (V : Nat) :
    (pushRec r d V).key = r.key ∧ (pushRec r d V).value = r.value ∧
    (pushRec r d V).color = r.color ∧ (pushRec r d V).left = r.left ∧
    (pushRec r d V).right = r.right ∧ (pushRec r d V).parent = r.parent ∧
    (pushRec r d V).mods = r.mods ++ [⟨d, V⟩] ∧
    (pushRec r d V).next_copy = r.next_copy ∧
    (pushRec r d V).version = r.version := by
  cases d <;> simp [pushRec, writeBk]

theorem pushRec_bk_legal {alloc : Nat} {r : Record} {d : ModData} {V : Nat}
    (h4 : LegalPtr alloc r.bk_ptr_left) (h5 : LegalPtr alloc r.bk_ptr_right)
    (h6 : LegalPtr alloc r.bk_ptr_parent) (hd : LegalPtr alloc (modPayload d)) :
    LegalPtr alloc (pushRec r d V).bk_ptr_left ∧
    LegalPtr alloc (pushRec r d V).bk_ptr_right ∧
    LegalPtr alloc (pushRec r d V).bk_ptr_parent := by
  cases d <;> simp_all [pushRec, writeBk, modPayload]

/-- The in-budget branch of `set_modification` (append one mod entry to a
real record's log) preserves well-formedness and is an evolution. -/
theorem pushWrite_spec {V : Nat} {a : Arena} (hwf : ArenaWF V a) {i : Nat}
    (hi0 : 0 < i) (hia : i < a.alloc) {d : ModData}
    (hd : LegalPtr a.alloc (modPayload d))
    (hlen : (a.heap i).mods.length < MAX_MODS) :
    ArenaWF V { a with heap := hset a.heap i (pushRec (a.heap i) d V) } ∧
    Evolves V a { a with heap := hset a.heap i (pushRec (a.heap i) d V) } := by
  obtain ⟨l1, l2, l3, l4, l5, l6, nc, len, srt, ms, ver⟩ := hwf.records i hia
  have hBS := pushRec_bk_legal (V := V) l4 l5 l6 hd
  obtain ⟨fk, fv, fc, fl, fr, fp, fm, fn, fver⟩ := pushRec_frame (a.heap i) d V
  constructor
  · refine ⟨hwf.pos, fun m hm => ?_⟩
    by_cases hmi : m = i
    · subst hmi
      show RecordWF V a.alloc m (hset a.heap m (pushRec (a.heap m) d V) m)
      rw [hset_same]
      refine ⟨by rw [fl]; exact l1, by rw [fr]; exact l2, by rw [fp]; exact l3,
        hBS.1, hBS.2.1, hBS.2.2, by rw [fn]; exact nc, ?_, ?_, ?_,
        by rw [fver]; exact ver⟩
      · rw [fm, List.length_append]
        simp only [List.length_singleton]
        omega
      · rw [fm]
        exact ModsSorted_append_last srt (fun x hx => (ms x hx).1)
      · rw [fm]
        intro x hx
        rcases List.mem_append.mp hx with h | h
        · exact ms x h
        · rw [List.mem_singleton] at h
          subst h
          exact ⟨le_refl _, hd⟩
    · show RecordWF V a.alloc m (hset a.heap i (pushRec (a.heap i) d V) m)
      rw [hset_other _ _ _ hmi]
      exact hwf.records m hm
  · have heq0 : hset a.heap i (pushRec (a.heap i) d V) 0 = a.heap 0 :=
      hset_other _ _ _ (by omega)
    refine ⟨hwf.pos, le_refl _, ?_, ?_, ?_, ?_, ?_, fun m hm0 hma => ?_⟩
    · show (hset a.heap i (pushRec (a.heap i) d V) 0).key = (a.heap 0).key
      rw [heq0]
    · show (hset a.heap i (pushRec (a.heap i) d V) 0).value = (a.heap 0).value
      rw [heq0]
    · show (hset a.heap i (pushRec (a.heap i) d V) 0).mods = (a.heap 0).mods
      rw [heq0]
    · show (hset a.heap i (pushRec (a.heap i) d V) 0).version = (a.heap 0).version
      rw [heq0]
    · show (hset a.heap i (pushRec (a.heap i) d V) 0).next_copy = (a.heap 0).next_copy
      rw [heq0]
    · by_cases hmi : m = i
      · subst hmi
        have heq : hset a.heap m (pushRec (a.heap m) d V) m = pushRec (a.heap m) d V :=
          hset_same _ _ _
        refine ⟨?_, ?_, ?_, ?_, ?_, ?_, ?_, ⟨[⟨d, V⟩], ?_, by simp⟩, Or.inl ?_⟩
        · show (hset a.heap m (pushRec (a.heap m) d V) m).key = (a.heap m).key
          rw [heq, fk]
        · show (hset a.heap m (pushRec (a.heap m) d V) m).value = (a.heap m).value
          rw [heq, fv]
        · show (hset a.heap m (pushRec (a.heap m) d V) m).color = (a.heap m).color
          rw [heq, fc]
        · show (hset a.heap m (pushRec (a.heap m) d V) m).left = (a.heap m).left
          rw [heq, fl]
        · show (hset a.heap m (pushRec (a.heap m) d V) m).right = (a.heap m).right
          rw [heq, fr]
        · show (hset a.heap m (pushRec (a.heap m) d V) m).parent = (a.heap m).parent
          rw [heq, fp]
        · show (hset a.heap m (pushRec (a.heap m) d V) m).version = (a.heap m).version
          rw [heq, fver]
        · show (hset a.heap m (pushRec (a.heap m) d V) m).mods = (a.heap m).mods ++ [⟨d, V⟩]
          rw [heq, fm]
        · show (hset a.heap m (pushRec (a.heap m) d V) m).next_copy = (a.heap m).next_copy
          rw [heq, fn]
      · have heq : hset a.heap i (pushRec (a.heap i) d V) m = a.heap m :=
          hset_other _ _ _ hmi
        refine ⟨?_, ?_, ?_, ?_, ?_, ?_, ?_, ⟨[], ?_, by simp⟩, Or.inl ?_⟩
        · show (hset a.heap i (pushRec (a.heap i) d V) m).key = (a.heap m).key
          rw [heq]
        · show (hset a.heap i (pushRec (a.heap i) d V) m).value = (a.heap m).value
          rw [heq]
        · show (hset a.heap i (pushRec (a.heap i) d V) m).color = (a.heap m).color
          rw [heq]
        · show (hset a.heap i (pushRec (a.heap i) d V) m).left = (a.heap m).left
          rw [heq]
        · show (hset a.heap i (pushRec (a.heap i) d V) m).right = (a.heap m).right
          rw [heq]
        · show (hset a.heap i (pushRec (a.heap i) d V) m).parent = (a.heap m).parent
          rw [heq]
        · show (hset a.heap i (pushRec (a.heap i) d V) m).version = (a.heap m).version
          rw [heq]
        · show (hset a.heap i (pushRec (a.heap i) d V) m).mods = (a.heap m).mods ++ []
          rw [heq, List.append_nil]
        · show (hset a.heap i (pushRec (a.heap i) d V) m).next_copy = (a.heap m).next_copy
          rw [heq]

/-- `set_modification` preserves arena well-formedness and is an evolution at
the mutation version, provided the written pointer and payload are legal and
the receiver is chain-resolved (which every engine call site guarantees by
resolving with `get_last_copy` first). -/
theorem set_modification_spec :
    ∀ (fuel V : Nat) (a : Arena) (p : Ptr) (d : ModData),
      ArenaWF V a → LegalPtr a.alloc p → LegalPtr a.alloc (modPayload d) →
      Resolved a.heap p V →
      ArenaWF V (set_modification fuel a p d V) ∧
      Evolves V a (set_modification fuel a p d V)
  | 0, _, a, _, _, hwf, _, _, _ => ⟨hwf, Evolves.reflOf hwf.pos⟩
  | fuel + 1, V, a, p, d, hwf, hp, hd, hres => by
    cases haddr : p.addr with
    | none =>
      simp only [set_modification, haddr]
      exact ⟨hwf, Evolves.reflOf hwf.pos⟩
    | some i0 =>
      by_cases hnull : p.null = true
      · have hi00 : i0 = 0 := by
          rcases hp with ⟨_, h0 | h0⟩ | ⟨hf, _⟩
          · rw [haddr] at h0; cases h0
          · rw [haddr] at h0
            exact Option.some.inj h0
          · rw [hnull] at hf; cases hf
        subst hi00
        simp only [set_modification, haddr, if_pos hnull]
        exact baselineWrite_spec hwf hd
      · have hnull' : p.null = false := by revert hnull; cases p.null <;> simp
        obtain ⟨i, hpe, hi0, hia⟩ := legal_of_real hp hnull'
        have hpaddr : p.addr = some i := by rw [hpe]
        simp only [set_modification, hpaddr, if_neg hnull]
        by_cases hlen : (a.heap i).mods.length < MAX_MODS
        · rw [if_pos hlen]
          exact pushWrite_spec hwf hi0 hia hd hlen
        · rw [if_neg hlen]
          have hnc : (a.heap i).next_copy = Ptr.nullPtr := by
            rcases (hwf.records i hia).2.2.2.2.2.2.1 with hn | ⟨j, hij, hja, hje⟩
            · exact hn
            · exfalso
              rcases hres with h | h | h
              · rw [hnull'] at h; cases h
              · rw [hpe] at h
                simp only [deref] at h
                rw [hje] at h
                cases h
              · rw [hpe] at h
                simp only [deref] at h
                rw [hje] at h
                simp only [deref] at h
                have := (hwf.records j hja).2.2.2.2.2.2.2.2.2.2
                omega
          obtain ⟨hwf1, hev1, halloc1⟩ := overflowSetup_spec hwf hi0 hia hd hnc
          have notify : ∀ (b : Arena) (bk : Ptr) (pay : ModData), ArenaWF V b →
              LegalPtr b.alloc bk → LegalPtr b.alloc (modPayload pay) →
              ArenaWF V (set_modification fuel b
                (get_last_copy b.heap b.alloc bk V) pay V) ∧
              Evolves V b (set_modification fuel b
                (get_last_copy b.heap b.alloc bk V) pay V) := by
            intro b bk pay hwfb hbk hpay
            obtain ⟨hq, _, _, hqres⟩ := get_last_copy_spec (v := V) hwfb b.alloc hbk
            exact set_modification_spec fuel V b _ pay hwfb hq hpay (hqres (le_refl _))
          have condNotify : ∀ (b : Arena) (c : Prop) (inst : Decidable c)
              (bk : Ptr) (pay : ModData), ArenaWF V b →
              LegalPtr b.alloc bk → LegalPtr b.alloc (modPayload pay) →
              ArenaWF V (@ite _ c inst (set_modification fuel b
                (get_last_copy b.heap b.alloc bk V) pay V) b) ∧
              Evolves V b (@ite _ c inst (set_modification fuel b
                (get_last_copy b.heap b.alloc bk V) pay V) b) := by
            intro b c inst bk pay hwfb hbk hpay
            by_cases hc : c
            · rw [if_pos hc]
              exact notify b bk pay hwfb hbk hpay
            · rw [if_neg hc]
              exact ⟨hwfb, Evolves.reflOf hwfb.pos⟩
          generalize hA1 : overflowSetup a i d V = a1
          rw [hA1] at hwf1 hev1 halloc1
          have hnp1 : LegalPtr a1.alloc (⟨some a.alloc, false⟩ : Ptr) :=
            legal_real (by have := hwf.pos; omega) (by omega)
          have hbkl : LegalPtr a1.alloc ((a1.heap a.alloc).bk_ptr_left) :=
            (hwf1.records a.alloc (by omega)).2.2.2.1
          generalize hA2 :
            (if ((a1.heap a.alloc).bk_ptr_left).null = false ∧
                is_left_child a1.heap a1.alloc ((a1.heap a.alloc).bk_ptr_left) V = true then
              set_modification fuel a1
                (get_last_copy a1.heap a1.alloc ((a1.heap a.alloc).bk_ptr_left) V)
                (.parentD ⟨some a.alloc, false⟩) V
            else a1) = a2
          obtain ⟨hwf2, hev2⟩ : ArenaWF V a2 ∧ Evolves V a1 a2 := by
            rw [← hA2]
            exact condNotify a1 _ _ _ _ hwf1 hbkl hnp1
          have hbkr : LegalPtr a2.alloc ((a2.heap a.alloc).bk_ptr_right) :=
            (hwf2.records a.alloc (by have := hev2.allocLe; omega)).2.2.2.2.1
          generalize hA3 :
            (if ((a2.heap a.alloc).bk_ptr_right).null = false ∧
                is_right_child a2.heap a2.alloc ((a2.heap a.alloc).bk_ptr_right) V = true then
              set_modification fuel a2
                (get_last_copy a2.heap a2.alloc ((a2.heap a.alloc).bk_ptr_right) V)
                (.parentD ⟨some a.alloc, false⟩) V
            else a2) = a3
          obtain ⟨hwf3, hev3⟩ : ArenaWF V a3 ∧ Evolves V a2 a3 := by
            rw [← hA3]
            exact condNotify a2 _ _ _ _ hwf2 hbkr (hnp1.mono hev2.allocLe)
          have hEv13 : Evolves V a a3 := hev1.trans (hev2.trans hev3)
          have hbkp : LegalPtr a3.alloc ((a3.heap a.alloc).bk_ptr_parent) :=
            (hwf3.records a.alloc
              (by have := hev2.allocLe; have := hev3.allocLe; omega)).2.2.2.2.2.1
          have hnp3 : LegalPtr a3.alloc (⟨some a.alloc, false⟩ : Ptr) :=
            hnp1.mono (le_trans hev2.allocLe hev3.allocLe)
          by_cases hc4 : ((a3.heap a.alloc).bk_ptr_parent).null = true
          · rw [if_pos hc4]
            exact ⟨hwf3, hEv13⟩
          · rw [if_neg hc4]
            by_cases hc5 : ptr_eq a3.heap p
                (leftP a3.heap a3.alloc ((a3.heap a.alloc).bk_ptr_parent) V) = true
            · rw [if_pos hc5]
              obtain ⟨hwf4, hev4⟩ :=
                notify a3 _ (.leftD ⟨some a.alloc, false⟩) hwf3 hbkp hnp3
              exact ⟨hwf4, hEv13.trans hev4⟩
            · rw [if_neg hc5]
              by_cases hc6 : ptr_eq a3.heap p
                  (rightP a3.heap a3.alloc ((a3.heap a.alloc).bk_ptr_parent) V) = true
              · rw [if_pos hc6]
                obtain ⟨hwf4, hev4⟩ :=
                  notify a3 _ (.rightD ⟨some a.alloc, false⟩) hwf3 hbkp hnp3
                exact ⟨hwf4, hEv13.trans hev4⟩
              · rw [if_neg hc6]
                exact ⟨hwf3, hEv13⟩

/-- `set_parent` preserves well-formedness and evolves the heap. -/
theorem set_parent_spec (fuel : Nat) {V : Nat} {a : Arena} (hwf : ArenaWF V a)
    {p q : Ptr} (hp : LegalPtr a.alloc p) (hq : LegalPtr a.alloc q) :
    ArenaWF V (set_parent fuel a p q V) ∧ Evolves V a (set_parent fuel a p q V) := by
  obtain ⟨hr, _, _, hres⟩ := get_last_copy_spec (v := V) hwf a.alloc hp
  exact set_modification_spec fuel V a _ _ hwf hr hq (hres (le_refl _))

/-- `set_left` preserves well-formedness and evolves the heap. -/
theorem set_left_spec (fuel : Nat) {V : Nat} {a : Arena} (hwf : ArenaWF V a)
    {p q : Ptr} (hp : LegalPtr a.alloc p) (hq : LegalPtr a.alloc q) :
    ArenaWF V (set_left fuel a p q V) ∧ Evolves V a (set_left fuel a p q V) := by
  obtain ⟨hr, _, _, hres⟩ := get_last_copy_spec (v := V) hwf a.alloc hp
  exact set_modification_spec fuel V a _ _ hwf hr hq (hres (le_refl _))

/-- `set_right` preserves well-formedness and evolves the heap. -/
theorem set_right_spec (fuel : Nat) {V : Nat} {a : Arena} (hwf : ArenaWF V a)
    {p q : Ptr} (hp : LegalPtr a.alloc p) (hq : LegalPtr a.alloc q) :
    ArenaWF V (set_right fuel a p q V) ∧ Evolves V a (set_right fuel a p q V) := by
  obtain ⟨hr, _, _, hres⟩ := get_last_copy_spec (v := V) hwf a.alloc hp
  exact set_modification_spec fuel V a _ _ hwf hr hq (hres (le_refl _))

/-- `set_color` preserves well-formedness and evolves the heap. -/
theorem set_color_spec (fuel : Nat) {V : Nat} {a : Arena} (hwf : ArenaWF V a)
    {p : Ptr} (hp : LegalPtr a.alloc p) (c : Color) :
    ArenaWF V (set_color fuel a p c V) ∧ Evolves V a (set_color fuel a p c V) := by
  rw [set_color]
  by_cases hn : p.null = true
  · rw [if_pos hn]
    exact ⟨hwf, Evolves.reflOf hwf.pos⟩
  · rw [if_neg hn]
    by_cases hc : c = get_color a.heap a.alloc (get_last_copy a.heap a.alloc p V) V
    · rw [if_pos hc]
      exact ⟨hwf, Evolves.reflOf hwf.pos⟩
    · rw [if_neg hc]
      obtain ⟨hr, _, _, hres⟩ := get_last_copy_spec (v := V) hwf a.alloc hp
      exact set_modification_spec fuel V a _ _ hwf hr (legal_nullPtr _) (hres (le_refl _))

/-- `set_red_color` preserves well-formedness and evolves the heap. -/
theorem set_red_color_spec (fuel : Nat) {V : Nat} {a : Arena} (hwf : ArenaWF V a)
    {p : Ptr} (hp : LegalPtr a.alloc p) :
    ArenaWF V (set_red_color fuel a p V) ∧ Evolves V a (set_red_color fuel a p V) :=
  set_color_spec fuel hwf hp .Red

/-- `set_black_color` preserves well-formedness and evolves the heap. -/
theorem set_black_color_spec (fuel : Nat) {V : Nat} {a : Arena} (hwf : ArenaWF V a)
    {p : Ptr} (hp : LegalPtr a.alloc p) :
    ArenaWF V (set_black_color fuel a p V) ∧ Evolves V a (set_black_color fuel a p V) :=
  set_color_spec fuel hwf hp .Black

/-!  Engine-level preservation.  A `StepOK V g gr` step keeps the arena
well-formed at the mutation version `V`, evolves the heap, keeps the cached
root legal and leaves the version counter, the version registry, the length
and the nil sentinel untouched. -/

structure StepOK (V : Nat) (g gr : Gojo) : Prop where
  wf : ArenaWF V gr.arena
  ev : Evolves V g.arena gr.arena
  rootLegal : LegalPtr gr.alloc gr.root
  ver : gr.curr_version = g.curr_version
  rootsEq : gr.roots = g.roots
  lenEq : gr.len = g.len
  nilEq : gr.nil = g.nil

theorem StepOK.refl {V : Nat} {g : Gojo} (hwf : ArenaWF V g.arena)
    (hroot : LegalPtr g.alloc g.root) : StepOK V g g :=
  ⟨hwf, Evolves.reflOf hwf.pos, hroot, rfl, rfl, rfl, rfl⟩

theorem StepOK.chain {V : Nat} {g g1 g2 : Gojo} (h1 : StepOK V g g1)
    (h2 : StepOK V g1 g2) : StepOK V g g2 :=
  ⟨h2.wf, h1.ev.trans h2.ev, h2.rootLegal, h2.ver.trans h1.ver,
    h2.rootsEq.trans h1.rootsEq, h2.lenEq.trans h1.lenEq, h2.nilEq.trans h1.nilEq⟩

/-- Push one well-formed arena write into the engine state. -/
theorem step_arena {V : Nat} {g : Gojo} {a : Arena} (hwfa : ArenaWF V a)
    (heva : Evolves V g.arena a) (hroot : LegalPtr g.alloc g.root) :
    StepOK V g (g.withArena a) :=
  ⟨hwfa, heva, hroot.mono heva.allocLe, rfl, rfl, rfl, rfl⟩

/-- Compose a step with one more arena write (the write's facts may use the
accumulated step). -/
theorem comp_arena {V : Nat} {g g1 : Gojo} {a : Arena} (h1 : StepOK V g g1)
    (h2 : StepOK V g g1 → ArenaWF V a ∧ Evolves V g1.arena a) :
    StepOK V g (g1.withArena a) :=
  h1.chain (step_arena (h2 h1).1 (h2 h1).2 h1.rootLegal)

/-- Compose a step with a rewrite of the cached root. -/
theorem comp_setRoot {V : Nat} {g g1 : Gojo} {t : Ptr} (h1 : StepOK V g g1)
    (ht : StepOK V g g1 → LegalPtr g1.alloc t) :
    StepOK V g { g1 with root := t } :=
  ⟨h1.wf, h1.ev, ht h1, h1.ver, h1.rootsEq, h1.lenEq, h1.nilEq⟩

/-- Compose a step with a guarded arena write (the guard of the source's
`if` branches). -/
theorem comp_branch2 {V : Nat} {g g1 : Gojo} {C : Prop} (i1 : Decidable C)
    {a : Arena} (h1 : StepOK V g g1)
    (h2 : StepOK V g g1 → ArenaWF V a ∧ Evolves V g1.arena a) :
    StepOK V g (@ite _ C i1 (g1.withArena a) g1) := by
  by_cases hc : C
  · rw [if_pos hc]
    exact comp_arena h1 h2
  · rw [if_neg hc]
    exact h1

/-- Compose a step with the three-way branch the rotations use: re-root, or
write one of two links. -/
theorem comp_branch3 {V : Nat} {g g3 : Gojo} {t : Ptr} {C C2 : Prop}
    (i1 : Decidable C) (i2 : Decidable C2) {a2 a3 : Arena} (h1 : StepOK V g g3)
    (ht : StepOK V g g3 → LegalPtr g3.alloc t)
    (h2 : StepOK V g g3 → ArenaWF V a2 ∧ Evolves V g3.arena a2)
    (h3 : StepOK V g g3 → ArenaWF V a3 ∧ Evolves V g3.arena a3) :
    StepOK V g (@ite _ C i1 { g3 with root := t }
      (@ite _ C2 i2 (g3.withArena a2) (g3.withArena a3))) := by
  by_cases hc : C
  · rw [if_pos hc]
    exact comp_setRoot h1 ht
  · rw [if_neg hc]
    by_cases hc2 : C2
    · rw [if_pos hc2]
      exact comp_arena h1 h2
    · rw [if_neg hc2]
      exact comp_arena h1 h3

/-- `Gojo::left_rotate` preserves the engine invariants. -/
theorem left_rotate_ok (fuel : Nat) {g : Gojo} (hwf : ArenaWF g.curr_version g.arena)
    (hroot : LegalPtr g.alloc g.root) {node : Ptr} (hnode : LegalPtr g.alloc node) :
    StepOK g.curr_version g (left_rotate fuel g node) := by
  have htemp : LegalPtr g.alloc (rightP g.heap fuel node g.curr_version) :=
    rightP_legal hwf fuel hnode
  simp only [left_rotate]
  refine comp_arena ?_ (fun s => set_parent_spec fuel s.wf (hnode.mono s.ev.allocLe)
    (htemp.mono s.ev.allocLe))
  refine comp_arena ?_ (fun s => set_left_spec fuel s.wf (htemp.mono s.ev.allocLe)
    (hnode.mono s.ev.allocLe))
  refine comp_branch3 _ _ ?_ (fun s => htemp.mono s.ev.allocLe)
    (fun s => set_left_spec fuel s.wf (parentP_legal s.wf fuel (hnode.mono s.ev.allocLe))
      (htemp.mono s.ev.allocLe))
    (fun s => set_right_spec fuel s.wf (parentP_legal s.wf fuel (hnode.mono s.ev.allocLe))
      (htemp.mono s.ev.allocLe))
  refine comp_arena ?_ (fun s => set_parent_spec fuel s.wf (htemp.mono s.ev.allocLe)
    (parentP_legal s.wf fuel (hnode.mono s.ev.allocLe)))
  refine comp_branch2 _ ?_ (fun s => set_parent_spec fuel s.wf
    (leftP_legal s.wf fuel (htemp.mono s.ev.allocLe)) (hnode.mono s.ev.allocLe))
  exact step_arena (set_right_spec fuel hwf hnode (leftP_legal hwf fuel htemp)).1
    (set_right_spec fuel hwf hnode (leftP_legal hwf fuel htemp)).2 hroot

/-- `Gojo::right_rotate` preserves the engine invariants. -/
theorem right_rotate_ok (fuel : Nat) {g : Gojo} (hwf : ArenaWF g.curr_version g.arena)
    (hroot : LegalPtr g.alloc g.root) {node : Ptr} (hnode : LegalPtr g.alloc node) :
    StepOK g.curr_version g (right_rotate fuel g node) := by
  have htemp : LegalPtr g.alloc (leftP g.heap fuel node g.curr_version) :=
    leftP_legal hwf fuel hnode
  simp only [right_rotate]
  refine comp_arena ?_ (fun s => set_parent_spec fuel s.wf (hnode.mono s.ev.allocLe)
    (htemp.mono s.ev.allocLe))
  refine comp_arena ?_ (fun s => set_right_spec fuel s.wf (htemp.mono s.ev.allocLe)
    (hnode.mono s.ev.allocLe))
  refine comp_branch3 _ _ ?_ (fun s => htemp.mono s.ev.allocLe)
    (fun s => set_right_spec fuel s.wf (parentP_legal s.wf fuel (hnode.mono s.ev.allocLe))
      (htemp.mono s.ev.allocLe))
    (fun s => set_left_spec fuel s.wf (parentP_legal s.wf fuel (hnode.mono s.ev.allocLe))
      (htemp.mono s.ev.allocLe))
  refine comp_arena ?_ (fun s => set_parent_spec fuel s.wf (htemp.mono s.ev.allocLe)
    (parentP_legal s.wf fuel (hnode.mono s.ev.allocLe)))
  refine comp_branch2 _ ?_ (fun s => set_parent_spec fuel s.wf
    (rightP_legal s.wf fuel (htemp.mono s.ev.allocLe)) (hnode.mono s.ev.allocLe))
  exact step_arena (set_left_spec fuel hwf hnode (rightP_legal hwf fuel htemp)).1
    (set_left_spec fuel hwf hnode (rightP_legal hwf fuel htemp)).2 hroot

/-- Compose a step with a left rotation. -/
theorem comp_left_rotate (fuel : Nat) {V : Nat} {g g1 : Gojo} {node : Ptr}
    (h1 : StepOK V g g1) (hver : g.curr_version = V)
    (hn : StepOK V g g1 → LegalPtr g1.alloc node) :
    StepOK V g (left_rotate fuel g1 node) := by
  have hv : g1.curr_version = V := h1.ver.trans hver
  have r := left_rotate_ok fuel (g := g1) (by rw [hv]; exact h1.wf) h1.rootLegal (hn h1)
  rw [hv] at r
  exact h1.chain r

/-- Compose a step with a right rotation. -/
theorem comp_right_rotate (fuel : Nat) {V : Nat} {g g1 : Gojo} {node : Ptr}
    (h1 : StepOK V g g1) (hver : g.curr_version = V)
    (hn : StepOK V g g1 → LegalPtr g1.alloc node) :
    StepOK V g (right_rotate fuel g1 node) := by
  have hv : g1.curr_version = V := h1.ver.trans hver
  have r := right_rotate_ok fuel (g := g1) (by rw [hv]; exact h1.wf) h1.rootLegal (hn h1)
  rw [hv] at r
  exact h1.chain r

/-- The `insert_fixup` loop preserves the engine invariants. -/
theorem insert_fixup_loop_ok (fuel : Nat) :
    ∀ (lf : Nat) (g : Gojo) (dude : Ptr), ArenaWF g.curr_version g.arena →
      LegalPtr g.alloc g.root → LegalPtr g.alloc dude →
      StepOK g.curr_version g (insert_fixup_loop fuel lf g dude)
  | 0, g, _, hwf, hroot, _ => StepOK.refl hwf hroot
  | lf + 1, g, dude, hwf, hroot, hdude => by
    have comp_loop : ∀ (g1 : Gojo) (nd : Ptr), StepOK g.curr_version g g1 →
        (StepOK g.curr_version g g1 → LegalPtr g1.alloc nd) →
        StepOK g.curr_version g (insert_fixup_loop fuel lf g1 nd) := fun g1 nd h1 hnd => by
      have hv : g1.curr_version = g.curr_version := h1.ver
      have r := insert_fixup_loop_ok fuel lf g1 nd (by rw [hv]; exact h1.wf)
        h1.rootLegal (hnd h1)
      rw [hv] at r
      exact h1.chain r
    have hpar : LegalPtr g.alloc (parentP g.heap fuel dude g.curr_version) :=
      parentP_legal hwf fuel hdude
    have huncR : LegalPtr g.alloc (rightP g.heap fuel
        (parentP g.heap fuel (parentP g.heap fuel dude g.curr_version) g.curr_version)
        g.curr_version) :=
      rightP_legal hwf fuel (parentP_legal hwf fuel hpar)
    have huncL : LegalPtr g.alloc (leftP g.heap fuel
        (parentP g.heap fuel (parentP g.heap fuel dude g.curr_version) g.curr_version)
        g.curr_version) :=
      leftP_legal hwf fuel (parentP_legal hwf fuel hpar)
    simp only [insert_fixup_loop]
    split
    · split
      · split
        · -- Case 1: recolour and climb to the grandparent
          refine comp_loop _ _ ?_ (fun s => parentP_legal s.wf fuel
            (parentP_legal s.wf fuel (hdude.mono s.ev.allocLe)))
          refine comp_arena ?_ (fun s => set_red_color_spec fuel s.wf
            (parentP_legal s.wf fuel (parentP_legal s.wf fuel (hdude.mono s.ev.allocLe))))
          refine comp_arena ?_ (fun s =>
            set_black_color_spec fuel s.wf (huncR.mono s.ev.allocLe))
          exact step_arena (set_black_color_spec fuel hwf hpar).1
            (set_black_color_spec fuel hwf hpar).2 hroot
        · -- Cases 2 and 3
          split
          · dsimp only
            refine comp_loop _ _ ?_ (fun s => hpar.mono s.ev.allocLe)
            refine comp_right_rotate fuel ?_ rfl (fun s => parentP_legal s.wf fuel
              (parentP_legal s.wf fuel (hpar.mono s.ev.allocLe)))
            refine comp_arena ?_ (fun s => set_red_color_spec fuel s.wf
              (parentP_legal s.wf fuel (parentP_legal s.wf fuel (hpar.mono s.ev.allocLe))))
            refine comp_arena ?_ (fun s => set_black_color_spec fuel s.wf
              (parentP_legal s.wf fuel (hpar.mono s.ev.allocLe)))
            exact comp_left_rotate fuel (StepOK.refl hwf hroot) rfl (fun _ => hpar)
          · dsimp only
            refine comp_loop _ _ ?_ (fun s => hdude.mono s.ev.allocLe)
            refine comp_right_rotate fuel ?_ rfl (fun s => parentP_legal s.wf fuel
              (parentP_legal s.wf fuel (hdude.mono s.ev.allocLe)))
            refine comp_arena ?_ (fun s => set_red_color_spec fuel s.wf
              (parentP_legal s.wf fuel (parentP_legal s.wf fuel (hdude.mono s.ev.allocLe))))
            refine comp_arena ?_ (fun s => set_black_color_spec fuel s.wf
              (parentP_legal s.wf fuel (hdude.mono s.ev.allocLe)))
            exact StepOK.refl hwf hroot
      · split
        · -- Case 4
          refine comp_loop _ _ ?_ (fun s => parentP_legal s.wf fuel
            (parentP_legal s.wf fuel (hdude.mono s.ev.allocLe)))
          refine comp_arena ?_ (fun s => set_red_color_spec fuel s.wf
            (parentP_legal s.wf fuel (parentP_legal s.wf fuel (hdude.mono s.ev.allocLe))))
          refine comp_arena ?_ (fun s => set_black_color_spec fuel s.wf
            (parentP_legal s.wf fuel (hdude.mono s.ev.allocLe)))
          exact step_arena (set_black_color_spec fuel hwf huncL).1
            (set_black_color_spec fuel hwf huncL).2 hroot
        · -- Cases 5 and 6
          split
          · dsimp only
            refine comp_loop _ _ ?_ (fun s => hpar.mono s.ev.allocLe)
            refine comp_left_rotate fuel ?_ rfl (fun s => parentP_legal s.wf fuel
              (parentP_legal s.wf fuel (hpar.mono s.ev.allocLe)))
            refine comp_arena ?_ (fun s => set_red_color_spec fuel s.wf
              (parentP_legal s.wf fuel (parentP_legal s.wf fuel (hpar.mono s.ev.allocLe))))
            refine comp_arena ?_ (fun s => set_black_color_spec fuel s.wf
              (parentP_legal s.wf fuel (hpar.mono s.ev.allocLe)))
            exact comp_right_rotate fuel (StepOK.refl hwf hroot) rfl (fun _ => hpar)
          · dsimp only
            refine comp_loop _ _ ?_ (fun s => hdude.mono s.ev.allocLe)
            refine comp_left_rotate fuel ?_ rfl (fun s => parentP_legal s.wf fuel
              (parentP_legal s.wf fuel (hdude.mono s.ev.allocLe)))
            refine comp_arena ?_ (fun s => set_red_color_spec fuel s.wf
              (parentP_legal s.wf fuel (parentP_legal s.wf fuel (hdude.mono s.ev.allocLe))))
            refine comp_arena ?_ (fun s => set_black_color_spec fuel s.wf
              (parentP_legal s.wf fuel (hdude.mono s.ev.allocLe)))
            exact StepOK.refl hwf hroot
    · -- loop exit: blacken and re-resolve the root
      refine comp_setRoot ?_
        (fun s => (get_last_copy_spec s.wf fuel (hroot.mono s.ev.allocLe)).1)
      exact step_arena (set_black_color_spec fuel hwf hroot).1
        (set_black_color_spec fuel hwf hroot).2 hroot

/-- `Gojo::insert_fixup` preserves the engine invariants. -/
theorem insert_fixup_ok (fuel : Nat) {g : Gojo} (hwf : ArenaWF g.curr_version g.arena)
    (hroot : LegalPtr g.alloc g.root) {node : Ptr} (hnode : LegalPtr g.alloc node) :
    StepOK g.curr_version g (insert_fixup fuel g node) :=
  insert_fixup_loop_ok fuel fuel g node hwf hroot hnode

/-- Case 1 of `delete_fixup` on the left-child arm: recolour the red
brother and the parent, then rotate the parent left. -/
theorem dfl_case1A (fuel : Nat) {g : Gojo} (hwf : ArenaWF g.curr_version g.arena)
    (hroot : LegalPtr g.alloc g.root) {x : Ptr} (hx : LegalPtr g.alloc x) :
    ∀ ga gb, ga = g.withArena (set_black_color fuel g.arena
        (rightP g.heap fuel (parentP g.heap fuel x g.curr_version) g.curr_version)
        g.curr_version) →
      gb = ga.withArena (set_red_color fuel ga.arena
        (parentP ga.heap fuel x g.curr_version) g.curr_version) →
      StepOK g.curr_version g (left_rotate fuel gb (parentP gb.heap fuel x g.curr_version)) := by
  intro ga gb ea eb
  obtain ⟨wa, eva⟩ := set_black_color_spec fuel hwf
    (rightP_legal hwf fuel (parentP_legal hwf fuel hx))
  have sa : StepOK g.curr_version g ga := by
    rw [ea]; exact step_arena wa eva hroot
  obtain ⟨wb, evb⟩ := set_red_color_spec fuel sa.wf
    (parentP_legal sa.wf fuel (hx.mono sa.ev.allocLe))
  have sb : StepOK g.curr_version g gb := by
    rw [eb]; exact sa.chain (step_arena wb evb sa.rootLegal)
  exact comp_left_rotate fuel sb rfl
    (fun s => parentP_legal s.wf fuel (hx.mono s.ev.allocLe))

/-- Case 1 of `delete_fixup` on the right-child arm. -/
theorem dfl_case1B (fuel : Nat) {g : Gojo} (hwf : ArenaWF g.curr_version g.arena)
    (hroot : LegalPtr g.alloc g.root) {x : Ptr} (hx : LegalPtr g.alloc x) :
    ∀ ga gb, ga = g.withArena (set_black_color fuel g.arena
        (leftP g.heap fuel (parentP g.heap fuel x g.curr_version) g.curr_version)
        g.curr_version) →
      gb = ga.withArena (set_red_color fuel ga.arena
        (parentP ga.heap fuel x g.curr_version) g.curr_version) →
      StepOK g.curr_version g (right_rotate fuel gb (parentP gb.heap fuel x g.curr_version)) := by
  intro ga gb ea eb
  obtain ⟨wa, eva⟩ := set_black_color_spec fuel hwf
    (leftP_legal hwf fuel (parentP_legal hwf fuel hx))
  have sa : StepOK g.curr_version g ga := by
    rw [ea]; exact step_arena wa eva hroot
  obtain ⟨wb, evb⟩ := set_red_color_spec fuel sa.wf
    (parentP_legal sa.wf fuel (hx.mono sa.ev.allocLe))
  have sb : StepOK g.curr_version g gb := by
    rw [eb]; exact sa.chain (step_arena wb evb sa.rootLegal)
  exact comp_right_rotate fuel sb rfl
    (fun s => parentP_legal s.wf fuel (hx.mono s.ev.allocLe))

/-- Case 3 of `delete_fixup` on the left-child arm: blacken the brother's
left child, redden the brother and rotate it right. -/
theorem dfl_case3stepA (fuel : Nat) {g g1 : Gojo} {b1 : Ptr}
    (h1 : StepOK g.curr_version g g1) (hb1 : LegalPtr g1.alloc b1) :
    ∀ ga gb, ga = g1.withArena (set_black_color fuel g1.arena
        (leftP g1.heap fuel b1 g.curr_version) g.curr_version) →
      gb = ga.withArena (set_red_color fuel ga.arena b1 g.curr_version) →
      StepOK g.curr_version g (right_rotate fuel gb b1) := by
  intro ga gb ea eb
  obtain ⟨wa, eva⟩ := set_black_color_spec fuel h1.wf (leftP_legal h1.wf fuel hb1)
  have sa : StepOK g.curr_version g ga := by
    rw [ea]; exact h1.chain (step_arena wa eva h1.rootLegal)
  have aa : g1.alloc ≤ ga.alloc := by
    rw [ea]; exact eva.allocLe
  obtain ⟨wb, evb⟩ := set_red_color_spec fuel sa.wf (hb1.mono aa)
  have sb : StepOK g.curr_version g gb := by
    rw [eb]; exact sa.chain (step_arena wb evb sa.rootLegal)
  have ab : ga.alloc ≤ gb.alloc := by
    rw [eb]; exact evb.allocLe
  exact comp_right_rotate fuel sb rfl (fun _ => hb1.mono (le_trans aa ab))

/-- Case 3 of `delete_fixup` on the right-child arm. -/
theorem dfl_case3stepB (fuel : Nat) {g g1 : Gojo} {b1 : Ptr}
    (h1 : StepOK g.curr_version g g1) (hb1 : LegalPtr g1.alloc b1) :
    ∀ ga gb, ga = g1.withArena (set_black_color fuel g1.arena
        (rightP g1.heap fuel b1 g.curr_version) g.curr_version) →
      gb = ga.withArena (set_red_color fuel ga.arena b1 g.curr_version) →
      StepOK g.curr_version g (left_rotate fuel gb b1) := by
  intro ga gb ea eb
  obtain ⟨wa, eva⟩ := set_black_color_spec fuel h1.wf (rightP_legal h1.wf fuel hb1)
  have sa : StepOK g.curr_version g ga := by
    rw [ea]; exact h1.chain (step_arena wa eva h1.rootLegal)
  have aa : g1.alloc ≤ ga.alloc := by
    rw [ea]; exact eva.allocLe
  obtain ⟨wb, evb⟩ := set_red_color_spec fuel sa.wf (hb1.mono aa)
  have sb : StepOK g.curr_version g gb := by
    rw [eb]; exact sa.chain (step_arena wb evb sa.rootLegal)
  have ab : ga.alloc ≤ gb.alloc := by
    rw [eb]; exact evb.allocLe
  exact comp_left_rotate fuel sb rfl (fun _ => hb1.mono (le_trans aa ab))

/-- Case 4 of `delete_fixup` on the left-child arm, ending in the recursive
call on the new root. -/
theorem dfl_tailA (fuel lf : Nat) {g g2 : Gojo} {x b2 : Ptr}
    (hrec : ∀ (gz : Gojo) (nd : Ptr), StepOK g.curr_version g gz →
      (StepOK g.curr_version g gz → LegalPtr gz.alloc nd) →
      StepOK g.curr_version g (delete_fixup_loop fuel lf gz nd))
    (h2 : StepOK g.curr_version g g2) (hx : LegalPtr g.alloc x)
    (hb2 : LegalPtr g2.alloc b2) :
    ∀ g3 g4 g5, g3 = g2.withArena (set_color fuel g2.arena b2
        (get_color g2.heap fuel (parentP g2.heap fuel x g.curr_version) g.curr_version)
        g.curr_version) →
      g4 = g3.withArena (set_black_color fuel g3.arena
        (parentP g3.heap fuel x g.curr_version) g.curr_version) →
      g5 = g4.withArena (set_black_color fuel g4.arena
        (rightP g4.heap fuel b2 g.curr_version) g.curr_version) →
      StepOK g.curr_version g (delete_fixup_loop fuel lf
        (left_rotate fuel g5 (parentP g5.heap fuel x g.curr_version))
        (left_rotate fuel g5 (parentP g5.heap fuel x g.curr_version)).root) := by
  intro g3 g4 g5 e3 e4 e5
  obtain ⟨w3, ev3⟩ := set_color_spec fuel h2.wf hb2
    (get_color g2.heap fuel (parentP g2.heap fuel x g.curr_version) g.curr_version)
  have s3 : StepOK g.curr_version g g3 := by
    rw [e3]; exact h2.chain (step_arena w3 ev3 h2.rootLegal)
  have a23 : g2.alloc ≤ g3.alloc := by
    rw [e3]; exact ev3.allocLe
  obtain ⟨w4, ev4⟩ := set_black_color_spec fuel s3.wf
    (parentP_legal s3.wf fuel (hx.mono s3.ev.allocLe))
  have s4 : StepOK g.curr_version g g4 := by
    rw [e4]; exact s3.chain (step_arena w4 ev4 s3.rootLegal)
  have a34 : g3.alloc ≤ g4.alloc := by
    rw [e4]; exact ev4.allocLe
  obtain ⟨w5, ev5⟩ := set_black_color_spec fuel s4.wf
    (rightP_legal s4.wf fuel (hb2.mono (le_trans a23 a34)))
  have s5 : StepOK g.curr_version g g5 := by
    rw [e5]; exact s4.chain (step_arena w5 ev5 s4.rootLegal)
  have s6 : StepOK g.curr_version g
      (left_rotate fuel g5 (parentP g5.heap fuel x g.curr_version)) :=
    comp_left_rotate fuel s5 rfl
      (fun s => parentP_legal s.wf fuel (hx.mono s.ev.allocLe))
  exact hrec _ _ s6 (fun s => s.rootLegal)

/-- Case 4 of `delete_fixup` on the right-child arm. -/
theorem dfl_tailB (fuel lf : Nat) {g g2 : Gojo} {x b2 : Ptr}
    (hrec : ∀ (gz : Gojo) (nd : Ptr), StepOK g.curr_version g gz →
      (StepOK g.curr_version g gz → LegalPtr gz.alloc nd) →
      StepOK g.curr_version g (delete_fixup_loop fuel lf gz nd))
    (h2 : StepOK g.curr_version g g2) (hx : LegalPtr g.alloc x)
    (hb2 : LegalPtr g2.alloc b2) :
    ∀ g3 g4 g5, g3 = g2.withArena (set_color fuel g2.arena b2
        (get_color g2.heap fuel (parentP g2.heap fuel x g.curr_version) g.curr_version)
        g.curr_version) →
      g4 = g3.withArena (set_black_color fuel g3.arena
        (parentP g3.heap fuel x g.curr_version) g.curr_version) →
      g5 = g4.withArena (set_black_color fuel g4.arena
        (leftP g4.heap fuel b2 g.curr_version) g.curr_version) →
      StepOK g.curr_version g (delete_fixup_loop fuel lf
        (right_rotate fuel g5 (parentP g5.heap fuel x g.curr_version))
        (right_rotate fuel g5 (parentP g5.heap fuel x g.curr_version)).root) := by
  intro g3 g4 g5 e3 e4 e5
  obtain ⟨w3, ev3⟩ := set_color_spec fuel h2.wf hb2
    (get_color g2.heap fuel (parentP g2.heap fuel x g.curr_version) g.curr_version)
  have s3 : StepOK g.curr_version g g3 := by
    rw [e3]; exact h2.chain (step_arena w3 ev3 h2.rootLegal)
  have a23 : g2.alloc ≤ g3.alloc := by
    rw [e3]; exact ev3.allocLe
  obtain ⟨w4, ev4⟩ := set_black_color_spec fuel s3.wf
    (parentP_legal s3.wf fuel (hx.mono s3.ev.allocLe))
  have s4 : StepOK g.curr_version g g4 := by
    rw [e4]; exact s3.chain (step_arena w4 ev4 s3.rootLegal)
  have a34 : g3.alloc ≤ g4.alloc := by
    rw [e4]; exact ev4.allocLe
  obtain ⟨w5, ev5⟩ := set_black_color_spec fuel s4.wf
    (leftP_legal s4.wf fuel (hb2.mono (le_trans a23 a34)))
  have s5 : StepOK g.curr_version g g5 := by
    rw [e5]; exact s4.chain (step_arena w5 ev5 s4.rootLegal)
  have s6 : StepOK g.curr_version g
      (right_rotate fuel g5 (parentP g5.heap fuel x g.curr_version)) :=
    comp_right_rotate fuel s5 rfl
      (fun s => parentP_legal s.wf fuel (hx.mono s.ev.allocLe))
  exact hrec _ _ s6 (fun s => s.rootLegal)

/-- The `delete_fixup` loop preserves the engine invariants. -/
theorem delete_fixup_loop_ok (fuel : Nat) :
    ∀ (lf : Nat) (g : Gojo) (x : Ptr), ArenaWF g.curr_version g.arena →
      LegalPtr g.alloc g.root → LegalPtr g.alloc x →
      StepOK g.curr_version g (delete_fixup_loop fuel lf g x)
  | 0, g, _, hwf, hroot, _ => StepOK.refl hwf hroot
  | lf + 1, g, x, hwf, hroot, hx => by
    have comp_loop : ∀ (gz : Gojo) (nd : Ptr), StepOK g.curr_version g gz →
        (StepOK g.curr_version g gz → LegalPtr gz.alloc nd) →
        StepOK g.curr_version g (delete_fixup_loop fuel lf gz nd) := fun gz nd h1 hnd => by
      have hv : gz.curr_version = g.curr_version := h1.ver
      have r := delete_fixup_loop_ok fuel lf gz nd (by rw [hv]; exact h1.wf)
        h1.rootLegal (hnd h1)
      rw [hv] at r
      exact h1.chain r
    simp only [delete_fixup_loop]
    split
    · split
      · -- x is a left child
        split
        · -- Case 1 applied first (red brother)
          dsimp only
          have sGc := dfl_case1A fuel hwf hroot hx _ _ rfl rfl
          split
          · -- Case 2
            refine comp_loop _ _ ?_
              (fun s => parentP_legal s.wf fuel (hx.mono s.ev.allocLe))
            refine comp_arena ?_ (fun s => set_red_color_spec fuel s.wf
              (rightP_legal s.wf fuel (parentP_legal s.wf fuel (hx.mono s.ev.allocLe))))
            exact sGc
          · -- Cases 3 and 4
            split
            · dsimp only
              have hb1 := rightP_legal (v := g.curr_version) sGc.wf fuel
                (parentP_legal (v := g.curr_version) sGc.wf fuel (hx.mono sGc.ev.allocLe))
              have sGc2 := dfl_case3stepA fuel sGc hb1 _ _ rfl rfl
              have hb2 := rightP_legal (v := g.curr_version) sGc2.wf fuel
                (parentP_legal (v := g.curr_version) sGc2.wf fuel (hx.mono sGc2.ev.allocLe))
              exact dfl_tailA fuel lf comp_loop sGc2 hx hb2 _ _ _ rfl rfl rfl
            · dsimp only
              have hb1 := rightP_legal (v := g.curr_version) sGc.wf fuel
                (parentP_legal (v := g.curr_version) sGc.wf fuel (hx.mono sGc.ev.allocLe))
              exact dfl_tailA fuel lf comp_loop sGc hx hb1 _ _ _ rfl rfl rfl
        · -- black brother: no pre-rotation
          dsimp only
          split
          · -- Case 2
            refine comp_loop _ _ ?_
              (fun s => parentP_legal s.wf fuel (hx.mono s.ev.allocLe))
            refine comp_arena ?_ (fun s => set_red_color_spec fuel s.wf
              (rightP_legal s.wf fuel (parentP_legal s.wf fuel (hx.mono s.ev.allocLe))))
            exact StepOK.refl hwf hroot
          · -- Cases 3 and 4
            split
            · dsimp only
              have hb1 := rightP_legal (v := g.curr_version) hwf fuel
                (parentP_legal (v := g.curr_version) hwf fuel hx)
              have sGc2 := dfl_case3stepA fuel (StepOK.refl hwf hroot) hb1 _ _ rfl rfl
              have hb2 := rightP_legal (v := g.curr_version) sGc2.wf fuel
                (parentP_legal (v := g.curr_version) sGc2.wf fuel (hx.mono sGc2.ev.allocLe))
              exact dfl_tailA fuel lf comp_loop sGc2 hx hb2 _ _ _ rfl rfl rfl
            · dsimp only
              have hb1 := rightP_legal (v := g.curr_version) hwf fuel
                (parentP_legal (v := g.curr_version) hwf fuel hx)
              exact dfl_tailA fuel lf comp_loop (StepOK.refl hwf hroot) hx hb1 _ _ _
                rfl rfl rfl
      · -- x is a right child (mirror)
        split
        · dsimp only
          have sGc := dfl_case1B fuel hwf hroot hx _ _ rfl rfl
          split
          · refine comp_loop _ _ ?_
              (fun s => parentP_legal s.wf fuel (hx.mono s.ev.allocLe))
            refine comp_arena ?_ (fun s => set_red_color_spec fuel s.wf
              (leftP_legal s.wf fuel (parentP_legal s.wf fuel (hx.mono s.ev.allocLe))))
            exact sGc
          · split
            · dsimp only
              have hb1 := leftP_legal (v := g.curr_version) sGc.wf fuel
                (parentP_legal (v := g.curr_version) sGc.wf fuel (hx.mono sGc.ev.allocLe))
              have sGc2 := dfl_case3stepB fuel sGc hb1 _ _ rfl rfl
              have hb2 := leftP_legal (v := g.curr_version) sGc2.wf fuel
                (parentP_legal (v := g.curr_version) sGc2.wf fuel (hx.mono sGc2.ev.allocLe))
              exact dfl_tailB fuel lf comp_loop sGc2 hx hb2 _ _ _ rfl rfl rfl
            · dsimp only
              have hb1 := leftP_legal (v := g.curr_version) sGc.wf fuel
                (parentP_legal (v := g.curr_version) sGc.wf fuel (hx.mono sGc.ev.allocLe))
              exact dfl_tailB fuel lf comp_loop sGc hx hb1 _ _ _ rfl rfl rfl
        · dsimp only
          split
          · refine comp_loop _ _ ?_
              (fun s => parentP_legal s.wf fuel (hx.mono s.ev.allocLe))
            refine comp_arena ?_ (fun s => set_red_color_spec fuel s.wf
              (leftP_legal s.wf fuel (parentP_legal s.wf fuel (hx.mono s.ev.allocLe))))
            exact StepOK.refl hwf hroot
          · split
            · dsimp only
              have hb1 := leftP_legal (v := g.curr_version) hwf fuel
                (parentP_legal (v := g.curr_version) hwf fuel hx)
              have sGc2 := dfl_case3stepB fuel (StepOK.refl hwf hroot) hb1 _ _ rfl rfl
              have hb2 := leftP_legal (v := g.curr_version) sGc2.wf fuel
                (parentP_legal (v := g.curr_version) sGc2.wf fuel (hx.mono sGc2.ev.allocLe))
              exact dfl_tailB fuel lf comp_loop sGc2 hx hb2 _ _ _ rfl rfl rfl
            · dsimp only
              have hb1 := leftP_legal (v := g.curr_version) hwf fuel
                (parentP_legal (v := g.curr_version) hwf fuel hx)
              exact dfl_tailB fuel lf comp_loop (StepOK.refl hwf hroot) hx hb1 _ _ _
                rfl rfl rfl
    · -- loop exit: blacken x
      exact step_arena (set_black_color_spec fuel hwf hx).1
        (set_black_color_spec fuel hwf hx).2 hroot

/-- `Gojo::delete_fixup` preserves the engine invariants. -/
theorem delete_fixup_ok (fuel : Nat) {g : Gojo} (hwf : ArenaWF g.curr_version g.arena)
    (hroot : LegalPtr g.alloc g.root) {x : Ptr} (hx : LegalPtr g.alloc x) :
    StepOK g.curr_version g (delete_fixup fuel g x) :=
  delete_fixup_loop_ok fuel fuel g x hwf hroot hx

/-- `Gojo::transplant` preserves the engine invariants. -/
theorem transplant_ok (fuel : Nat) {g : Gojo} (hwf : ArenaWF g.curr_version g.arena)
    (hroot : LegalPtr g.alloc g.root) {u w : Ptr} (hu : LegalPtr g.alloc u)
    (hw : LegalPtr g.alloc w) : StepOK g.curr_version g (transplant fuel g u w) := by
  simp only [transplant]
  refine comp_arena ?_ (fun s => set_parent_spec fuel s.wf (hw.mono s.ev.allocLe)
    (parentP_legal s.wf fuel (hu.mono s.ev.allocLe)))
  refine comp_branch3 _ _ (StepOK.refl hwf hroot) (fun _ => hw)
    (fun s => set_left_spec fuel s.wf (parentP_legal s.wf fuel (hu.mono s.ev.allocLe))
      (hw.mono s.ev.allocLe))
    (fun s => set_right_spec fuel s.wf (parentP_legal s.wf fuel (hu.mono s.ev.allocLe))
      (hw.mono s.ev.allocLe))

/-- Compose a step with a transplant. -/
theorem comp_transplant (fuel : Nat) {V : Nat} {g g1 : Gojo} {u w : Ptr}
    (h1 : StepOK V g g1) (hver : g.curr_version = V)
    (hu : StepOK V g g1 → LegalPtr g1.alloc u)
    (hw : StepOK V g g1 → LegalPtr g1.alloc w) :
    StepOK V g (transplant fuel g1 u w) := by
  have hv : g1.curr_version = V := h1.ver.trans hver
  have r := transplant_ok fuel (g := g1) (by rw [hv]; exact h1.wf) h1.rootLegal
    (hu h1) (hw h1)
  rw [hv] at r
  exact h1.chain r

/-- Compose a step with a delete fixup. -/
theorem comp_delete_fixup (fuel : Nat) {V : Nat} {g g1 : Gojo} {x : Ptr}
    (h1 : StepOK V g g1) (hver : g.curr_version = V)
    (hx : StepOK V g g1 → LegalPtr g1.alloc x) :
    StepOK V g (delete_fixup fuel g1 x) := by
  have hv : g1.curr_version = V := h1.ver.trans hver
  have r := delete_fixup_ok fuel (g := g1) (by rw [hv]; exact h1.wf) h1.rootLegal (hx h1)
  rw [hv] at r
  exact h1.chain r

/-- `Gojo::successor_by_node` answers a legal pointer. -/
theorem successor_by_node_legal {V v : Nat} {g : Gojo} (hwf : ArenaWF V g.arena)
    (f : Nat) {p : Ptr} (hp : LegalPtr g.alloc p) :
    LegalPtr g.alloc (g.successor_by_node f p v) := by
  rw [Gojo.successor_by_node]
  split
  · exact min_node_legal hwf f f (rightP_legal hwf f hp)
  · exact succClimb_legal hwf f f hp (parentP_legal hwf f hp)

/-- `Gojo::delete` (the state component) preserves the engine invariants. -/
theorem delete_ok (fuel : Nat) {g : Gojo} (hwf : ArenaWF g.curr_version g.arena)
    (hroot : LegalPtr g.alloc g.root) {z : Ptr} (hz : LegalPtr g.alloc z) :
    StepOK g.curr_version g (Gojo.delete fuel g z).1 := by
  have hy : LegalPtr g.alloc (g.successor_by_node fuel z g.curr_version) :=
    successor_by_node_legal hwf fuel hz
  have hxr : LegalPtr g.alloc (rightP g.heap fuel
      (g.successor_by_node fuel z g.curr_version) g.curr_version) :=
    rightP_legal hwf fuel hy
  simp only [Gojo.delete]
  split
  · -- z has no left child
    dsimp only
    split
    · refine comp_delete_fixup fuel ?_ rfl
        (fun s => (rightP_legal hwf fuel hz).mono s.ev.allocLe)
      exact transplant_ok fuel hwf hroot hz (rightP_legal hwf fuel hz)
    · exact transplant_ok fuel hwf hroot hz (rightP_legal hwf fuel hz)
  · split
    · -- z has no right child
      dsimp only
      split
      · refine comp_delete_fixup fuel ?_ rfl
          (fun s => (leftP_legal hwf fuel hz).mono s.ev.allocLe)
        exact transplant_ok fuel hwf hroot hz (leftP_legal hwf fuel hz)
      · exact transplant_ok fuel hwf hroot hz (leftP_legal hwf fuel hz)
    · -- two children: splice the in-order successor
      dsimp only
      split
      · -- the removed colour was black: run the fixup
        split
        · -- the successor is z's direct child
          refine comp_delete_fixup fuel ?_ rfl (fun s => hxr.mono s.ev.allocLe)
          refine comp_arena ?_ (fun s => set_color_spec fuel s.wf
            (hy.mono s.ev.allocLe) _)
          refine comp_arena ?_ (fun s => set_parent_spec fuel s.wf
            (leftP_legal s.wf fuel (hz.mono s.ev.allocLe)) (hy.mono s.ev.allocLe))
          refine comp_arena ?_ (fun s => set_left_spec fuel s.wf (hy.mono s.ev.allocLe)
            (leftP_legal s.wf fuel (hz.mono s.ev.allocLe)))
          refine comp_transplant fuel ?_ rfl (fun s => hz.mono s.ev.allocLe)
            (fun s => hy.mono s.ev.allocLe)
          exact step_arena (set_parent_spec fuel hwf hxr hy).1
            (set_parent_spec fuel hwf hxr hy).2 hroot
        · refine comp_delete_fixup fuel ?_ rfl (fun s => hxr.mono s.ev.allocLe)
          refine comp_arena ?_ (fun s => set_color_spec fuel s.wf
            (hy.mono s.ev.allocLe) _)
          refine comp_arena ?_ (fun s => set_parent_spec fuel s.wf
            (leftP_legal s.wf fuel (hz.mono s.ev.allocLe)) (hy.mono s.ev.allocLe))
          refine comp_arena ?_ (fun s => set_left_spec fuel s.wf (hy.mono s.ev.allocLe)
            (leftP_legal s.wf fuel (hz.mono s.ev.allocLe)))
          refine comp_transplant fuel ?_ rfl (fun s => hz.mono s.ev.allocLe)
            (fun s => hy.mono s.ev.allocLe)
          refine comp_arena ?_ (fun s => set_parent_spec fuel s.wf
            (rightP_legal s.wf fuel (hy.mono s.ev.allocLe)) (hy.mono s.ev.allocLe))
          refine comp_arena ?_ (fun s => set_right_spec fuel s.wf (hy.mono s.ev.allocLe)
            (rightP_legal s.wf fuel (hz.mono s.ev.allocLe)))
          exact transplant_ok fuel hwf hroot hy hxr
      · -- the removed colour was red: no fixup
        split
        · refine comp_arena ?_ (fun s => set_color_spec fuel s.wf
            (hy.mono s.ev.allocLe) _)
          refine comp_arena ?_ (fun s => set_parent_spec fuel s.wf
            (leftP_legal s.wf fuel (hz.mono s.ev.allocLe)) (hy.mono s.ev.allocLe))
          refine comp_arena ?_ (fun s => set_left_spec fuel s.wf (hy.mono s.ev.allocLe)
            (leftP_legal s.wf fuel (hz.mono s.ev.allocLe)))
          refine comp_transplant fuel ?_ rfl (fun s => hz.mono s.ev.allocLe)
            (fun s => hy.mono s.ev.allocLe)
          exact step_arena (set_parent_spec fuel hwf hxr hy).1
            (set_parent_spec fuel hwf hxr hy).2 hroot
        · refine comp_arena ?_ (fun s => set_color_spec fuel s.wf
            (hy.mono s.ev.allocLe) _)
          refine comp_arena ?_ (fun s => set_parent_spec fuel s.wf
            (leftP_legal s.wf fuel (hz.mono s.ev.allocLe)) (hy.mono s.ev.allocLe))
          refine comp_arena ?_ (fun s => set_left_spec fuel s.wf (hy.mono s.ev.allocLe)
            (leftP_legal s.wf fuel (hz.mono s.ev.allocLe)))
          refine comp_transplant fuel ?_ rfl (fun s => hz.mono s.ev.allocLe)
            (fun s => hy.mono s.ev.allocLe)
          refine comp_arena ?_ (fun s => set_parent_spec fuel s.wf
            (rightP_legal s.wf fuel (hy.mono s.ev.allocLe)) (hy.mono s.ev.allocLe))
          refine comp_arena ?_ (fun s => set_right_spec fuel s.wf (hy.mono s.ev.allocLe)
            (rightP_legal s.wf fuel (hz.mono s.ev.allocLe)))
          exact transplant_ok fuel hwf hroot hy hxr

/-- Overwriting the same fresh slot twice keeps only the second write. -/
theorem hset_hset (h : Heap) (i : Nat) (r1 r2 : Record) :
    hset (hset h i r1) i r2 = hset h i r2 := by
  funext j
  by_cases hj : j = i
  · subst hj
    rw [hset_same, hset_same]
  · rw [hset_other _ _ _ hj, hset_other _ _ _ hj, hset_other _ _ _ hj]

/-- Writing a fresh record at the allocation frontier keeps the arena
well-formed and is an evolution (no pre-existing slot moves). -/
theorem freshWrite_spec {V : Nat} {a : Arena} (hwf : ArenaWF V a) {r : Record}
    (h1 : LegalPtr (a.alloc + 1) r.left) (h2 : LegalPtr (a.alloc + 1) r.right)
    (h3 : LegalPtr (a.alloc + 1) r.parent) (h4 : LegalPtr (a.alloc + 1) r.bk_ptr_left)
    (h5 : LegalPtr (a.alloc + 1) r.bk_ptr_right)
    (h6 : LegalPtr (a.alloc + 1) r.bk_ptr_parent)
    (hm : r.mods = []) (hn : r.next_copy = Ptr.nullPtr) (hv : r.version ≤ V) :
    ArenaWF V ⟨hset a.heap a.alloc r, a.alloc + 1⟩ ∧
    Evolves V a ⟨hset a.heap a.alloc r, a.alloc + 1⟩ := by
  constructor
  · refine ⟨Nat.succ_pos _, fun m hm2 => ?_⟩
    replace hm2 : m < a.alloc + 1 := hm2
    by_cases hma : m = a.alloc
    · show RecordWF V (a.alloc + 1) m (hset a.heap a.alloc r m)
      rw [hma, hset_same]
      exact ⟨h1, h2, h3, h4, h5, h6, Or.inl hn, by rw [hm]; simp [MAX_MODS],
        by rw [hm]; exact List.Pairwise.nil,
        by rw [hm]; exact fun x hx => absurd hx (List.not_mem_nil x), hv⟩
    · show RecordWF V (a.alloc + 1) m (hset a.heap a.alloc r m)
      rw [hset_other _ _ _ hma]
      exact (hwf.records m (by omega)).monoRec (le_refl _) (by omega)
  · have hz : (0 : Nat) ≠ a.alloc := by have := hwf.pos; omega
    refine ⟨hwf.pos, Nat.le_succ _, ?_, ?_, ?_, ?_, ?_, fun m hm0 hma => ?_⟩
    · show (hset a.heap a.alloc r 0).key = (a.heap 0).key
      rw [hset_other _ _ _ hz]
    · show (hset a.heap a.alloc r 0).value = (a.heap 0).value
      rw [hset_other _ _ _ hz]
    · show (hset a.heap a.alloc r 0).mods = (a.heap 0).mods
      rw [hset_other _ _ _ hz]
    · show (hset a.heap a.alloc r 0).version = (a.heap 0).version
      rw [hset_other _ _ _ hz]
    · show (hset a.heap a.alloc r 0).next_copy = (a.heap 0).next_copy
      rw [hset_other _ _ _ hz]
    · have hne : m ≠ a.alloc := by omega
      have heq : hset a.heap a.alloc r m = a.heap m := hset_other _ _ _ hne
      exact ⟨by simp [heq], by simp [heq], by simp [heq], by simp [heq], by simp [heq],
        by simp [heq], by simp [heq], ⟨[], by simp [heq], by simp⟩,
        Or.inl (by simp [heq])⟩

/-- The insertion descent only visits legal pointers. -/
theorem insertDescent_legal {V v : Nat} {a : Arena} (hwf : ArenaWF V a) (f : Nat)
    (k : Int) : ∀ (lf : Nat) {x y : Ptr}, LegalPtr a.alloc x → LegalPtr a.alloc y →
      LegalPtr a.alloc (insertDescent a.heap f k v lf x y)
  | 0, _, _, _, hy => hy
  | lf + 1, x, y, hx, hy => by
    rw [insertDescent]
    split
    · exact hy
    · split
      · exact insertDescent_legal hwf f k lf (leftP_legal hwf f hx) hx
      · exact insertDescent_legal hwf f k lf (rightP_legal hwf f hx) hx

/-- A registry lookup answers a legal pointer (the default is the null
pointer). -/
theorem getD_fst_legal {alloc : Nat} {l : List (Ptr × Nat)}
    (h : ∀ e ∈ l, LegalPtr alloc e.1) (n : Nat) :
    LegalPtr alloc ((l.getD n (Ptr.nullPtr, 0)).1) := by
  rcases lt_or_ge n l.length with hn | hn
  · rw [List.getD_eq_getElem _ _ hn]
    exact h _ (List.getElem_mem hn)
  · rw [List.getD_eq_default _ _ hn]
    exact legal_nullPtr _

/-- Everything `Gojo::insert` has established just before `insert_fixup`
runs: a well-formed evolved arena at the bumped version, a legal cached root
and fresh node, and untouched registry, length `len1` and nil. -/
structure InsPre (g g4 : Gojo) (node : Ptr) (len1 : Nat) : Prop where
  wf : ArenaWF (g.curr_version + 1) g4.arena
  ev : Evolves (g.curr_version + 1) g.arena g4.arena
  rootLegal : LegalPtr g4.alloc g4.root
  nodeLegal : LegalPtr g4.alloc node
  ver : g4.curr_version = g.curr_version + 1
  rootsEq : g4.roots = g.roots
  lenEq : g4.len = len1
  nilEq : g4.nil = g.nil

/-- Running `insert_fixup` and appending the new registry entry turns the
pre-fixup facts into the full engine invariant. -/
theorem insert_epilogue (fuel : Nat) {g g4 : Gojo} {node : Ptr} {len1 : Nat}
    (hpre : InsPre g g4 node len1)
    (hrootsLegal : ∀ e ∈ g.roots, LegalPtr g.alloc e.1)
    (hrootsLen : g.roots.length = g.curr_version + 1)
    (hnil : g.nil = Ptr.nilPtr) :
    GojoInv { insert_fixup fuel g4 node with
        roots := (insert_fixup fuel g4 node).roots ++
          [((insert_fixup fuel g4 node).root, len1)] } ∧
    ({ insert_fixup fuel g4 node with
        roots := (insert_fixup fuel g4 node).roots ++
          [((insert_fixup fuel g4 node).root, len1)] } : Gojo).curr_version =
      g.curr_version + 1 ∧
    Evolves (g.curr_version + 1) g.arena
      ({ insert_fixup fuel g4 node with
        roots := (insert_fixup fuel g4 node).roots ++
          [((insert_fixup fuel g4 node).root, len1)] } : Gojo).arena ∧
    ∃ e, ({ insert_fixup fuel g4 node with
        roots := (insert_fixup fuel g4 node).roots ++
          [((insert_fixup fuel g4 node).root, len1)] } : Gojo).roots =
      g.roots ++ [e] := by
  have s5 := insert_fixup_ok fuel (g := g4) (by rw [hpre.ver]; exact hpre.wf)
    hpre.rootLegal hpre.nodeLegal
  rw [hpre.ver] at s5
  have hvfinal : ({ insert_fixup fuel g4 node with
      roots := (insert_fixup fuel g4 node).roots ++
        [((insert_fixup fuel g4 node).root, len1)] } : Gojo).curr_version =
      g.curr_version + 1 := s5.ver.trans hpre.ver
  refine ⟨⟨?_, ?_, ?_, ?_, ?_⟩, hvfinal, ?_,
    ⟨((insert_fixup fuel g4 node).root, len1), ?_⟩⟩
  · rw [hvfinal]
    exact s5.wf
  · exact s5.rootLegal
  · intro e he
    rcases List.mem_append.mp he with h | h
    · rw [s5.rootsEq, hpre.rootsEq] at h
      exact (hrootsLegal e h).mono (hpre.ev.allocLe.trans s5.ev.allocLe)
    · rw [List.mem_singleton] at h
      subst h
      exact s5.rootLegal
  · show ((insert_fixup fuel g4 node).roots ++
        [((insert_fixup fuel g4 node).root, len1)]).length = _ + 1
    rw [List.length_append, List.length_singleton, s5.rootsEq, hpre.rootsEq,
      hrootsLen, hvfinal]
  · exact s5.nilEq.trans (hpre.nilEq.trans hnil)
  · exact hpre.ev.trans s5.ev
  · show (insert_fixup fuel g4 node).roots ++ _ = _
    rw [s5.rootsEq, hpre.rootsEq]

/-- `Gojo::insert` preserves the engine invariant, bumps the version by one,
evolves the heap at the new version and appends one registry entry. -/
theorem insert_inv (fuel : Nat) {g : Gojo} (hinv : GojoInv g) (k vv : Int) :
    GojoInv (Gojo.insert fuel g k vv) ∧
    (Gojo.insert fuel g k vv).curr_version = g.curr_version + 1 ∧
    Evolves (g.curr_version + 1) g.arena (Gojo.insert fuel g k vv).arena ∧
    ∃ e, (Gojo.insert fuel g k vv).roots = g.roots ++ [e] := by
  obtain ⟨hwfG, hrootG, hrootsG, hlensG, hnilG⟩ := hinv
  have hwfV : ArenaWF (g.curr_version + 1) g.arena := hwfG.monoArena (by omega)
  have hpos : 0 < g.alloc := hwfG.pos
  have hnodeL : LegalPtr (g.alloc + 1) (⟨some g.alloc, false⟩ : Ptr) :=
    legal_real hpos (by omega)
  have hnilL : LegalPtr (g.alloc + 1) g.nil := by
    rw [hnilG]; exact legal_nilPtr _
  have hfresh2 : ArenaWF (g.curr_version + 1)
      ⟨hset g.heap g.alloc { { Record.junk with key := k, value := vv } with
        version := g.curr_version + 1 }, g.alloc + 1⟩ ∧
      Evolves (g.curr_version + 1) g.arena
      ⟨hset g.heap g.alloc { { Record.junk with key := k, value := vv } with
        version := g.curr_version + 1 }, g.alloc + 1⟩ :=
    freshWrite_spec hwfV (legal_nullPtr _) (legal_nullPtr _) (legal_nullPtr _)
      (legal_nullPtr _) (legal_nullPtr _) (legal_nullPtr _) rfl rfl (le_refl _)
  have hx0 : LegalPtr (g.alloc + 1) ((g.roots.getD g.curr_version (Ptr.nullPtr, 0)).1) :=
    (getD_fst_legal hrootsG g.curr_version).mono (by omega)
  have hy : LegalPtr (g.alloc + 1)
      (insertDescent (hset g.heap g.alloc
        { { Record.junk with key := k, value := vv } with
          version := g.curr_version + 1 }) fuel k (g.curr_version + 1) fuel
        ((g.roots.getD g.curr_version (Ptr.nullPtr, 0)).1) Ptr.nullPtr) :=
    insertDescent_legal (v := g.curr_version + 1) hfresh2.1 fuel k fuel hx0
      (legal_nullPtr _)
  have hfresh3 : ArenaWF (g.curr_version + 1)
      ⟨hset g.heap g.alloc { { { Record.junk with key := k, value := vv } with
        version := g.curr_version + 1 } with
        parent := g.nil, left := g.nil, right := g.nil }, g.alloc + 1⟩ ∧
      Evolves (g.curr_version + 1) g.arena
      ⟨hset g.heap g.alloc { { { Record.junk with key := k, value := vv } with
        version := g.curr_version + 1 } with
        parent := g.nil, left := g.nil, right := g.nil }, g.alloc + 1⟩ :=
    freshWrite_spec hwfV hnilL hnilL hnilL (legal_nullPtr _) (legal_nullPtr _)
      (legal_nullPtr _) rfl rfl (le_refl _)
  have hfresh3a : ArenaWF (g.curr_version + 1)
      ⟨hset g.heap g.alloc { { { { Record.junk with key := k, value := vv } with
        version := g.curr_version + 1 } with
        parent := g.nil, left := g.nil, right := g.nil } with
        parent := insertDescent (hset g.heap g.alloc
          { { Record.junk with key := k, value := vv } with
            version := g.curr_version + 1 }) fuel k (g.curr_version + 1) fuel
          ((g.roots.getD g.curr_version (Ptr.nullPtr, 0)).1) Ptr.nullPtr,
        bk_ptr_parent := insertDescent (hset g.heap g.alloc
          { { Record.junk with key := k, value := vv } with
            version := g.curr_version + 1 }) fuel k (g.curr_version + 1) fuel
          ((g.roots.getD g.curr_version (Ptr.nullPtr, 0)).1) Ptr.nullPtr },
        g.alloc + 1⟩ ∧
      Evolves (g.curr_version + 1) g.arena
      ⟨hset g.heap g.alloc { { { { Record.junk with key := k, value := vv } with
        version := g.curr_version + 1 } with
        parent := g.nil, left := g.nil, right := g.nil } with
        parent := insertDescent (hset g.heap g.alloc
          { { Record.junk with key := k, value := vv } with
            version := g.curr_version + 1 }) fuel k (g.curr_version + 1) fuel
          ((g.roots.getD g.curr_version (Ptr.nullPtr, 0)).1) Ptr.nullPtr,
        bk_ptr_parent := insertDescent (hset g.heap g.alloc
          { { Record.junk with key := k, value := vv } with
            version := g.curr_version + 1 }) fuel k (g.curr_version + 1) fuel
          ((g.roots.getD g.curr_version (Ptr.nullPtr, 0)).1) Ptr.nullPtr },
        g.alloc + 1⟩ :=
    freshWrite_spec hwfV hnilL hnilL hy (legal_nullPtr _) (legal_nullPtr _) hy
      rfl rfl (le_refl _)
  simp only [Gojo.insert, hset_same, hset_hset]
  refine insert_epilogue fuel ?_ hrootsG hlensG hnilG
  split
  · exact ⟨hfresh3.1, hfresh3.2, hnodeL, hnodeL, rfl, rfl, rfl, rfl⟩
  · split
    · obtain ⟨wL, eL⟩ := set_left_spec (V := g.curr_version + 1) fuel hfresh3a.1
        hy hnodeL
      exact ⟨wL, hfresh3a.2.trans eL, hrootG.mono (hfresh3a.2.trans eL).allocLe,
        hnodeL.mono eL.allocLe, rfl, rfl, rfl, rfl⟩
    · obtain ⟨wR, eR⟩ := set_right_spec (V := g.curr_version + 1) fuel hfresh3a.1
        hy hnodeL
      exact ⟨wR, hfresh3a.2.trans eR, hrootG.mono (hfresh3a.2.trans eR).allocLe,
        hnodeL.mono eR.allocLe, rfl, rfl, rfl, rfl⟩

/-!  Reads at a version strictly below the mutation version are unchanged by
an evolution: the heart of persistence. -/

theorem deref_agree_key {V : Nat} {a a2 : Arena} (hev : Evolves V a a2) {p : Ptr}
    (hp : LegalPtr a.alloc p) : (deref a2.heap p).key = (deref a.heap p).key := by
  rcases hp with ⟨_, h0 | h0⟩ | ⟨_, i, ha, h1, h2⟩
  · simp [deref, h0]
  · simp only [deref, h0]
    exact hev.nilKey
  · simp only [deref, ha]
    exact (hev.old i h1 h2).1

theorem deref_agree_value {V : Nat} {a a2 : Arena} (hev : Evolves V a a2) {p : Ptr}
    (hp : LegalPtr a.alloc p) : (deref a2.heap p).value = (deref a.heap p).value := by
  rcases hp with ⟨_, h0 | h0⟩ | ⟨_, i, ha, h1, h2⟩
  · simp [deref, h0]
  · simp only [deref, h0]
    exact hev.nilValue
  · simp only [deref, ha]
    exact (hev.old i h1 h2).2.1

theorem glcLoop_agree {V w : Nat} {a a2 : Arena} (hwf : ArenaWF V a)
    (hev : Evolves V a a2) (hw : w < V) :
    ∀ (f i : Nat), 0 < i → i < a.alloc →
      glcLoop a2.heap w f ⟨some i, false⟩ = glcLoop a.heap w f ⟨some i, false⟩
  | 0, _, _, _ => rfl
  | f + 1, i, h0, hia => by
    have hrec := hwf.records i hia
    have hold := hev.old i h0 hia
    simp only [glcLoop, deref]
    rcases hold.2.2.2.2.2.2.2.2 with hsame | ⟨hnl, j, hj1, hj2, hj3, hj4⟩
    · rw [hsame]
      rcases hrec.2.2.2.2.2.2.1 with hn | ⟨j, hij, hja, hje⟩
      · rw [hn]
        simp [Ptr.nullPtr]
      · rw [hje]
        simp only [deref]
        have hver : (a2.heap j).version = (a.heap j).version :=
          (hev.old j (by omega) hja).2.2.2.2.2.2.1
        rw [hver]
        by_cases hv : (a.heap j).version ≤ w
        · simp only [hv, and_true]
          exact glcLoop_agree hwf hev hw f j (by omega) hja
        · simp [hv]
    · -- the record gained a copy from the mutation version: invisible at w
      rw [hj3]
      rcases hrec.2.2.2.2.2.2.1 with hn | ⟨j2, _, _, hje⟩
      · rw [hn]
        simp only [deref, hj4]
        have hvw : ¬ (V ≤ w) := by omega
        simp [Ptr.nullPtr, hvw]
      · exfalso
        rw [hje] at hnl
        simp at hnl

theorem get_last_copy_agree {V w : Nat} {a a2 : Arena} (hwf : ArenaWF V a)
    (hev : Evolves V a a2) (hw : w < V) (f : Nat) {p : Ptr}
    (hp : LegalPtr a.alloc p) :
    get_last_copy a2.heap f p w = get_last_copy a.heap f p w := by
  by_cases hn : p.null = true
  · rw [get_last_copy, get_last_copy, if_pos hn, if_pos hn]
  · have hn' : p.null = false := by revert hn; cases p.null <;> simp
    obtain ⟨i, rfl, h0, hia⟩ := legal_of_real hp hn'
    rw [get_last_copy, get_last_copy, if_neg hn, if_neg hn]
    exact glcLoop_agree hwf hev hw f i h0 hia

theorem mods_agree {V w : Nat} {a a2 : Arena} (hev : Evolves V a a2) (hw : w < V)
    {i : Nat} (h0 : 0 < i) (hia : i < a.alloc) :
    ∃ t, (a2.heap i).mods = (a.heap i).mods ++ t ∧ ∀ m ∈ t, w < m.version := by
  obtain ⟨t, hmods, htv⟩ := (hev.old i h0 hia).2.2.2.2.2.2.2.1
  exact ⟨t, hmods, fun m hm => by have := htv m hm; omega⟩

theorem get_color_agree {V w : Nat} {a a2 : Arena} (hwf : ArenaWF V a)
    (hev : Evolves V a a2) (hw : w < V) (f : Nat) {p : Ptr}
    (hp : LegalPtr a.alloc p) :
    get_color a2.heap f p w = get_color a.heap f p w := by
  by_cases hn : p.null = true
  · rw [get_color, get_color, if_pos hn, if_pos hn]
  · have hn' : p.null = false := by revert hn; cases p.null <;> simp
    rw [get_color, get_color, if_neg hn, if_neg hn]
    rw [get_last_copy_agree hwf hev hw f hp]
    obtain ⟨hqL, _, hqreal, _⟩ := get_last_copy_spec (v := w) hwf f hp
    obtain ⟨i, hqe, h0, hia⟩ := legal_of_real hqL (hqreal hn')
    rw [hqe]
    simp only [deref]
    obtain ⟨t, hmods, htv⟩ := mods_agree hev hw h0 hia
    rw [(hev.old i h0 hia).2.2.1, hmods, modScanColor_eq_selScan,
      modScanColor_eq_selScan, selScan_append_future colSel w t htv]

theorem leftP_agree {V w : Nat} {a a2 : Arena} (hwf : ArenaWF V a)
    (hev : Evolves V a a2) (hw : w < V) (f : Nat) {p : Ptr}
    (hp : LegalPtr a.alloc p) :
    leftP a2.heap f p w = leftP a.heap f p w := by
  by_cases hn : p.null = true
  · rw [leftP, leftP, if_pos hn, if_pos hn]
  · have hn' : p.null = false := by revert hn; cases p.null <;> simp
    rw [leftP, leftP, if_neg hn, if_neg hn]
    rw [get_last_copy_agree hwf hev hw f hp]
    obtain ⟨hqL, _, hqreal, _⟩ := get_last_copy_spec (v := w) hwf f hp
    obtain ⟨i, hqe, h0, hia⟩ := legal_of_real hqL (hqreal hn')
    have hrec := hwf.records i hia
    have hval : LegalPtr a.alloc
        (modScanLeft w (deref a.heap (get_last_copy a.heap f p w)).left
          (deref a.heap (get_last_copy a.heap f p w)).mods) := by
      rw [modScanLeft_eq_selScan]
      refine selScan_shape leftSel w _ _ _ ?_ ?_
      · rw [hqe]
        exact hrec.1
      · intro m hm x hx
        have := (hrec.2.2.2.2.2.2.2.2.2.1 m (by rw [hqe] at hm; exact hm)).2
        cases hd : m.data <;> simp [leftSel, hd] at hx <;>
          simp_all [modPayload, hd]
    rw [hqe]
    rw [hqe] at hval
    simp only [deref]
    simp only [deref] at hval
    obtain ⟨t, hmods, htv⟩ := mods_agree hev hw h0 hia
    rw [(hev.old i h0 hia).2.2.2.1, hmods, modScanLeft_eq_selScan,
      modScanLeft_eq_selScan, selScan_append_future leftSel w t htv]
    rw [modScanLeft_eq_selScan] at hval
    exact get_last_copy_agree hwf hev hw f hval

theorem rightP_agree {V w : Nat} {a a2 : Arena} (hwf : ArenaWF V a)
    (hev : Evolves V a a2) (hw : w < V) (f : Nat) {p : Ptr}
    (hp : LegalPtr a.alloc p) :
    rightP a2.heap f p w = rightP a.heap f p w := by
  by_cases hn : p.null = true
  · rw [rightP, rightP, if_pos hn, if_pos hn]
  · have hn' : p.null = false := by revert hn; cases p.null <;> simp
    rw [rightP, rightP, if_neg hn, if_neg hn]
    rw [get_last_copy_agree hwf hev hw f hp]
    obtain ⟨hqL, _, hqreal, _⟩ := get_last_copy_spec (v := w) hwf f hp
    obtain ⟨i, hqe, h0, hia⟩ := legal_of_real hqL (hqreal hn')
    have hrec := hwf.records i hia
    have hval : LegalPtr a.alloc
        (modScanRight w (deref a.heap (get_last_copy a.heap f p w)).right
          (deref a.heap (get_last_copy a.heap f p w)).mods) := by
      rw [modScanRight_eq_selScan]
      refine selScan_shape rightSel w _ _ _ ?_ ?_
      · rw [hqe]
        exact hrec.2.1
      · intro m hm x hx
        have := (hrec.2.2.2.2.2.2.2.2.2.1 m (by rw [hqe] at hm; exact hm)).2
        cases hd : m.data <;> simp [rightSel, hd] at hx <;>
          simp_all [modPayload, hd]
    rw [hqe]
    rw [hqe] at hval
    simp only [deref]
    simp only [deref] at hval
    obtain ⟨t, hmods, htv⟩ := mods_agree hev hw h0 hia
    rw [(hev.old i h0 hia).2.2.2.2.1, hmods, modScanRight_eq_selScan,
      modScanRight_eq_selScan, selScan_append_future rightSel w t htv]
    rw [modScanRight_eq_selScan] at hval
    exact get_last_copy_agree hwf hev hw f hval

theorem parentP_agree {V w : Nat} {a a2 : Arena} (hwf : ArenaWF V a)
    (hev : Evolves V a a2) (hw : w < V) (f : Nat) {p : Ptr}
    (hp : LegalPtr a.alloc p) (hn' : p.null = false) :
    parentP a2.heap f p w = parentP a.heap f p w := by
  have hn : ¬ p.null = true := by rw [hn']; simp
  rw [parentP, parentP, if_neg hn, if_neg hn]
  rw [get_last_copy_agree hwf hev hw f hp]
  obtain ⟨hqL, _, hqreal, _⟩ := get_last_copy_spec (v := w) hwf f hp
  obtain ⟨i, hqe, h0, hia⟩ := legal_of_real hqL (hqreal hn')
  have hrec := hwf.records i hia
  have hval : LegalPtr a.alloc
      (modScanParent w (deref a.heap (get_last_copy a.heap f p w)).parent
        (deref a.heap (get_last_copy a.heap f p w)).mods) := by
    rw [modScanParent_eq_selScan]
    refine selScan_shape parentSel w _ _ _ ?_ ?_
    · rw [hqe]
      exact hrec.2.2.1
    · intro m hm x hx
      have := (hrec.2.2.2.2.2.2.2.2.2.1 m (by rw [hqe] at hm; exact hm)).2
      cases hd : m.data <;> simp [parentSel, hd] at hx <;>
        simp_all [modPayload, hd]
  rw [hqe]
  rw [hqe] at hval
  simp only [deref]
  simp only [deref] at hval
  obtain ⟨t, hmods, htv⟩ := mods_agree hev hw h0 hia
  rw [(hev.old i h0 hia).2.2.2.2.2.1, hmods, modScanParent_eq_selScan,
    modScanParent_eq_selScan, selScan_append_future parentSel w t htv]
  rw [modScanParent_eq_selScan] at hval
  exact get_last_copy_agree hwf hev hw f hval

theorem ptr_eq_agree {V : Nat} {a a2 : Arena} (hev : Evolves V a a2) {p q : Ptr}
    (hp : LegalPtr a.alloc p) (hq : LegalPtr a.alloc q) :
    ptr_eq a2.heap p q = ptr_eq a.heap p q := by
  rw [ptr_eq, ptr_eq]
  split_ifs with h1 h2
  · rfl
  · rfl
  · rw [deref_agree_key hev hq, deref_agree_key hev hp]

theorem is_right_child_agree {V w : Nat} {a a2 : Arena} (hwf : ArenaWF V a)
    (hev : Evolves V a a2) (hw : w < V) (f : Nat) {x : Ptr}
    (hx : LegalPtr a.alloc x) (hxn : x.null = false) :
    is_right_child a2.heap f x w = is_right_child a.heap f x w := by
  simp only [is_right_child]
  rw [get_last_copy_agree hwf hev hw f hx]
  obtain ⟨hQ, _, hQr, _⟩ := get_last_copy_spec (v := w) hwf f hx
  rw [parentP_agree hwf hev hw f hQ (hQr hxn)]
  have hP := parentP_legal (v := w) hwf f hQ
  rw [rightP_agree hwf hev hw f hP]
  exact ptr_eq_agree hev (rightP_legal hwf f hP) hQ

theorem is_left_child_agree {V w : Nat} {a a2 : Arena} (hwf : ArenaWF V a)
    (hev : Evolves V a a2) (hw : w < V) (f : Nat) {x : Ptr}
    (hx : LegalPtr a.alloc x) (hxn : x.null = false) :
    is_left_child a2.heap f x w = is_left_child a.heap f x w := by
  simp only [is_left_child]
  rw [get_last_copy_agree hwf hev hw f hx]
  obtain ⟨hQ, _, hQr, _⟩ := get_last_copy_spec (v := w) hwf f hx
  rw [parentP_agree hwf hev hw f hQ (hQr hxn)]
  have hP := parentP_legal (v := w) hwf f hQ
  rw [leftP_agree hwf hev hw f hP]
  exact ptr_eq_agree hev (leftP_legal hwf f hP) hQ

theorem min_node_agree {V w : Nat} {a a2 : Arena} (hwf : ArenaWF V a)
    (hev : Evolves V a a2) (hw : w < V) (f : Nat) :
    ∀ (lf : Nat) {p : Ptr}, LegalPtr a.alloc p →
      min_node a2.heap f lf p w = min_node a.heap f lf p w
  | 0, _, _ => rfl
  | lf + 1, p, hp => by
    rw [min_node, min_node, leftP_agree hwf hev hw f hp]
    by_cases h : (leftP a.heap f p w).null = false
    · rw [if_pos h, if_pos h]
      exact min_node_agree hwf hev hw f lf (leftP_legal hwf f hp)
    · rw [if_neg h, if_neg h]

theorem succClimb_agree {V w : Nat} {a a2 : Arena} (hwf : ArenaWF V a)
    (hev : Evolves V a a2) (hw : w < V) (f : Nat) :
    ∀ (lf : Nat) {x y : Ptr}, LegalPtr a.alloc x → x.null = false →
      LegalPtr a.alloc y →
      succClimb a2.heap f w lf x y = succClimb a.heap f w lf x y
  | 0, _, _, _, _, _ => rfl
  | lf + 1, x, y, hx, hxn, hy => by
    rw [succClimb, succClimb]
    by_cases hyn : y.null = false
    · rw [is_right_child_agree hwf hev hw f hx hxn]
      by_cases hc : y.null = false ∧ is_right_child a.heap f x w = true
      · rw [if_pos hc, if_pos hc, parentP_agree hwf hev hw f hy hyn]
        exact succClimb_agree hwf hev hw f lf hy hyn (parentP_legal hwf f hy)
      · rw [if_neg hc, if_neg hc]
    · have hno2 : ¬ ((y.null = false) ∧
          is_right_child a2.heap f x w = true) := fun h => hyn h.1
      have hno1 : ¬ ((y.null = false) ∧
          is_right_child a.heap f x w = true) := fun h => hyn h.1
      rw [if_neg hno2, if_neg hno1]

theorem successor_by_node_agree {V w : Nat} {g g2 : Gojo}
    (hwf : ArenaWF V g.arena) (hev : Evolves V g.arena g2.arena) (hw : w < V)
    (f : Nat) {x : Ptr} (hx : LegalPtr g.alloc x) (hxn : x.null = false) :
    g2.successor_by_node f x w = g.successor_by_node f x w := by
  rw [Gojo.successor_by_node, Gojo.successor_by_node]
  rw [show g2.heap = g2.arena.heap from rfl, show g.heap = g.arena.heap from rfl]
  rw [rightP_agree hwf hev hw f hx]
  by_cases h : (rightP g.arena.heap f x w).null = false
  · rw [if_pos h, if_pos h]
    exact min_node_agree hwf hev hw f f (rightP_legal hwf f hx)
  · rw [if_neg h, if_neg h, parentP_agree hwf hev hw f hx hxn]
    exact succClimb_agree hwf hev hw f f hx hxn (parentP_legal hwf f hx)

theorem succDescent_agree {V w : Nat} {a a2 : Arena} (hwf : ArenaWF V a)
    (hev : Evolves V a a2) (hw : w < V) (f : Nat) (k : Int) :
    ∀ (lf : Nat) {x : Ptr}, LegalPtr a.alloc x →
      succDescent a2.heap f k w lf x = succDescent a.heap f k w lf x
  | 0, _, _ => rfl
  | lf + 1, x, hx => by
    rw [succDescent, succDescent, deref_agree_key hev hx]
    cases hcmp : compare k (deref a.heap x).key with
    | lt =>
      simp only [hcmp]
      rw [leftP_agree hwf hev hw f hx]
      by_cases h : (leftP a.heap f x w).null = true
      · rw [if_pos h, if_pos h]
      · rw [if_neg h, if_neg h]
        exact succDescent_agree hwf hev hw f k lf (leftP_legal hwf f hx)
    | eq =>
      simp only [hcmp]
      rw [rightP_agree hwf hev hw f hx]
      by_cases h : (rightP a.heap f x w).null = true
      · rw [if_pos h, if_pos h]
      · rw [if_neg h, if_neg h]
        exact succDescent_agree hwf hev hw f k lf (rightP_legal hwf f hx)
    | gt =>
      simp only [hcmp]
      rw [rightP_agree hwf hev hw f hx]
      by_cases h : (rightP a.heap f x w).null = true
      · rw [if_pos h, if_pos h]
      · rw [if_neg h, if_neg h]
        exact succDescent_agree hwf hev hw f k lf (rightP_legal hwf f hx)

theorem findLoop_agree {V w : Nat} {a a2 : Arena} (hwf : ArenaWF V a)
    (hev : Evolves V a a2) (hw : w < V) (f : Nat) (k : Int) :
    ∀ (lf : Nat) {x : Ptr}, LegalPtr a.alloc x →
      findLoop a2.heap f k w lf x = findLoop a.heap f k w lf x
  | 0, _, _ => rfl
  | lf + 1, x, hx => by
    rw [findLoop, findLoop, deref_agree_key hev hx]
    cases hcmp : compare k (deref a.heap x).key with
    | eq => simp only [hcmp]
    | lt =>
      simp only [hcmp]
      rw [leftP_agree hwf hev hw f hx]
      by_cases h : (leftP a.heap f x w).null = true
      · rw [if_pos h, if_pos h]
      · rw [if_neg h, if_neg h]
        exact findLoop_agree hwf hev hw f k lf (leftP_legal hwf f hx)
    | gt =>
      simp only [hcmp]
      rw [rightP_agree hwf hev hw f hx]
      by_cases h : (rightP a.heap f x w).null = true
      · rw [if_pos h, if_pos h]
      · rw [if_neg h, if_neg h]
        exact findLoop_agree hwf hev hw f k lf (rightP_legal hwf f hx)

/-- `Gojo::find_node` answers a legal pointer. -/
theorem find_node_legal {V : Nat} {g : Gojo} (hwf : ArenaWF V g.arena)
    (hroots : ∀ e ∈ g.roots, LegalPtr g.alloc e.1) (f : Nat) (k : Int) (v : Nat) :
    LegalPtr g.alloc (g.find_node f k v) := by
  rw [Gojo.find_node]
  split
  · exact legal_nullPtr _
  · exact findLoop_legal hwf f k f (getD_fst_legal hroots v)

theorem find_node_agree {V w : Nat} {g g2 : Gojo} (hwf : ArenaWF V g.arena)
    (hroots : ∀ e ∈ g.roots, LegalPtr g.alloc e.1)
    (hev : Evolves V g.arena g2.arena) (hw : w < V) (f : Nat) (k : Int)
    (hwc : w ≤ g.curr_version) (hvc : g.curr_version ≤ g2.curr_version)
    (hgd : g2.roots.getD w (Ptr.nullPtr, 0) = g.roots.getD w (Ptr.nullPtr, 0)) :
    g2.find_node f k w = g.find_node f k w := by
  rw [Gojo.find_node, Gojo.find_node]
  have h1 : ¬ (g.curr_version < w) := by omega
  have h2 : ¬ (g2.curr_version < w) := by omega
  rw [if_neg h1, if_neg h2, hgd]
  exact findLoop_agree hwf hev hw f k f (getD_fst_legal hroots w)

theorem get_agree {V w : Nat} {g g2 : Gojo} (hwf : ArenaWF V g.arena)
    (hroots : ∀ e ∈ g.roots, LegalPtr g.alloc e.1)
    (hev : Evolves V g.arena g2.arena) (hw : w < V) (f : Nat) (k : Int)
    (hwc : w ≤ g.curr_version) (hvc : g.curr_version ≤ g2.curr_version)
    (hgd : g2.roots.getD w (Ptr.nullPtr, 0) = g.roots.getD w (Ptr.nullPtr, 0)) :
    g2.get f k w = g.get f k w := by
  simp only [Gojo.get]
  rw [find_node_agree hwf hroots hev hw f k hwc hvc hgd]
  rw [show g2.heap = g2.arena.heap from rfl, show g.heap = g.arena.heap from rfl]
  by_cases h : (g.find_node f k w).null = true
  · rw [if_pos h, if_pos h]
  · rw [if_neg h, if_neg h]
    rw [deref_agree_value hev (find_node_legal hwf hroots f k w)]

theorem successor_by_key_agree {V w : Nat} {g g2 : Gojo} (hwf : ArenaWF V g.arena)
    (hroots : ∀ e ∈ g.roots, LegalPtr g.alloc e.1)
    (hev : Evolves V g.arena g2.arena) (hw : w < V) (f : Nat) (k : Int)
    (hwc : w ≤ g.curr_version) (hvc : g.curr_version ≤ g2.curr_version)
    (hgd : g2.roots.getD w (Ptr.nullPtr, 0) = g.roots.getD w (Ptr.nullPtr, 0)) :
    g2.successor_by_key f k w = g.successor_by_key f k w := by
  simp only [Gojo.successor_by_key, Gojo.latest_version]
  have h1 : ¬ (g.curr_version < w) := by omega
  have h2 : ¬ (g2.curr_version < w) := by omega
  rw [if_neg h1, if_neg h2, hgd]
  rw [show g2.heap = g2.arena.heap from rfl, show g.heap = g.arena.heap from rfl]
  have hx0 : LegalPtr g.alloc ((g.roots.getD w (Ptr.nullPtr, 0)).1) :=
    getD_fst_legal hroots w
  rw [succDescent_agree hwf hev hw f k f hx0]
  have hx : LegalPtr g.alloc
      (succDescent g.arena.heap f k w f ((g.roots.getD w (Ptr.nullPtr, 0)).1)) :=
    succDescent_legal hwf f k f hx0
  by_cases hxn : (succDescent g.arena.heap f k w f
      ((g.roots.getD w (Ptr.nullPtr, 0)).1)).null = true
  · rw [if_pos hxn, if_pos hxn]
  · rw [if_neg hxn, if_neg hxn]
    have hxn' : (succDescent g.arena.heap f k w f
        ((g.roots.getD w (Ptr.nullPtr, 0)).1)).null = false := by
      revert hxn; cases (succDescent g.arena.heap f k w f
        ((g.roots.getD w (Ptr.nullPtr, 0)).1)).null <;> simp
    rw [deref_agree_key hev hx]
    by_cases hcmp : compare k (deref g.arena.heap (succDescent g.arena.heap f k w f
        ((g.roots.getD w (Ptr.nullPtr, 0)).1))).key = Ordering.lt
    · rw [if_pos hcmp, if_pos hcmp, deref_agree_value hev hx]
    · rw [if_neg hcmp, if_neg hcmp]
      rw [successor_by_node_agree hwf hev hw f hx hxn']
      have hsucc : LegalPtr g.alloc (g.successor_by_node f
          (succDescent g.arena.heap f k w f
          ((g.roots.getD w (Ptr.nullPtr, 0)).1)) w) :=
        successor_by_node_legal hwf f hx
      by_cases hsn : (g.successor_by_node f (succDescent g.arena.heap f k w f
          ((g.roots.getD w (Ptr.nullPtr, 0)).1)) w).null = true
      · rw [if_pos hsn, if_pos hsn]
      · rw [if_neg hsn, if_neg hsn, deref_agree_value hev hsucc]

/-- Registry lookups below the old length ignore an appended entry. -/
theorem getD_append_prefix {α : Type} (l l2 : List α) (d : α) {n : Nat}
    (h : n < l.length) : (l ++ l2).getD n d = l.getD n d := by
  rw [List.getD_eq_getElem?_getD, List.getD_eq_getElem?_getD,
    List.getElem?_append_left h]

/-- Registry lookups away from the overwritten index ignore a `set`. -/
theorem getD_set_ne {α : Type} (l : List α) (i : Nat) (b : α) {n : Nat}
    (h : n ≠ i) (d : α) : (l.set i b).getD n d = l.getD n d := by
  rw [List.getD_eq_getElem?_getD, List.getD_eq_getElem?_getD,
    List.getElem?_set_ne (fun he => h he.symm)]

/-- What one engine mutation does: either nothing at all, or it bumps the
version by one, evolves the heap at the new version and keeps every older
registry entry — and in both cases the invariant is preserved. -/
structure OpOK (g gr : Gojo) : Prop where
  inv : GojoInv gr
  steps : gr = g ∨
    (gr.curr_version = g.curr_version + 1 ∧
     Evolves (g.curr_version + 1) g.arena gr.arena ∧
     ∀ w, w ≤ g.curr_version →
        gr.roots.getD w (Ptr.nullPtr, 0) = g.roots.getD w (Ptr.nullPtr, 0))

theorem insert_opok (fuel : Nat) {g : Gojo} (hinv : GojoInv g) (k vv : Int) :
    OpOK g (Gojo.insert fuel g k vv) := by
  obtain ⟨hi, hver, hev, e, hroots⟩ := insert_inv fuel hinv k vv
  refine ⟨hi, Or.inr ⟨hver, hev, fun w hw => ?_⟩⟩
  rw [hroots]
  exact getD_append_prefix _ _ _ (by rw [hinv.rootsLen]; omega)

theorem remove_opok (fuel : Nat) {g : Gojo} (hinv : GojoInv g) (k : Int) :
    OpOK g (Gojo.remove fuel g k).1 := by
  obtain ⟨hwfG, hrootG, hrootsG, hlensG, hnilG⟩ := hinv
  have hwfV : ArenaWF (g.curr_version + 1) g.arena := hwfG.monoArena (by omega)
  have hnode : LegalPtr g.alloc (g.find_node fuel k g.curr_version) :=
    find_node_legal hwfG hrootsG fuel k g.curr_version
  simp only [Gojo.remove]
  split
  · exact ⟨⟨hwfG, hrootG, hrootsG, hlensG, hnilG⟩, Or.inl rfl⟩
  · have sDel := delete_ok fuel
      (g := { g with len := g.len - 1, curr_version := g.curr_version + 1, roots := g.roots ++ [(g.root, g.len - 1)] })
      hwfV hrootG hnode
    have hverD : (Gojo.delete fuel { g with len := g.len - 1, curr_version := g.curr_version + 1, roots := g.roots ++ [(g.root, g.len - 1)] } (g.find_node fuel k g.curr_version)).1.curr_version = g.curr_version + 1 := sDel.ver
    have hrootsD : (Gojo.delete fuel { g with len := g.len - 1, curr_version := g.curr_version + 1, roots := g.roots ++ [(g.root, g.len - 1)] } (g.find_node fuel k g.curr_version)).1.roots = g.roots ++ [(g.root, g.len - 1)] := sDel.rootsEq
    have hnilD : (Gojo.delete fuel { g with len := g.len - 1, curr_version := g.curr_version + 1, roots := g.roots ++ [(g.root, g.len - 1)] } (g.find_node fuel k g.curr_version)).1.nil = g.nil := sDel.nilEq
    refine ⟨⟨?_, ?_, ?_, ?_, ?_⟩, Or.inr ⟨?_, ?_, ?_⟩⟩
    · dsimp only
      rw [hverD]
      exact sDel.wf
    · dsimp only
      exact (get_last_copy_spec sDel.wf fuel sDel.rootLegal).1
    · dsimp only
      intro e he
      rcases List.mem_or_eq_of_mem_set he with h | h
      · rw [hrootsD] at h
        rcases List.mem_append.mp h with h2 | h2
        · exact (hrootsG e h2).mono sDel.ev.allocLe
        · rw [List.mem_singleton] at h2
          subst h2
          exact hrootG.mono sDel.ev.allocLe
      · subst h
        exact (get_last_copy_spec sDel.wf fuel
          (get_last_copy_spec sDel.wf fuel sDel.rootLegal).1).1
    · dsimp only
      rw [List.length_set, hrootsD, List.length_append, List.length_singleton,
        hlensG, hverD]
    · dsimp only
      rw [hnilD, hnilG]
    · dsimp only
      exact hverD
    · exact sDel.ev
    · intro w hw
      dsimp only
      have hne : w ≠ (Gojo.delete fuel { g with len := g.len - 1, curr_version := g.curr_version + 1, roots := g.roots ++ [(g.root, g.len - 1)] } (g.find_node fuel k g.curr_version)).1.curr_version := by rw [hverD]; omega
      rw [getD_set_ne _ _ _ hne, hrootsD,
        getD_append_prefix _ _ _ (by rw [hlensG]; omega)]

theorem college_remove_opok (fuel : Nat) {g : Gojo} (hinv : GojoInv g) (k : Int) :
    OpOK g (Gojo.college_remove fuel g k).1 := by
  obtain ⟨hwfG, hrootG, hrootsG, hlensG, hnilG⟩ := hinv
  have hwfV : ArenaWF (g.curr_version + 1) g.arena := hwfG.monoArena (by omega)
  have hnode : LegalPtr g.alloc (g.find_node fuel k g.curr_version) :=
    find_node_legal hwfG hrootsG fuel k g.curr_version
  simp only [Gojo.college_remove]
  split
  · refine ⟨⟨hwfV, hrootG, ?_, ?_, hnilG⟩,
      Or.inr ⟨rfl, Evolves.reflOf hwfG.pos, fun w hw => ?_⟩⟩
    · intro e he
      rcases List.mem_append.mp he with h | h
      · exact hrootsG e h
      · rw [List.mem_singleton] at h
        subst h
        exact hrootG
    · dsimp only
      rw [List.length_append, List.length_singleton, hlensG]
    · exact getD_append_prefix _ _ _ (by rw [hlensG]; omega)
  · have sDel := delete_ok fuel
      (g := { g with len := g.len - 1, curr_version := g.curr_version + 1, roots := g.roots ++ [(g.root, g.len - 1)] })
      hwfV hrootG hnode
    have hverD : (Gojo.delete fuel { g with len := g.len - 1, curr_version := g.curr_version + 1, roots := g.roots ++ [(g.root, g.len - 1)] } (g.find_node fuel k g.curr_version)).1.curr_version = g.curr_version + 1 := sDel.ver
    have hrootsD : (Gojo.delete fuel { g with len := g.len - 1, curr_version := g.curr_version + 1, roots := g.roots ++ [(g.root, g.len - 1)] } (g.find_node fuel k g.curr_version)).1.roots = g.roots ++ [(g.root, g.len - 1)] := sDel.rootsEq
    have hnilD : (Gojo.delete fuel { g with len := g.len - 1, curr_version := g.curr_version + 1, roots := g.roots ++ [(g.root, g.len - 1)] } (g.find_node fuel k g.curr_version)).1.nil = g.nil := sDel.nilEq
    refine ⟨⟨?_, ?_, ?_, ?_, ?_⟩, Or.inr ⟨?_, ?_, ?_⟩⟩
    · dsimp only
      rw [hverD]
      exact sDel.wf
    · dsimp only
      exact (get_last_copy_spec sDel.wf fuel sDel.rootLegal).1
    · dsimp only
      intro e he
      rcases List.mem_or_eq_of_mem_set he with h | h
      · rw [hrootsD] at h
        rcases List.mem_append.mp h with h2 | h2
        · exact (hrootsG e h2).mono sDel.ev.allocLe
        · rw [List.mem_singleton] at h2
          subst h2
          exact hrootG.mono sDel.ev.allocLe
      · subst h
        exact (get_last_copy_spec sDel.wf fuel
          (get_last_copy_spec sDel.wf fuel sDel.rootLegal).1).1
    · dsimp only
      rw [List.length_set, hrootsD, List.length_append, List.length_singleton,
        hlensG, hverD]
    · dsimp only
      rw [hnilD, hnilG]
    · dsimp only
      exact hverD
    · exact sDel.ev
    · intro w hw
      dsimp only
      have hne : w ≠ (Gojo.delete fuel { g with len := g.len - 1, curr_version := g.curr_version + 1, roots := g.roots ++ [(g.root, g.len - 1)] } (g.find_node fuel k g.curr_version)).1.curr_version := by rw [hverD]; omega
      rw [getD_set_ne _ _ _ hne, hrootsD,
        getD_append_prefix _ _ _ (by rw [hlensG]; omega)]

/-- The fresh engine satisfies the invariant. -/
theorem new_inv : GojoInv Gojo.new := by
  refine ⟨⟨Nat.one_pos, fun m hm => ?_⟩, legal_nullPtr _, ?_, rfl, rfl⟩
  · replace hm : m < 1 := hm
    have hm0 : m = 0 := by omega
    subst hm0
    show RecordWF 0 1 0 (hset (fun _ => Record.junk) 0 { Record.junk with color := .Black, left := .nilPtr, right := .nilPtr, parent := .nilPtr } 0)
    rw [hset_same]
    exact ⟨legal_nilPtr _, legal_nilPtr _, legal_nilPtr _, legal_nullPtr _,
      legal_nullPtr _, legal_nullPtr _, Or.inl rfl, by simp [Record.junk, MAX_MODS],
      List.Pairwise.nil, fun x hx => absurd hx (List.not_mem_nil x), le_refl _⟩
  · intro e he
    rw [show Gojo.new.roots = [(Ptr.nilPtr, 0)] from rfl, List.mem_singleton] at he
    subst he
    exact legal_nilPtr _

/-- Every mutation preserves the invariant. -/
theorem applyGOp_opok {g : Gojo} (hinv : GojoInv g) (op : GOp) :
    OpOK g (applyGOp g op) := by
  cases op with
  | ins k v fuel => exact insert_opok fuel hinv k v
  | rem k fuel => exact remove_opok fuel hinv k
  | crem k fuel => exact college_remove_opok fuel hinv k

/-- Every reachable engine state satisfies the invariant. -/
theorem reachable_inv {g : Gojo} (h : GojoReachable g) : GojoInv g := by
  obtain ⟨ops, rfl⟩ := h
  rw [applyGOps]
  suffices H : ∀ (l : List GOp) (s : Gojo), GojoInv s → GojoInv (l.foldl applyGOp s) from
    H ops Gojo.new new_inv
  intro l
  induction l with
  | nil => exact fun s hs => hs
  | cons o t ih =>
    intro s hs
    rw [List.foldl_cons]
    exact ih _ ((applyGOp_opok hs o).inv)

/-- Claim C1 (confirmed): executing any subsequent mutation — insert, remove
or college_remove — leaves the results of `get(k, v')` and
`successor_by_key(k, v')` unchanged for every version v' at or below the
pre-mutation current version, on every reachable engine state and for every
search fuel. -/
theorem C1_persistence (g : Gojo) (hg : GojoReachable g) (op : GOp) (fuel : Nat)
    (k : Int) (w : Nat) (hw : w ≤ g.curr_version) :
    (applyGOp g op).get fuel k w = g.get fuel k w ∧
    (applyGOp g op).successor_by_key fuel k w = g.successor_by_key fuel k w := by
  have hinv := reachable_inv hg
  obtain ⟨hok, hsteps⟩ := applyGOp_opok hinv op
  rcases hsteps with heq | ⟨hver, hev, hgd⟩
  · rw [heq]
    exact ⟨rfl, rfl⟩
  · have hwf := hinv.wf.monoArena (Nat.le_succ g.curr_version)
    constructor
    · exact get_agree hwf hinv.rootsLegal hev (by omega) fuel k hw (by omega)
        (hgd w hw)
    · exact successor_by_key_agree hwf hinv.rootsLegal hev (by omega) fuel k hw
        (by omega) (hgd w hw)

/-- Witness for C1 at a concrete input: inserting into the fresh engine
leaves the version-0 answers unchanged. -/
theorem C1_persistence_witness :
    GojoReachable Gojo.new ∧ 0 ≤ Gojo.new.curr_version ∧
    ((applyGOp Gojo.new (GOp.ins 1 2 8)).get 8 0 0 = Gojo.new.get 8 0 0 ∧
     (applyGOp Gojo.new (GOp.ins 1 2 8)).successor_by_key 8 0 0 =
       Gojo.new.successor_by_key 8 0 0) :=
  ⟨⟨[], rfl⟩, Nat.zero_le _,
    C1_persistence Gojo.new ⟨[], rfl⟩ (GOp.ins 1 2 8) 8 0 0 (Nat.zero_le _)⟩

/-- Claim C7 (amended): after every sequence of engine operations, every node
record's mod log contains at most M = 6 entries, its entries are
non-decreasing in version (one mutation may append several entries sharing
its version), and no entry's version exceeds the current version. -/
theorem C7_amended (g : Gojo) (hg : GojoReachable g) :
    ∀ i, i < g.alloc → (g.heap i).mods.length ≤ 6 ∧
      ModsSorted (g.heap i).mods ∧
      ∀ m ∈ (g.heap i).mods, m.version ≤ g.curr_version := by
  intro i hi
  have hrec := (reachable_inv hg).wf.records i hi
  exact ⟨hrec.2.2.2.2.2.2.2.1, hrec.2.2.2.2.2.2.2.2.1,
    fun m hm => (hrec.2.2.2.2.2.2.2.2.2.1 m hm).1⟩

/-- Witness for the amended C7 on the duplicate-key run behind the
counterexample. -/
theorem C7_amended_witness :
    GojoReachable dupState ∧
    (∀ i, i < dupState.alloc → (dupState.heap i).mods.length ≤ 6 ∧
      ModsSorted (dupState.heap i).mods ∧
      ∀ m ∈ (dupState.heap i).mods, m.version ≤ dupState.curr_version) :=
  ⟨⟨[.ins 1 10 8, .ins 1 20 8, .ins 1 30 8], rfl⟩,
    C7_amended dupState ⟨[.ins 1 10 8, .ins 1 20 8, .ins 1 30 8], rfl⟩⟩

end Hokkaido
